import Mathlib

/-!
# hub: requires/provides resolution and output merge/expansion

A shallow embedding of `hub/lifecycle/provides.go`, `hub/lifecycle/requirement.go`,
`hub/parameters/output.go` and `hub/util/print.go`, and the properties proved about it.

Conventions of the embedding:

* a Go `map[string]V` is an association list read through `mapGet` (first entry of a key)
  and written through `mapSet` (overwrite in place, else append);
* logging, warnings and calls into collaborators are recorded as a trace of `Event`s;
* `os.Exit` and `log.Fatalf` end the process: a `Run` whose `result` is `none`.
-/

namespace Hub

/-! ## Go maps -/

/-- A Go `map[string]V` as an association list. -/
abbrev GoMap (V : Type) := List (String × V)

/-- The Go read `m[k]` with its `exist` flag. -/
def mapGet {V : Type} : GoMap V → String → Option V
  | [], _ => none
  | (k', v) :: rest, k => if k' = k then some v else mapGet rest k

/-- The Go write `m[k] = v`. -/
def mapSet {V : Type} : GoMap V → String → V → GoMap V
  | [], k, v => [(k, v)]
  | (k', v') :: rest, k, v => if k' = k then (k, v) :: rest else (k', v') :: mapSet rest k v

/-- The keys of a map, each once, in first-occurrence order. -/
def mapKeys {V : Type} (m : GoMap V) : List String :=
  (m.map Prod.fst).dedup

/-! ## Process model -/

/-- The flags of `hub/config` read by the embedded code. -/
structure Config where
  Verbose : Bool
  Debug : Bool
  Trace : Bool
  Force : Bool
deriving DecidableEq, Repr

/-- A captured output: `parameters.CapturedOutput`, with the fields the embedded code reads. -/
structure CapturedOutput where
  Name : String
  Component : String
  Value : String
  Kind : String
deriving DecidableEq, Repr

/-- The type `parameters.CapturedOutputs`: a map from qualified name to captured output. -/
abbrev CapturedOutputs := GoMap CapturedOutput

/-- Observable effects. `printf` is `log.Printf`/`log.Print` and `warn` is `util.Warn`, each
recorded with its format string and its string arguments; `printOutputs` is a call of
`parameters.PrintCapturedOutputs`; `setup` is a call of `setupRequirement`; `fatal` is
`log.Fatalf`, after which the process is gone; `warnOnce` is a call of `util.WarnOnce`
(which prints a message the first time only); `exec` is the run of an external command;
`write` is the writing of rendered content to a file. -/
inductive Event where
  | printf (format : String) (args : List String)
  | warn (format : String) (args : List String)
  | printOutputs (outputs : CapturedOutputs)
  | setup (requirement provider : String)
  | fatal (format : String) (args : List String)
  | warnOnce (format : String) (args : List String)
  | exec (bin : List String)
  | write (path content : String)
deriving DecidableEq, Repr

/-- The outcome of running a function: the events it produced and its return value, `none`
when the process was ended (`os.Exit`, `log.Fatalf`) before the function returned. -/
structure Run (α : Type) where
  trace : List Event
  result : Option α
deriving DecidableEq, Repr

/-! ## Helpers of other packages -/

/-- Modelled from the spec: `util.Contains` is not among the sources; the spec reads it as
"already present" in the list. -/
def Contains : List String → String → Bool
  | [], _ => false
  | x :: xs, s => if x = s then true else Contains xs s

/-- The Go `strings.Join`. -/
def Join : List String → String → String
  | [], _ => ""
  | [x], _ => x
  | x :: y :: rest, sep => x ++ sep ++ Join (y :: rest) sep

/-- Modelled from the spec: `parameters.OutputQualifiedName` is not among the sources; the spec
gives a qualified name as `name` alone or `name:component`. -/
def OutputQualifiedName (name component : String) : String :=
  if component = "" then name else name ++ ":" ++ component

/-- Modelled from the spec: the method `QName` of a captured output is not among the sources;
a captured output is keyed by its qualified name. -/
def CapturedOutput.QName (o : CapturedOutput) : String :=
  OutputQualifiedName o.Name o.Component

/-! ## `lifecycle/provides.go` -/

/-- The function `mergePlatformProvides` (provides.go:31-42). -/
def mergePlatformProvides (provides : GoMap (List String)) :
    List String → GoMap (List String)
  | [] => provides
  | provide :: rest =>
    let providers :=
      match mapGet provides provide with
      | some providers => providers ++ ["*platform*"]
      | none => ["*platform*"]
    mergePlatformProvides (mapSet provides provide providers) rest

/-- The function `mergeProvides` (provides.go:44-79): one loop round per declared capability.
The provide validator of `kubernetes` ends the process when the `dns.domain` output of the
component is missing and `config.Force` is off. -/
def mergeProvides (cfg : Config) (provides : GoMap (List String)) (componentName : String)
    (componentProvides : List String) (componentOutputs : CapturedOutputs) :
    Run (GoMap (List String)) :=
  match componentProvides with
  | [] => { trace := [], result := some provides }
  | prov :: rest =>
    let qName := OutputQualifiedName "dns.domain" componentName
    let missing : Bool := decide (prov = "kubernetes") && (mapGet componentOutputs qName).isNone
    let validation : List Event :=
      if missing then
        [Event.printf "Component `%s` declared to provide `%s` but no `%s` output found"
            [componentName, prov, qName],
          Event.printf "Outputs:" [],
          Event.printOutputs componentOutputs]
      else []
    if missing && !cfg.Force then
      { trace := validation, result := none }
    else
      let round : List String × List Event :=
        match mapGet provides prov with
        | none => ([componentName], [])
        | some who =>
          if !Contains who componentName then
            (who ++ [componentName],
              if cfg.Debug then
                [Event.printf "`%s` already provides `%s`, but component `%s` also provides `%s`"
                  [Join who ", ", prov, componentName, prov]]
              else [])
          else (who, [])
      let next := mergeProvides cfg (mapSet provides prov round.1) componentName rest
        componentOutputs
      { trace := validation ++ round.2 ++ next.trace, result := next.result }

/-- The provider list one round of `mergeProvides` stores for a capability whose current
entry is `o`. -/
def withProvider (componentName : String) : Option (List String) → List String
  | none => [componentName]
  | some who => if Contains who componentName then who else who ++ [componentName]

/-- The provide validator lets the process continue: `config.Force` is on, or the component
that declares `kubernetes` has its `dns.domain` output. -/
def validatorPasses (cfg : Config) (componentName : String) (componentProvides : List String)
    (componentOutputs : CapturedOutputs) : Prop :=
  cfg.Force = true ∨ ("kubernetes" ∈ componentProvides →
    (mapGet componentOutputs (OutputQualifiedName "dns.domain" componentName)).isSome = true)

/-! ## `lifecycle/requirement.go`: resolving the requirements of a component -/

/-- A locked parameter: `parameters.LockedParameter`, with the fields the embedded code reads. -/
structure LockedParameter where
  Name : String
  Component : String
  Value : String
  Kind : String
deriving DecidableEq, Repr

/-- The type `parameters.LockedParameters`: the ordered parameter snapshot. -/
abbrev LockedParameters := List LockedParameter

/-- The Go order `a <= b` on strings, on their characters: the order of the UTF-8 bytes is
the order of the code points. -/
def charsLe : List Char → List Char → Bool
  | [], _ => true
  | _ :: _, [] => false
  | a :: as, b :: bs =>
    if a.toNat < b.toNat then true
    else if b.toNat < a.toNat then false
    else charsLe as bs

/-- The Go comparison `a <= b` of two strings. -/
def stringLe (a b : String) : Bool :=
  charsLe a.data b.data

/-- Modelled from the spec: `util.SortedKeys2` is not among the sources; it is read as the
keys of the map in ascending string order. -/
def SortedKeys2 (m : GoMap (List String)) : List String :=
  (mapKeys m).insertionSort (fun a b => stringLe a b = true)

/-- The function `SprintDeps` (print.go:15-21): one line per key, joined by newlines. -/
def SprintDeps (deps : GoMap (List String)) : String :=
  Join ((SortedKeys2 deps).map
    (fun name => "\t" ++ name ++ " => " ++ Join ((mapGet deps name).getD []) ", ")) "\n"

/-- The optional test of requirement.go:37-38: the requirement has an entry in the
optional-requirements map that lists the component or `*`. -/
def optionalFor (maybeOptional : GoMap (List String)) (req componentName : String) : Bool :=
  match mapGet maybeOptional req with
  | some optionalFor => Contains optionalFor componentName || Contains optionalFor "*"
  | none => false

/-- The providers `provided[req]` of a requirement, empty when the key is missing. -/
def providersOf (provided : GoMap (List String)) (req : String) : List String :=
  (mapGet provided req).getD []

/-- The error of requirement.go:46-47. -/
def requiresError (provided : GoMap (List String)) (componentName : String)
    (requires : List String) : String :=
  "Component `" ++ componentName ++ "` requires `" ++ Join requires ", " ++
    "` but only following provides are currently known:\n" ++ SprintDeps provided

/-- The state after the first loop of `prepareComponentRequires`: the setups collected, the
optional requirements without a provider, the events so far, and the error if the loop
returned early. -/
structure Resolved where
  setups : List (String × String)
  optionalNotProvided : List String
  trace : List Event
  err : Option String
deriving DecidableEq, Repr

/-- The first loop of `prepareComponentRequires` (requirement.go:34-60), one round per
requirement still to visit. `requires` is the whole list `componentManifest.Requires`. -/
def resolveRequires (cfg : Config) (provided : GoMap (List String)) (componentName : String)
    (requires : List String) (maybeOptional : GoMap (List String)) :
    List String → List (String × String) → List String → List Event → Resolved
  | [], setups, optionalNotProvided, trace =>
    { setups := setups, optionalNotProvided := optionalNotProvided, trace := trace, err := none }
  | req :: rest, setups, optionalNotProvided, trace =>
    let found := mapGet provided req
    let providers := found.getD []
    if found.isNone || providers.length == 0 then
      if optionalFor maybeOptional req componentName then
        resolveRequires cfg provided componentName requires maybeOptional rest setups
          (optionalNotProvided ++ [req])
          (trace ++ if cfg.Verbose then
            [Event.printf "Optional requirement `%s` is not provided" [req]] else [])
      else
        { setups := setups, optionalNotProvided := optionalNotProvided, trace := trace,
          err := some (requiresError provided componentName requires) }
    else
      let provider := providers.getLastD ""
      resolveRequires cfg provided componentName requires maybeOptional rest
        (setups ++ [(req, provider)]) optionalNotProvided
        (trace ++
          (if cfg.Debug && providers.length == 1 then
            [Event.printf "Requirement `%s` provided by `%s`" [req, providers.headD ""]]
          else []) ++
          (if providers.length > 1 then
            [Event.warn
              "Requirement `%s` provided by multiple components `%s`, only `%s` will be used"
              [req, Join providers ", ", provider]]
          else []))

/-- The second loop of `prepareComponentRequires` (requirement.go:63-65): the calls of
`setupRequirement`, in order. A call that ends the process (`log.Fatalf` in
`setupRequirement`) ends the run. -/
def runSetups {σ : Type}
    (setupRequirement : String → String → LockedParameters → CapturedOutputs → σ → Option σ)
    (parameters : LockedParameters) (outputs : CapturedOutputs) :
    List (String × String) → σ → Run σ
  | [], world => { trace := [], result := some world }
  | setup :: rest, world =>
    match setupRequirement setup.1 setup.2 parameters outputs world with
    | none => { trace := [Event.setup setup.1 setup.2], result := none }
    | some world' =>
      let next := runSetups setupRequirement parameters outputs rest world'
      { trace := Event.setup setup.1 setup.2 :: next.trace, result := next.result }

/-- The function `prepareComponentRequires` (requirement.go:26-68). `componentName` is the
value of `manifest.ComponentQualifiedNameFromMeta(&componentManifest.Meta)` and `requires` is
`componentManifest.Requires`; `setupRequirement` acts on the state `σ` of the process and its
collaborators. The result is the returned pair (the unmet optional requirements and the error
text, `none` for `nil`) with the state after the call. -/
def prepareComponentRequires {σ : Type} (cfg : Config)
    (setupRequirement : String → String → LockedParameters → CapturedOutputs → σ → Option σ)
    (provided : GoMap (List String)) (componentName : String) (requires : List String)
    (parameters : LockedParameters) (outputs : CapturedOutputs)
    (maybeOptional : GoMap (List String)) (world : σ) :
    Run (List String × Option String × σ) :=
  let loop := resolveRequires cfg provided componentName requires maybeOptional requires [] [] []
  match loop.err with
  | some err => { trace := loop.trace, result := some (loop.optionalNotProvided, some err, world) }
  | none =>
    if loop.optionalNotProvided.length == 0 then
      let calls := runSetups setupRequirement parameters outputs loop.setups world
      { trace := loop.trace ++ calls.trace,
        result := calls.result.map (fun world' => (loop.optionalNotProvided, none, world')) }
    else
      { trace := loop.trace, result := some (loop.optionalNotProvided, none, world) }

/-- The events one round of the first loop produces for a requirement. -/
def requireEvents (cfg : Config) (provided : GoMap (List String)) (req : String) : List Event :=
  if providersOf provided req = [] then
    if cfg.Verbose then [Event.printf "Optional requirement `%s` is not provided" [req]] else []
  else
    (if cfg.Debug && (providersOf provided req).length == 1 then
      [Event.printf "Requirement `%s` provided by `%s`" [req, (providersOf provided req).headD ""]]
    else []) ++
    (if (providersOf provided req).length > 1 then
      [Event.warn
        "Requirement `%s` provided by multiple components `%s`, only `%s` will be used"
        [req, Join (providersOf provided req) ", ", (providersOf provided req).getLastD ""]]
    else [])

/-- The events of the first loop over a list of requirements that all pass. -/
def resolveEvents (cfg : Config) (provided : GoMap (List String)) : List String → List Event
  | [] => []
  | req :: rest => requireEvents cfg provided req ++ resolveEvents cfg provided rest

/-- The setups of the requirements that have a provider: each with the last of its providers. -/
def selectedSetups (provided : GoMap (List String)) (l : List String) : List (String × String) :=
  (l.filter (fun req => decide (providersOf provided req ≠ []))).map
    (fun req => (req, (providersOf provided req).getLastD ""))

/-- The requirements the first loop takes before it returns: all of them, or those before the
first requirement that has no provider and is not optional (on which the loop fails). -/
def passedRequires (provided maybeOptional : GoMap (List String)) (componentName : String)
    (requires : List String) : List String :=
  requires.takeWhile (fun req =>
    decide (providersOf provided req ≠ []) || optionalFor maybeOptional req componentName)

/-- An event is a warning (`util.Warn`). -/
def Event.isWarn : Event → Bool
  | Event.warn _ _ => true
  | _ => false

/-- An event is a call of `setupRequirement`. -/
def Event.isSetup : Event → Bool
  | Event.setup _ _ => true
  | _ => false

/-! ## `parameters/output.go`: merging captured outputs -/

/-- The Go `strings.HasPrefix`. -/
def HasPrefix (s start : String) : Bool :=
  start.data.isPrefixOf s.data

/-- Whether the characters `sub` occur in a row somewhere in the characters `s`. -/
def containsChars : List Char → List Char → Bool
  | [], sub => sub.isEmpty
  | c :: cs, sub => sub.isPrefixOf (c :: cs) || containsChars cs sub

/-- The Go `strings.Contains`. -/
def stringsContains (s sub : String) : Bool :=
  containsChars s.data sub.data

/-- The function `MergeOutput` (output.go:29-41): the map after the write and the events
logged. The values of the message are recorded as they are, before `util.Wrap` (which is not
among the sources) renders them. -/
def MergeOutput (cfg : Config) (outputs : CapturedOutputs) (add : CapturedOutput) :
    CapturedOutputs × List Event :=
  let qName := add.QName
  let logged : List Event :=
    if cfg.Verbose then
      match mapGet outputs qName with
      | some current =>
        if current.Value != add.Value && current.Value != "" &&
            !(current.Kind == "" && HasPrefix add.Kind "secret") then
          [Event.printf "Output `%s` current value `%s` overridden by new value `%s`"
            [qName, current.Value, add.Value]]
        else []
      | none => []
    else []
  (mapSet outputs qName add, logged)

/-- The inner loop of `OutputsFromList` (output.go:22-24): merge one list, in order. -/
def mergeOutputList (cfg : Config) (outputs : CapturedOutputs) :
    List CapturedOutput → CapturedOutputs × List Event
  | [] => (outputs, [])
  | o :: rest =>
    let step := MergeOutput cfg outputs o
    let next := mergeOutputList cfg step.1 rest
    (next.1, step.2 ++ next.2)

/-- The outer loop of `OutputsFromList` (output.go:21-25): merge the lists, in order. -/
def mergeOutputLists (cfg : Config) (outputs : CapturedOutputs) :
    List (List CapturedOutput) → CapturedOutputs × List Event
  | [] => (outputs, [])
  | list :: rest =>
    let step := mergeOutputList cfg outputs list
    let next := mergeOutputLists cfg step.1 rest
    (next.1, step.2 ++ next.2)

/-- The function `OutputsFromList` (output.go:19-27): the lists merged into a fresh map. -/
def OutputsFromList (cfg : Config) (toMerge : List (List CapturedOutput)) :
    CapturedOutputs × List Event :=
  mergeOutputLists cfg [] toMerge

/-- The last element of a list that satisfies `p`. -/
def findLast {α : Type} (p : α → Bool) : List α → Option α
  | [] => none
  | x :: rest =>
    match findLast p rest with
    | some y => some y
    | none => if p x then some x else none

/-- The condition under which an overwrite is reported: the existing value is not empty
and differs from the new one, and it is not a plain value overwritten by a secret. -/
def overwriteReported (current add : CapturedOutput) : Prop :=
  current.Value ≠ "" ∧ current.Value ≠ add.Value ∧
    ¬ (current.Kind = "" ∧ HasPrefix add.Kind "secret" = true)

/-! ## `parameters/output.go`: expanding the requested outputs -/

/-- A requested stack output: `manifest.Output`, with the fields the embedded code reads. -/
structure Output where
  Name : String
  Value : String
  Kind : String
  Brief : String
deriving DecidableEq, Repr

/-- An expanded stack output: `parameters.ExpandedOutput`. -/
structure ExpandedOutput where
  Name : String
  Value : String
  Kind : String
  Brief : String
deriving DecidableEq, Repr

/-- A stretch of a scanned string: text between the matches of a regular expression, or one
match. `ReplaceAllStringFunc` visits the stretches from left to right. -/
inductive Piece where
  | text (s : String)
  | hit (s : String)
deriving DecidableEq, Repr

/-- The placeholder machinery of the `parameters` package, which is not among the sources and
is taken as a parameter: the scan of a string by the regular expression `CurlyReplacement`,
`StripCurly` (the variable of a match, and whether the match is a CEL expression) and
`RequireExpansion` (whether a string still holds a placeholder). -/
structure Placeholders where
  CurlyReplacement : String → List Piece
  StripCurly : String → String × Bool
  RequireExpansion : String → Bool

/-- Modelled from the spec: the method `QName` of a locked parameter is not among the sources;
a qualified name is `name` alone (stack scope) or `name:component`. -/
def LockedParameter.QName (p : LockedParameter) : String :=
  if p.Component = "" then p.Name else p.Name ++ ":" ++ p.Component

/-- Modelled from the spec: `parameters.ParametersKV` is not among the sources; it is read as
the map from qualified name to value, a later parameter overwriting an earlier one. -/
def ParametersKV (parameters : LockedParameters) : GoMap String :=
  parameters.foldl (fun kv p => mapSet kv p.QName p.Value) []

/-- Modelled from the spec: `parameters.OutputsKV` is not among the sources; it is read as
the map from each key of the captured outputs to the value stored under it. -/
def OutputsKV (outputs : CapturedOutputs) : GoMap String :=
  outputs.map (fun entry => (entry.1, entry.2.Value))

/-- The loop of output.go:79-86 over the captured outputs, in the order of the association
list: the kind of the first output of that qualified name whose kind is not empty, else the
kind as it was. -/
def propagateKind (name : String) (kind : String) : CapturedOutputs → String
  | [] => kind
  | (_, o) :: rest =>
    if o.QName = name ∧ o.Kind ≠ "" then o.Kind else propagateKind name kind rest

/-- The declaration after output.go:59-61: an output without `:` in its name, with an empty
value and a name, gets the value `${name}`. -/
def withDefaultValue (requestedOutput : Output) : Output :=
  if !stringsContains requestedOutput.Name ":" && requestedOutput.Value == "" &&
      requestedOutput.Name != "" then
    { requestedOutput with Value := "$\x7b" ++ requestedOutput.Name ++ "\x7d" }
  else requestedOutput

/-- What the callback of output.go:93-117 has done so far: the text written, the two counters
and the events. -/
structure Replaced where
  value : String
  invoked : Nat
  found : Nat
  trace : List Event
deriving DecidableEq, Repr

/-- The call `CurlyReplacement.ReplaceAllStringFunc` of output.go:92-117, over the stretches
of the scanned value from left to right; `none` when `log.Fatalf` ended the process. -/
def replacePlaceholders (ph : Placeholders) (kvParameters kvOutputs : GoMap String)
    (mustExist : Bool) (requestedOutput : Output) :
    List Piece → Replaced → List Event × Option Replaced
  | [], acc => (acc.trace, some acc)
  | Piece.text s :: rest, acc =>
    replacePlaceholders ph kvParameters kvOutputs mustExist requestedOutput rest
      { acc with value := acc.value ++ s }
  | Piece.hit m :: rest, acc =>
    let name := (ph.StripCurly m).1
    let isCel := (ph.StripCurly m).2
    if isCel then
      replacePlaceholders ph kvParameters kvOutputs mustExist requestedOutput rest
        { value := acc.value ++ "(unsupported)", invoked := acc.invoked + 1, found := acc.found,
          trace := acc.trace ++
            [Event.warn "Stack output `%s = %s` CEL expression `%s` is not supported"
              [requestedOutput.Name, requestedOutput.Value, name]] }
    else
      let looked : Option String :=
        match mapGet kvOutputs name with
        | some substitution => some substitution
        | none => mapGet kvParameters name
      match looked with
      | none =>
        replacePlaceholders ph kvParameters kvOutputs mustExist requestedOutput rest
          { value := acc.value ++ "", invoked := acc.invoked + 1, found := acc.found,
            trace := acc.trace ++
              if mustExist then
                [Event.warn "Stack output `%s = %s` refer to unknown substitution `%s`"
                  [requestedOutput.Name, requestedOutput.Value, name]]
              else [] }
      | some substitution =>
        if ph.RequireExpansion substitution then
          (acc.trace ++
            [Event.fatal ("Stack output `%s = %s` refer to substitution `%s` that expands to " ++
              "`%s`. This is surely a bug.")
              [requestedOutput.Name, requestedOutput.Value, name, substitution]], none)
        else
          replacePlaceholders ph kvParameters kvOutputs mustExist requestedOutput rest
            { value := acc.value ++ substitution, invoked := acc.invoked + 1,
              found := acc.found + 1, trace := acc.trace }

/-- One round of the loop of `ExpandRequestedOutputs` (output.go:52-128) for the declaration
`declared`: the events, and, unless the process was ended, the expanded output appended (if
any) with the new value of `debugPrinted`. -/
def expandRequestedOutput (ph : Placeholders) (kvParameters kvOutputs : GoMap String)
    (outputs : CapturedOutputs) (mustExist : Bool) (declared : Output) (debugPrinted : Bool) :
    Run (Option ExpandedOutput × Bool) :=
  let kind := declared.Kind
  let componentOutputRequested := stringsContains declared.Name ":"
  let requestedOutput := withDefaultValue declared
  if componentOutputRequested then
    let found := mapGet kvOutputs requestedOutput.Name
    let exist := found.isSome
    let value := found.getD ""
    let kind := if exist && kind == "" then propagateKind requestedOutput.Name kind outputs else kind
    { trace :=
        (if requestedOutput.Value != "" then
          [Event.warn ("Stack output `%s` refer to value `%s`, but it will be derived from " ++
            "component outputs") [requestedOutput.Name, requestedOutput.Value]]
        else []) ++
        (if !exist && mustExist then
          Event.warn "Stack output `%s` not found in outputs:" [requestedOutput.Name] ::
            (if !debugPrinted then [Event.printOutputs outputs] else [])
        else []),
      result := some
        (if exist then
          some { Name := requestedOutput.Name, Value := value, Kind := kind,
                 Brief := requestedOutput.Brief }
        else none,
        debugPrinted || (!exist && mustExist)) }
  else if ph.RequireExpansion requestedOutput.Value then
    let replaced := replacePlaceholders ph kvParameters kvOutputs mustExist requestedOutput
      (ph.CurlyReplacement requestedOutput.Value)
      { value := "", invoked := 0, found := 0, trace := [] }
    { trace := replaced.1,
      result := replaced.2.map (fun acc =>
        (if acc.invoked == acc.found then
          some { Name := requestedOutput.Name, Value := acc.value, Kind := kind,
                 Brief := requestedOutput.Brief }
        else none,
        debugPrinted)) }
  else
    { trace := [],
      result := some
        (some { Name := requestedOutput.Name, Value := requestedOutput.Value, Kind := kind,
                Brief := requestedOutput.Brief },
        debugPrinted) }

/-- The loop of `ExpandRequestedOutputs` (output.go:52-128) over the declarations still to
visit. -/
def expandLoop (ph : Placeholders) (kvParameters kvOutputs : GoMap String)
    (outputs : CapturedOutputs) (mustExist : Bool) :
    List Output → List ExpandedOutput → Bool → List Event → Run (List ExpandedOutput)
  | [], expanded, _, trace => { trace := trace, result := some expanded }
  | declared :: rest, expanded, debugPrinted, trace =>
    let round := expandRequestedOutput ph kvParameters kvOutputs outputs mustExist declared
      debugPrinted
    match round.result with
    | none => { trace := trace ++ round.trace, result := none }
    | some (some e, debugPrinted') =>
      expandLoop ph kvParameters kvOutputs outputs mustExist rest (expanded ++ [e])
        debugPrinted' (trace ++ round.trace)
    | some (none, debugPrinted') =>
      expandLoop ph kvParameters kvOutputs outputs mustExist rest expanded
        debugPrinted' (trace ++ round.trace)

/-- The function `ExpandRequestedOutputs` (output.go:43-131). -/
def ExpandRequestedOutputs (ph : Placeholders) (parameters : LockedParameters)
    (outputs : CapturedOutputs) (requestedOutputs : List Output) (mustExist : Bool) :
    Run (List ExpandedOutput) :=
  expandLoop ph (ParametersKV parameters) (OutputsKV outputs) outputs mustExist
    requestedOutputs [] false []

/-- The value a placeholder variable resolves to: the value of the captured output of that
name when there is one, otherwise the value of the locked parameter of that name. -/
def resolveVariable (parameters : LockedParameters) (outputs : CapturedOutputs)
    (name : String) : Option String :=
  match mapGet outputs name with
  | some o => some o.Value
  | none => mapGet (ParametersKV parameters) name

/-- The matches among the stretches of a scanned string, from left to right. -/
def hits : List Piece → List String
  | [] => []
  | Piece.text _ :: rest => hits rest
  | Piece.hit m :: rest => m :: hits rest

/-- The value the placeholder `m` resolves to: none for a CEL expression (unsupported) and for
a variable that is neither a captured output nor a locked parameter. -/
def placeholderValue (ph : Placeholders) (parameters : LockedParameters)
    (outputs : CapturedOutputs) (m : String) : Option String :=
  if (ph.StripCurly m).2 then none else resolveVariable parameters outputs (ph.StripCurly m).1

/-- The placeholder `m` resolves to a value that still holds a placeholder. -/
def expandsFurther (ph : Placeholders) (parameters : LockedParameters)
    (outputs : CapturedOutputs) (m : String) : Bool :=
  match placeholderValue ph parameters outputs m with
  | some v => ph.RequireExpansion v
  | none => false

/-- The text written for a stretch: the text itself, `(unsupported)` for a CEL expression,
the resolved value of a placeholder, nothing for an unresolved placeholder. -/
def substitutionOf (ph : Placeholders) (parameters : LockedParameters)
    (outputs : CapturedOutputs) : Piece → String
  | Piece.text s => s
  | Piece.hit m =>
    if (ph.StripCurly m).2 then "(unsupported)"
    else (resolveVariable parameters outputs (ph.StripCurly m).1).getD ""

/-- The strings of a list, one after the other. -/
def concatStrings : List String → String
  | [] => ""
  | x :: rest => x ++ concatStrings rest

/-- The captured outputs are keyed as the data model says: each key once, each output under
its own qualified name. -/
def WellKeyed (outputs : CapturedOutputs) : Prop :=
  (outputs.map Prod.fst).Nodup ∧ ∀ entry ∈ outputs, entry.2.QName = entry.1

/-- What one round of the loop of `ExpandRequestedOutputs` appends for a declaration: `none`
when the process is ended, else the expanded output, if any. -/
def yieldOf (ph : Placeholders) (parameters : LockedParameters) (outputs : CapturedOutputs)
    (mustExist : Bool) (declared : Output) : Option (Option ExpandedOutput) :=
  (expandRequestedOutput ph (ParametersKV parameters) (OutputsKV outputs) outputs mustExist
    declared false).result.map Prod.fst

/-- The expanded outputs of a list of declarations, from the yield of each: `none` as soon as
one round ends the process. -/
def collectYields (ph : Placeholders) (parameters : LockedParameters)
    (outputs : CapturedOutputs) (mustExist : Bool) : List Output → Option (List ExpandedOutput)
  | [] => some []
  | declared :: rest =>
    match yieldOf ph parameters outputs mustExist declared with
    | none => none
    | some y =>
      (collectYields ph parameters outputs mustExist rest).map (fun tail => y.toList ++ tail)

/-! ## The bracket placeholders of `lifecycle/template.go` -/

/-- The character class of template.go:333: the ASCII letters and digits and the characters
`_`, `.`, `|`, `:`, `/` and `-`. -/
def isIdentifierChar (c : Char) : Bool :=
  c.isAlphanum || c == '_' || c == '.' || c == '|' || c == ':' || c == '/' || c == '-'

/-- The text collected between two matches, if any. -/
def flushText (lit : List Char) : List Piece :=
  if lit.isEmpty then [] else [Piece.text (String.mk lit)]

/-- Where the scan for `${identifier}` stands: in plain text, after a `$`, or after `${` and
the identifier characters read so far. -/
inductive ScanState where
  | text
  | dollar
  | brace (body : List Char)
deriving DecidableEq, Repr

/-- The scan of a string by the regular expression `curlyReplacement` of template.go:333
(`$`, `{`, one or more characters of the class, `}`): leftmost matches, not overlapping; `lit` is the text
read since the last match. A candidate that fails can only restart at the failing
character, since no character of the class is `$`. -/
def scanCurly : List Char → List Char → ScanState → List Piece
  | [], lit, ScanState.text => flushText lit
  | [], lit, ScanState.dollar => flushText (lit ++ ['$'])
  | [], lit, ScanState.brace body => flushText (lit ++ '$' :: '\x7b' :: body)
  | c :: rest, lit, ScanState.text =>
    if c = '$' then scanCurly rest lit ScanState.dollar
    else scanCurly rest (lit ++ [c]) ScanState.text
  | c :: rest, lit, ScanState.dollar =>
    if c = '\x7b' then scanCurly rest lit (ScanState.brace [])
    else if c = '$' then scanCurly rest (lit ++ ['$']) ScanState.dollar
    else scanCurly rest (lit ++ ['$', c]) ScanState.text
  | c :: rest, lit, ScanState.brace body =>
    if isIdentifierChar c then scanCurly rest lit (ScanState.brace (body ++ [c]))
    else if c = '\x7d' ∧ body ≠ [] then
      flushText lit ++
        Piece.hit (String.mk ('$' :: '\x7b' :: body ++ ['\x7d'])) :: scanCurly rest [] ScanState.text
    else if c = '$' then scanCurly rest (lit ++ '$' :: '\x7b' :: body) ScanState.dollar
    else scanCurly rest (lit ++ '$' :: '\x7b' :: body ++ [c]) ScanState.text

/-- The matches and the text between them of `curlyReplacement` (template.go:333) in a
string. -/
def curlyReplacement (content : String) : List Piece :=
  scanCurly content.data [] ScanState.text

/-- The function `stripCurly` (template.go:337-339): `match[2 : len(match)-1]`. -/
def stripCurly (m : String) : String :=
  String.mk ((m.data.drop 2).dropLast)

/-- Modelled from the spec: the placeholder machinery of the `parameters` package is not
among the sources. The spec speaks of `${...}` placeholders and gives the bracket form
`${identifier}`; this instance scans with the bracket expression of template.go, strips the
brackets, reads "holds a placeholder" as "contains `${`", and recognises no CEL expression
(the spec does not give their form). It serves the evaluations; the properties are proved for
every `Placeholders`. -/
def specPlaceholders : Placeholders where
  CurlyReplacement := curlyReplacement
  StripCurly := fun m => (stripCurly m, false)
  RequireExpansion := fun value => stringsContains value "$\x7b"

/-! ## `lifecycle/template.go`: placeholders with an encoding -/

/-- The Go `strings.Index` for a needle of one character: the place of its first occurrence,
`-1` when there is none. -/
def stringsIndex : List Char → Char → Int
  | [], _ => -1
  | x :: rest, c =>
    if x = c then 0
    else if stringsIndex rest c < 0 then -1
    else stringsIndex rest c + 1

/-- The function `valueEncoding` (template.go:345-351). The needle `/` is one byte, so the cut
at the index counted in characters is the cut at the index counted in bytes; `v` is the
argument `variable`. -/
def valueEncoding (v : String) : String × String :=
  let i := stringsIndex v.data '/'
  if i ≤ 0 ∨ i = (v.data.length : Int) - 1 then (v, "")
  else (String.mk (v.data.take i.toNat), String.mk (v.data.drop (i.toNat + 1)))

/-! ## Strings as bytes, and `encoding/base64` -/

/-- The UTF-8 bytes of a character. -/
def utf8Bytes (c : Char) : List Nat :=
  if c.toNat < 0x80 then [c.toNat]
  else if c.toNat < 0x800 then [0xC0 + c.toNat / 64, 0x80 + c.toNat % 64]
  else if c.toNat < 0x10000 then
    [0xE0 + c.toNat / 4096, 0x80 + c.toNat / 64 % 64, 0x80 + c.toNat % 64]
  else
    [0xF0 + c.toNat / 262144, 0x80 + c.toNat / 4096 % 64, 0x80 + c.toNat / 64 % 64,
      0x80 + c.toNat % 64]

/-- The Go conversion `[]byte(s)` of a string of characters. -/
def charsBytes : List Char → List Nat
  | [] => []
  | c :: rest => utf8Bytes c ++ charsBytes rest

/-- The reading of UTF-8 bytes as characters, byte by byte: `acc` is the value read so far of
a character that still lacks `more` bytes. -/
def decodeUtf8 : List Nat → Nat → Nat → List Char
  | [], _, 0 => []
  | [], _, _ + 1 => [Char.ofNat 0xFFFD]
  | b :: rest, _, 0 =>
    if b < 0x80 then Char.ofNat b :: decodeUtf8 rest 0 0
    else if b < 0xE0 then decodeUtf8 rest (b - 0xC0) 1
    else if b < 0xF0 then decodeUtf8 rest (b - 0xE0) 2
    else decodeUtf8 rest (b - 0xF0) 3
  | b :: rest, acc, 1 => Char.ofNat (acc * 64 + (b - 0x80)) :: decodeUtf8 rest 0 0
  | b :: rest, acc, more + 2 => decodeUtf8 rest (acc * 64 + (b - 0x80)) (more + 1)

/-- The Go conversion `string(bytes)`, for bytes that are UTF-8 text. A Go string holds any
bytes; the embedding of `processReplacement` over text keeps strings as text, and bytes that
are the UTF-8 form of no text have no faithful image there (a sequence cut short is read as
U+FFFD). The embedding `processReplacementBytes` keeps the bytes as they are. -/
def bytesChars (bytes : List Nat) : List Char :=
  decodeUtf8 bytes 0 0

/-- The alphabet of `base64.StdEncoding`. -/
def base64Alphabet : List Char :=
  "ABCDEFGHIJKLMNOPQRSTUVWXYZabcdefghijklmnopqrstuvwxyz0123456789+/".data

/-- The character of a six-bit value. -/
def encodeSextet (i : Nat) : Char :=
  base64Alphabet.getD i 'A'

/-- The place of a character in a list, counted from `n`. -/
def indexFrom (c : Char) : List Char → Nat → Option Nat
  | [], _ => none
  | x :: rest, n => if x = c then some n else indexFrom c rest (n + 1)

/-- The six-bit value of a character of the alphabet. -/
def decodeSextet (c : Char) : Option Nat :=
  indexFrom c base64Alphabet 0

/-- The function `base64.StdEncoding.EncodeToString`, on bytes: three bytes give four
characters, the last group is padded with `=`. -/
def base64Encode : List Nat → List Char
  | [] => []
  | [a] => [encodeSextet (a / 4), encodeSextet (a % 4 * 16), '=', '=']
  | [a, b] =>
    [encodeSextet (a / 4), encodeSextet (a % 4 * 16 + b / 16), encodeSextet (b % 16 * 4), '=']
  | a :: b :: c :: rest =>
    encodeSextet (a / 4) :: encodeSextet (a % 4 * 16 + b / 16) ::
      encodeSextet (b % 16 * 4 + c / 64) :: encodeSextet (c % 64) :: base64Encode rest

/-- The groups of four characters of `base64.StdEncoding.DecodeString`, once the line breaks
are gone: padding is required, may only close the input, and the bits beyond the last byte
are not checked (the encoding is not strict); `none` is `CorruptInputError`. -/
def base64DecodeGroups : List Char → Option (List Nat)
  | [] => some []
  | c0 :: c1 :: c2 :: c3 :: rest =>
    match decodeSextet c0, decodeSextet c1 with
    | some s0, some s1 =>
      if c2 = '=' then
        if c3 = '=' ∧ rest = [] then some [s0 * 4 + s1 / 16] else none
      else
        match decodeSextet c2 with
        | none => none
        | some s2 =>
          if c3 = '=' then
            if rest = [] then some [s0 * 4 + s1 / 16, s1 % 16 * 16 + s2 / 4] else none
          else
            match decodeSextet c3 with
            | none => none
            | some s3 =>
              (base64DecodeGroups rest).map (fun tail =>
                (s0 * 4 + s1 / 16) :: (s1 % 16 * 16 + s2 / 4) :: (s2 % 4 * 64 + s3) :: tail)
    | _, _ => none
  | _ => none

/-- The function `base64.StdEncoding.DecodeString`: carriage returns and line feeds are
skipped wherever they stand. -/
def base64Decode (src : List Char) : Option (List Nat) :=
  base64DecodeGroups (src.filter (fun c => !(c == '\r' || c == '\n')))

/-- The white space of `unicode.IsSpace`. -/
def isSpace (c : Char) : Bool :=
  c.toNat == 0x09 || c.toNat == 0x0A || c.toNat == 0x0B || c.toNat == 0x0C ||
    c.toNat == 0x0D || c.toNat == 0x20 || c.toNat == 0x85 || c.toNat == 0xA0 ||
    c.toNat == 0x1680 || (decide (0x2000 ≤ c.toNat) && decide (c.toNat ≤ 0x200A)) ||
    c.toNat == 0x2028 || c.toNat == 0x2029 || c.toNat == 0x202F || c.toNat == 0x205F ||
    c.toNat == 0x3000

/-- The Go `strings.TrimSpace`: the string without its leading and trailing white space. -/
def TrimSpace (s : String) : String :=
  String.mk ((s.data.dropWhile isSpace).reverse.dropWhile isSpace).reverse

/-! ## `lifecycle/template.go`: `processReplacement` -/

/-- The function `stripMustache` (template.go:341-343): `match[2 : len(match)-2]`. -/
def stripMustache (m : String) : String :=
  String.mk ((m.data.drop 2).dropLast.dropLast)

/-- Where the scan for `{{identifier}}` stands: in plain text, after one `{`, after `{{` and
the identifier characters read so far, or after these and one `}`. -/
inductive MustacheState where
  | text
  | open1
  | body (chars : List Char)
  | close1 (chars : List Char)
deriving DecidableEq, Repr

/-- The scan of a string by the regular expression `mustacheReplacement` of template.go:334
(`{{`, one or more characters of the class, `}}`): leftmost matches, not overlapping; `lit`
is the text read since the last match. A candidate that fails can only restart at the
failing character, or one character later when a third `{` follows `{{`. -/
def scanMustache : List Char → List Char → MustacheState → List Piece
  | [], lit, MustacheState.text => flushText lit
  | [], lit, MustacheState.open1 => flushText (lit ++ ['\x7b'])
  | [], lit, MustacheState.body b => flushText (lit ++ '\x7b' :: '\x7b' :: b)
  | [], lit, MustacheState.close1 b => flushText (lit ++ '\x7b' :: '\x7b' :: b ++ ['\x7d'])
  | c :: rest, lit, MustacheState.text =>
    if c = '\x7b' then scanMustache rest lit MustacheState.open1
    else scanMustache rest (lit ++ [c]) MustacheState.text
  | c :: rest, lit, MustacheState.open1 =>
    if c = '\x7b' then scanMustache rest lit (MustacheState.body [])
    else scanMustache rest (lit ++ ['\x7b', c]) MustacheState.text
  | c :: rest, lit, MustacheState.body b =>
    if isIdentifierChar c then scanMustache rest lit (MustacheState.body (b ++ [c]))
    else if c = '\x7d' ∧ b ≠ [] then scanMustache rest lit (MustacheState.close1 b)
    else if c = '\x7b' then
      if b = [] then scanMustache rest (lit ++ ['\x7b']) (MustacheState.body [])
      else scanMustache rest (lit ++ '\x7b' :: '\x7b' :: b) MustacheState.open1
    else scanMustache rest (lit ++ '\x7b' :: '\x7b' :: b ++ [c]) MustacheState.text
  | c :: rest, lit, MustacheState.close1 b =>
    if c = '\x7d' then
      flushText lit ++
        Piece.hit (String.mk ('\x7b' :: '\x7b' :: b ++ ['\x7d', '\x7d'])) ::
          scanMustache rest [] MustacheState.text
    else if c = '\x7b' then
      scanMustache rest (lit ++ '\x7b' :: '\x7b' :: b ++ ['\x7d']) MustacheState.open1
    else scanMustache rest (lit ++ '\x7b' :: '\x7b' :: b ++ ['\x7d', c]) MustacheState.text

/-- The matches and the text between them of `mustacheReplacement` (template.go:334) in a
string. -/
def mustacheReplacement (content : String) : List Piece :=
  scanMustache content.data [] MustacheState.text

/-- The lookup machinery of the `parameters` package used by the template engine, which is
not among the sources and is taken as a parameter: `FindValue` (the value of a variable for a
component with its dependencies, if any) and `RequireExpansion`. -/
structure Lookup where
  FindValue : String → String → List String → GoMap String → Option String
  RequireExpansion : String → Bool

/-- Modelled from the spec: `parameters.FindValue` is not among the sources; the spec reads
it as the value qualified by the component itself, else by one of its dependencies in order,
else the unqualified value. It serves the evaluations; the properties are proved for every
`Lookup`. -/
def specLookup : Lookup where
  FindValue := fun name componentName componentDepends kv =>
    match mapGet kv (name ++ ":" ++ componentName) with
    | some value => some value
    | none =>
      match componentDepends.findSome? (fun dep => mapGet kv (name ++ ":" ++ dep)) with
      | some value => some value
      | none => mapGet kv name
  RequireExpansion := fun value => stringsContains value "$\x7b"

/-- What the callback of `processReplacement` returns for one match: the text put in its
place, the error recorded (at most one) and the events. -/
structure Substituted where
  substitution : String
  errs : List String
  trace : List Event
deriving DecidableEq, Repr

/-- The callback of `processReplacement` (template.go:360-395) on the match `m`. The values
of the messages are recorded as they are, before `util.Trim` (not among the sources); the
error text of the base64 decoder is not recorded. -/
def replaceVariable (cfg : Config) (lk : Lookup) (filename componentName : String)
    (componentDepends : List String) (kv : GoMap String) (strip : String → String)
    (m : String) : Substituted :=
  let name := (valueEncoding (strip m)).1
  let encoding := (valueEncoding (strip m)).2
  let found := lk.FindValue name componentName componentDepends kv
  let substitution := found.getD "(unknown)"
  let errs : List String :=
    match found with
    | none => ["Template `" ++ filename ++ "` refer to unknown substitution `" ++ name ++ "`"]
    | some _ => []
  let looked : List Event :=
    (match found with
      | some value =>
        if lk.RequireExpansion value then
          [Event.warnOnce
            "Template `%s` substitution `%s` refer to a value `%s` that is not expanded"
            [filename, name, value]]
        else []
      | none => []) ++
    (if cfg.Trace then [Event.printf "--- %s | %s => %s" [name, componentName, substitution]]
      else [])
  if encoding != "" then
    if encoding == "base64" then
      { substitution := String.mk (base64Encode (charsBytes substitution.data)),
        errs := errs, trace := looked }
    else if encoding == "unbase64" then
      match base64Decode substitution.data with
      | none =>
        { substitution := substitution, errs := errs,
          trace := looked ++
            [Event.warn "Unable to decode `%s` base64 value `%s`: %v" [name, substitution]] }
      | some bytes =>
        { substitution := String.mk (bytesChars bytes), errs := errs, trace := looked }
    else
      { substitution := substitution, errs := errs,
        trace := looked ++
          [Event.warn "Unknown encoding `%s` processing template `%s` substitution `%s`"
            [encoding, filename, name]] }
  else
    { substitution := TrimSpace substitution, errs := errs, trace := looked }

/-- The call `replacement.ReplaceAllStringFunc(content, callback)` over the stretches of the
scanned content, from left to right: the content written, the errors and the events. -/
def replaceMatches (callback : String → Substituted) : List Piece → Substituted
  | [] => { substitution := "", errs := [], trace := [] }
  | Piece.text s :: rest =>
    let next := replaceMatches callback rest
    { substitution := s ++ next.substitution, errs := next.errs, trace := next.trace }
  | Piece.hit m :: rest =>
    let this := callback m
    let next := replaceMatches callback rest
    { substitution := this.substitution ++ next.substitution, errs := this.errs ++ next.errs,
      trace := this.trace ++ next.trace }

/-- The function `processReplacement` (template.go:353-401): the returned content and errors,
and the events; `replacement` is the scan by the regular expression passed in. -/
def processReplacement (cfg : Config) (lk : Lookup) (content filename componentName : String)
    (componentDepends : List String) (kv : GoMap String) (replacement : String → List Piece)
    (strip : String → String) : (String × List String) × List Event :=
  let done := replaceMatches
    (replaceVariable cfg lk filename componentName componentDepends kv strip)
    (replacement content)
  let replaced := !(hits (replacement content)).isEmpty
  ((done.substitution, done.errs),
    done.trace ++
      if !replaced then [Event.warn "No substitutions found in template `%s`" [filename]]
      else [])

/-- The text that takes the place of a stretch of the content. -/
def renderPiece (callback : String → Substituted) : Piece → String
  | Piece.text s => s
  | Piece.hit m => (callback m).substitution

/-- The errors that a stretch of the content adds. -/
def pieceErrs (callback : String → Substituted) : Piece → List String
  | Piece.text _ => []
  | Piece.hit m => (callback m).errs

/-! ## `lifecycle/requirement.go`: optional parameters -/

/-- The entries of a Go map as a `range` loop visits them: each key once, with the value
stored under it. Go does not fix the order; the embedding takes the keys in the order of the
association list. -/
def mapEntries {V : Type} (m : GoMap V) : List (String × V) :=
  (mapKeys m).filterMap (fun k => (mapGet m k).map (fun v => (k, v)))

/-- The variable `falseParameterValues` (requirement.go:325). -/
def falseParameterValues : List String :=
  ["", "false", "0", "no", "(unknown)"]

/-- What the loop over the parameters has found (requirement.go:333-345): whether a parameter
of the term exists, the names appended, and the events. -/
structure ParameterScan where
  parameterExists : Bool
  appended : List String
  trace : List Event
deriving DecidableEq, Repr

/-- The loop over the parameters (requirement.go:334-345) for a term and one entry
`optionalFor` of its list. -/
def scanFalseParameters (componentName term optionalFor : String) :
    LockedParameters → ParameterScan
  | [] => { parameterExists := false, appended := [], trace := [] }
  | p :: rest =>
    let next := scanFalseParameters componentName term optionalFor rest
    if p.Name = term ∧ (p.Component = "" ∨ p.Component = componentName) then
      if Contains falseParameterValues p.Value then
        { parameterExists := true, appended := p.QName :: next.appended,
          trace :=
            (if optionalFor = "*" then
              [Event.warnOnce ("Optional parameter `lifecycle.requires.optional = %s` targets " ++
                "all components as wildcard;\n\tYou may want to narrow specification to " ++
                "`%[1]s:component`") [term]]
            else []) ++ next.trace }
      else { parameterExists := true, appended := next.appended, trace := next.trace }
    else next

/-- The loop over the list of a term (requirement.go:331-350). -/
def scanOptionalFor (componentName term : String) (params : LockedParameters) :
    List String → List String × List Event
  | [] => ([], [])
  | optionalFor :: rest =>
    let next := scanOptionalFor componentName term params rest
    if optionalFor = "*" ∨ optionalFor = componentName then
      let scan := scanFalseParameters componentName term optionalFor params
      let absent : List String :=
        if !scan.parameterExists && optionalFor != "*" then [term] else []
      (scan.appended ++ absent ++ next.1, scan.trace ++ next.2)
    else next

/-- The loop over the terms (requirement.go:329-352). -/
def scanOptionalTerms (componentName : String) (params : LockedParameters) :
    List (String × List String) → List String × List Event
  | [] => ([], [])
  | (term, optionalForList) :: rest =>
    let next := scanOptionalTerms componentName params rest
    if stringsContains term "." then
      let found := scanOptionalFor componentName term params optionalForList
      (found.1 ++ next.1, found.2 ++ next.2)
    else next

/-- The function `calculateOptionalFalseParameters` (requirement.go:327-354): the returned
list, and the events. -/
def calculateOptionalFalseParameters (componentName : String) (params : LockedParameters)
    (optionalRequires : GoMap (List String)) : List String × List Event :=
  scanOptionalTerms componentName params (mapEntries optionalRequires)

/-- What an entry of the list of a term adds to the returned list. -/
def addedFor (componentName term optionalFor : String) (params : LockedParameters)
    (x : String) : Prop :=
  (optionalFor = "*" ∨ optionalFor = componentName) ∧
    ((∃ p ∈ params, p.Name = term ∧ (p.Component = "" ∨ p.Component = componentName) ∧
        p.Value ∈ falseParameterValues ∧ x = p.QName) ∨
      ((∀ p ∈ params, ¬ (p.Name = term ∧ (p.Component = "" ∨ p.Component = componentName))) ∧
        optionalFor ≠ "*" ∧ x = term))

/-! ## `lifecycle/requirement.go`: checking the requirements of the stack -/

/-- The state of the process: the memo `requirementsVerified` (a set, kept as a list), the
environment variables, and the world outside on which external commands act. -/
structure Process (σ : Type) where
  requirementsVerified : List String
  env : GoMap String
  outside : σ
deriving DecidableEq, Repr

/-- What a step returns: its value, the events, and the state of the process after it. -/
structure Checked (σ α : Type) where
  value : α
  trace : List Event
  state : Process σ
deriving DecidableEq, Repr

/-- The Go `os.Getenv`. -/
def Getenv {σ : Type} (ps : Process σ) (key : String) : String :=
  (mapGet ps.env key).getD ""

/-- The Go `os.Setenv`. -/
def Setenv {σ : Type} (ps : Process σ) (key value : String) : Process σ :=
  { ps with env := mapSet ps.env key value }

/-- The constant `providedByEnv` (requirement.go:21). -/
def providedByEnv : String := "*environment*"

/-- The variable `bins` (requirement.go:94-101). -/
def bins : GoMap (List String) :=
  [("aws", ["aws", "s3", "ls", "--page-size", "5"]),
    ("gcp", ["gcloud", "version"]),
    ("gcs", ["gsutil", "version"]),
    ("kubectl", ["kubectl", "version", "--client"]),
    ("kubernetes", ["kubectl", "version", "--client"]),
    ("helm", ["helm", "version", "--client"])]

/-- The characters of the class `[\d.]`. -/
def isVersionChar (c : Char) : Bool :=
  c.isDigit || c == '.'

/-- The call `FindSubmatch` of a regular expression made of a literal text followed by the
group `([\d.]+)`: the leftmost place where the text stands before at least one character of
the class; the whole match and the group, or nothing. -/
def findVersion (literal : List Char) : List Char → List (List Char)
  | [] => []
  | c :: rest =>
    if literal.isPrefixOf (c :: rest) ∧
        (((c :: rest).drop literal.length).takeWhile isVersionChar) ≠ [] then
      [literal ++ ((c :: rest).drop literal.length).takeWhile isVersionChar,
        ((c :: rest).drop literal.length).takeWhile isVersionChar]
    else findVersion literal rest

/-- A regular expression of the table `binVersion`, as the function `FindSubmatch` on a
string. -/
def versionRegexp (literal : String) (out : String) : List String :=
  (findVersion literal.data out.data).map String.mk

/-- The type `BinVersion` (requirement.go:103-106); the regular expression is kept as its
function `FindSubmatch`. -/
structure BinVersion where
  minVersion : String
  versionRegexp : String → List String

/-- The variable `binVersion` (requirement.go:108-114). -/
def binVersion : GoMap BinVersion :=
  [("gcloud", ⟨"239.0.0", versionRegexp "Google Cloud SDK "⟩),
    ("gsutil", ⟨"4.37", versionRegexp "version: "⟩),
    ("vault", ⟨"1.1.0", versionRegexp "Vault v"⟩),
    ("kubectl", ⟨"1.13.5", versionRegexp "GitVersion:\"v"⟩),
    ("helm", ⟨"2.13.1", versionRegexp "SemVer:\"v"⟩)]

/-- The Go comparison `a < b` of two strings. -/
def stringLt (a b : String) : Bool :=
  !stringLe b a

/-- The function `checkRequiresBinVersion` (requirement.go:202-215): the error text, `none`
for `nil`. -/
def checkRequiresBinVersion (minVer : String) (verRegexp : String → List String)
    (out : String) : Option String :=
  if out.data.length == 0 then some "no output"
  else
    let found := verRegexp out
    if found.length != 2 then some "no version string found"
    else
      let ver := found.getD 1 ""
      if stringLt ver minVer then
        some ("`" ++ ver ++ "` version detected; must have at least version `" ++ minVer ++ "`")
      else none

/-- The function `checkRequiresBin` (requirement.go:186-200): the output and the error of the
command. `exec` is the run of an external command in the environment of the process;
`printCmd` is not among the sources, its call is recorded as a `printf` of the command. -/
def checkRequiresBin {σ : Type} (cfg : Config)
    (exec : List String → GoMap String → σ → (String × Option String) × σ)
    (bin : List String) (ps : Process σ) : Checked σ (String × Option String) :=
  let ran := exec bin ps.env ps.outside
  { value := (ran.1.1, ran.1.2.map (fun err => "[" ++ Join bin " " ++ "]: " ++ err)),
    trace :=
      (if cfg.Debug then [Event.printf "printCmd" bin] else []) ++
      [Event.exec bin] ++
      (if cfg.Trace && ran.1.1.data.length > 0 then [Event.printf "%s" [ran.1.1]] else []),
    state := { ps with outside := ran.2 } }

/-- The function `checkRequiresAzure` (requirement.go:217-246). The password passed to
`az login` is the outer `clientSecret`: the certificate path is read into a variable of the
inner block only. -/
def checkRequiresAzure {σ : Type} (cfg : Config)
    (exec : List String → GoMap String → σ → (String × Option String) × σ)
    (ps : Process σ) : Checked σ (Option String) :=
  let listed := checkRequiresBin cfg exec ["az", "storage", "account", "list", "-o", "table"] ps
  match listed.value.2 with
  | none => { value := none, trace := listed.trace, state := listed.state }
  | some err =>
    if !stringsContains listed.value.1 "az login" then
      { value := some err, trace := listed.trace, state := listed.state }
    else
      let help := "https://docs.microsoft.com/en-us/go/azure/azure-sdk-go-authorization"
      let tenantId := Getenv listed.state "AZURE_TENANT_ID"
      let clientId := Getenv listed.state "AZURE_CLIENT_ID"
      let clientSecret := Getenv listed.state "AZURE_CLIENT_SECRET"
      if tenantId == "" then
        { value := some ("AZURE_TENANT_ID is not set, see " ++ help), trace := listed.trace,
          state := listed.state }
      else if clientId == "" then
        { value := some ("AZURE_CLIENT_ID is not set, see " ++ help), trace := listed.trace,
          state := listed.state }
      else if clientSecret == "" && Getenv listed.state "AZURE_CERTIFICATE_PATH" == "" then
        { value := some ("No AZURE_CLIENT_ID, nor AZURE_CERTIFICATE_PATH is set, see " ++ help),
          trace := listed.trace, state := listed.state }
      else
        let login := checkRequiresBin cfg exec
          ["az", "login", "--service-principal", "--tenant", tenantId, "--username", clientId,
            "--password", clientSecret] listed.state
        { value := login.value.2, trace := listed.trace ++ login.trace, state := login.state }

/-- The first loop of `setupTerraformAzureOsEnv` (requirement.go:253-263): the first of the
variables that is set gives `ARM_ACCESS_KEY`. -/
def firstStorageKey {σ : Type} (ps : Process σ) : List String → Option String
  | [] => none
  | v :: rest => if Getenv ps v != "" then some (Getenv ps v) else firstStorageKey ps rest

/-- The second loop of `setupTerraformAzureOsEnv` (requirement.go:265-275). -/
def copyAzureVars {σ : Type} (cfg : Config) : List String → Process σ → List Event × Process σ
  | [], ps => ([], ps)
  | v :: rest, ps =>
    let src := "AZURE" ++ String.mk (v.data.drop 3)
    if Getenv ps src != "" then
      let next := copyAzureVars cfg rest (Setenv ps v (Getenv ps src))
      ((if cfg.Trace then [Event.printf "Setting %s=%s" [v, Getenv ps src]] else []) ++ next.1,
        next.2)
    else
      let next := copyAzureVars cfg rest ps
      (Event.warn "Unable to set %s: no %s env var set" [v, src] :: next.1, next.2)

/-- The function `setupTerraformAzureOsEnv` (requirement.go:248-278). -/
def setupTerraformAzureOsEnv {σ : Type} (cfg : Config) (ps : Process σ) :
    List Event × Process σ :=
  if Getenv ps "ARM_CLIENT_ID" != "" then ([], ps)
  else
    match (if Getenv ps "ARM_ACCESS_KEY" == "" then
        firstStorageKey ps ["AZURE_STORAGE_ACCESS_KEY", "AZURE_STORAGE_KEY"] else none) with
    | some key =>
      ((if cfg.Trace then [Event.printf "Setting ARM_ACCESS_KEY=%s" [key]] else []),
        Setenv ps "ARM_ACCESS_KEY" key)
    | none =>
      copyAzureVars cfg ["ARM_CLIENT_ID", "ARM_CLIENT_SECRET", "ARM_SUBSCRIPTION_ID",
        "ARM_TENANT_ID"] ps

/-- The function `checkRequiresGcp` (requirement.go:280-295). -/
def checkRequiresGcp {σ : Type} (cfg : Config)
    (exec : List String → GoMap String → σ → (String × Option String) × σ)
    (ps : Process σ) : Checked σ (Option String) :=
  let listed := checkRequiresBin cfg exec ["gcloud", "auth", "list"] ps
  match listed.value.2 with
  | some err => { value := some err, trace := listed.trace, state := listed.state }
  | none =>
    if !stringsContains listed.value.1 "gcloud auth login" then
      { value := none, trace := listed.trace, state := listed.state }
    else
      let credentials := Getenv listed.state "GOOGLE_APPLICATION_CREDENTIALS"
      if credentials == "" then
        { value := some ("GOOGLE_APPLICATION_CREDENTIALS is not set, see " ++
            "https://cloud.google.com/docs/authentication/getting-started"),
          trace := listed.trace, state := listed.state }
      else
        let activated := checkRequiresBin cfg exec
          ["gcloud", "auth", "activate-service-account", "--key-file", credentials] listed.state
        { value := activated.value.2, trace := listed.trace ++ activated.trace,
          state := activated.state }

/-- The write `requirementsVerified[require] = struct{}{}` (requirement.go:182). -/
def markVerified {σ : Type} (ps : Process σ) (require : String) : Process σ :=
  { ps with requirementsVerified :=
      if Contains ps.requirementsVerified require then ps.requirementsVerified
      else ps.requirementsVerified ++ [require] }

/-- The function `checkRequire` (requirement.go:144-184): the pair `(isKnown, error)`, the
events (among them the runs of external commands) and the state after the call. -/
def checkRequire {σ : Type} (cfg : Config)
    (exec : List String → GoMap String → σ → (String × Option String) × σ)
    (require : String) (ps : Process σ) : Checked σ (Bool × Option String) :=
  if Contains ps.requirementsVerified require then
    { value := (true, none), trace := [], state := ps }
  else if require = "azure" then
    let azure := checkRequiresAzure cfg exec ps
    match azure.value with
    | some err => { value := (true, some err), trace := azure.trace, state := azure.state }
    | none =>
      let terraform := setupTerraformAzureOsEnv cfg azure.state
      { value := (true, none), trace := azure.trace ++ terraform.1,
        state := markVerified terraform.2 require }
  else if Contains ["aws", "gcp", "gcs", "kubectl", "kubernetes", "helm", "vault"] require then
    let bin := (mapGet bins require).getD [require, "version"]
    let ran := checkRequiresBin cfg exec bin ps
    match ran.value.2 with
    | some err => { value := (true, some err), trace := ran.trace, state := ran.state }
    | none =>
      let versionWarn : List Event :=
        match mapGet binVersion (bin.headD "") with
        | some verReq =>
          match checkRequiresBinVersion verReq.minVersion verReq.versionRegexp ran.value.1 with
          | some err =>
            [Event.warnOnce "`%s` version requirement cannot be satisfied: %v" [require, err]]
          | none => []
        | none => []
      if require = "gcp" ∨ require = "gcs" then
        let gcp := checkRequiresGcp cfg exec ran.state
        match gcp.value with
        | some err =>
          { value := (true, some err), trace := ran.trace ++ versionWarn ++ gcp.trace,
            state := gcp.state }
        | none =>
          { value := (true, none), trace := ran.trace ++ versionWarn ++ gcp.trace,
            state := markVerified gcp.state require }
      else
        { value := (true, none), trace := ran.trace ++ versionWarn,
          state := markVerified ran.state require }
  else
    { value := (false, none), trace := [], state := ps }

/-- The loop of `checkStackRequires` (requirement.go:118-138) over the requirements still to
visit; `none` when `log.Fatalf` ended the process. -/
def checkStackRequiresLoop {σ : Type} (cfg : Config)
    (exec : List String → GoMap String → σ → (String × Option String) × σ)
    (maybeOptional : GoMap (List String)) :
    List String → GoMap (List String) → Process σ → Run (GoMap (List String) × Process σ)
  | [], provided, ps => { trace := [], result := some (provided, ps) }
  | require :: rest, provided, ps =>
    let checked := checkRequire cfg exec require ps
    if checked.value.1 then
      match checked.value.2 with
      | some err =>
        { trace := checked.trace ++
            [Event.fatal "`%s` requirement cannot be satisfied: %v" [require, err]],
          result := none }
      | none =>
        let next := checkStackRequiresLoop cfg exec maybeOptional rest
          (mapSet provided require [providedByEnv]) checked.state
        { trace := checked.trace ++ next.trace, result := next.result }
    else
      match mapGet maybeOptional require with
      | none =>
        { trace := checked.trace ++
            [Event.fatal "Cannot check for `requires: %s`: no implementation" [require]],
          result := none }
      | some optionalFor =>
        let next := checkStackRequiresLoop cfg exec maybeOptional rest provided checked.state
        { trace := checked.trace ++
            (if cfg.Debug then
              [Event.printf "Requirement `%s` is optional for %v" (require :: optionalFor)]
            else []) ++ next.trace,
          result := next.result }

/-- The function `checkStackRequires` (requirement.go:116-140): the returned provider map
with the state after the call. -/
def checkStackRequires {σ : Type} (cfg : Config)
    (exec : List String → GoMap String → σ → (String × Option String) × σ)
    (requires : List String) (maybeOptional : GoMap (List String)) (ps : Process σ) :
    Run (GoMap (List String) × Process σ) :=
  checkStackRequiresLoop cfg exec maybeOptional requires [] ps

/-- The state of the process after a sequence of calls of `checkRequire`. -/
def checkRequireAll {σ : Type} (cfg : Config)
    (exec : List String → GoMap String → σ → (String × Option String) × σ) :
    List String → Process σ → Process σ
  | [], ps => ps
  | require :: rest, ps => checkRequireAll cfg exec rest (checkRequire cfg exec require ps).state

/-- The numbers of a dotted version, for the comparison that the specification describes:
the decimal value of each part between the dots. -/
def versionNumbers (version : String) : List Nat :=
  (version.data.splitOn '.').map
    (fun part => part.foldl (fun n c => 10 * n + (c.toNat - '0'.toNat)) 0)

/-- The order of dotted version numbers that the specification describes: component by
component, numerically. It is not taken from the code, which compares strings. -/
def versionLt : List Nat → List Nat → Bool
  | _, [] => false
  | [], _ :: _ => true
  | a :: as, b :: bs => if a < b then true else if b < a then false else versionLt as bs

/-- An outside world that counts the commands run, in which every command fails. -/
def execFails (_ : List String) (_ : GoMap String) (world : Nat) :
    (String × Option String) × Nat :=
  (("", some "exit status 1"), world + 1)

/-- An outside world that counts the commands run, in which every command succeeds without
output. -/
def execSucceeds (_ : List String) (_ : GoMap String) (world : Nat) :
    (String × Option String) × Nat :=
  (("", none), world + 1)

/-! ## `lifecycle/template.go`: rendering a template file -/

/-- The constant `templateSuffix` (template.go:24). -/
def templateSuffix : String := ".template"

/-- The constant `curlyKind` (template.go:25). -/
def curlyKind : String := "curly"

/-- The constant `mustacheKind` (template.go:26). -/
def mustacheKind : String := "mustache"

/-- The constant `trueMustacheKind` (template.go:27). -/
def trueMustacheKind : String := "_mustache"

/-- The constant `goKind` (template.go:28). -/
def goKind : String := "go"

/-- The variable `kinds` (template.go:31). -/
def kinds : List String := [curlyKind, mustacheKind, trueMustacheKind, goKind]

/-- The type `TemplateRef` (template.go:33-36). -/
structure TemplateRef where
  Filename : String
  Kind : String
deriving DecidableEq, Repr

/-- The function `checkKind` (template.go:239-248): the kind returned and the events. -/
def checkKind (componentName kind : String) : String × List Event :=
  if kind = "" then (curlyKind, [])
  else if !Contains kinds kind then
    (kind, [Event.warn "Component `%s` template kind `%s` not recognized; supported %v"
      [componentName, kind, "[" ++ Join kinds " " ++ "]"]])
  else (kind, [])

/-- The Go `strings.HasSuffix`. -/
def HasSuffix (s ending : String) : Bool :=
  ending.data.isSuffixOf s.data

/-- The file operations that `processTemplate` calls, on a file system `φ`: `Open` gives the
error of `os.Open`, `ReadAll` the content of the file or the error, `Stat` the mode of the file
or the error, `Create` the file system with the file created and truncated or the error,
`Chmod` the error and the file system after it, `WriteTo` the number of bytes written, the
error, and the file system after it. -/
structure Files (φ : Type) where
  Open : String → φ → Option String
  ReadAll : String → φ → Except String String
  Stat : String → φ → Except String Nat
  Create : String → φ → Except String φ
  Chmod : String → Nat → φ → Option String × φ
  WriteTo : String → String → φ → (Nat × Option String) × φ

/-- The template library `github.com/alexkappa/mustache`, which is not part of the sources:
`ParseString` gives the error of parsing, `RenderString` the rendered content and the
error. -/
structure Mustache where
  ParseString : String → Option String
  RenderString : String → GoMap String → String × Option String

/-- What a render branch of `processTemplate` gives: the content, the errors, the events. -/
structure Rendered where
  outContent : String
  errs : List String
  trace : List Event
deriving DecidableEq, Repr

/-- The function `processMustache` (template.go:453-467); the call of `util.PrintMap` is
recorded as a `printf` of the keys. -/
def processMustache (mu : Mustache) (content filename _componentName : String)
    (_componentDepends : List String) (kv : GoMap String) :
    (String × Option String) × List Event :=
  match mu.ParseString content with
  | some err =>
    (("", some ("Unable to parse mustache template `" ++ filename ++ "`: " ++ err)), [])
  | none =>
    match (mu.RenderString content kv).2 with
    | some err =>
      (((mu.RenderString content kv).1,
          some ("Unable to render mustache template `" ++ filename ++ "`: " ++ err)),
        [Event.printf "PrintMap" (mapKeys kv)])
    | none => (((mu.RenderString content kv).1, none), [])

/-- The `switch template.Kind` of `processTemplate` (template.go:302-320): what the render
branch of the kind gives, `none` for the `default` branch. -/
def renderTemplate (cfg : Config) (lk : Lookup) (mu : Mustache) (kind content filename
    componentName : String) (componentDepends : List String) (kv : GoMap String) :
    Option Rendered :=
  if kind = "" ∨ kind = curlyKind then
    let done := processReplacement cfg lk content filename componentName componentDepends kv
      curlyReplacement stripCurly
    some { outContent := done.1.1, errs := done.1.2, trace := done.2 }
  else if kind = mustacheKind then
    let done := processReplacement cfg lk content filename componentName componentDepends kv
      mustacheReplacement stripMustache
    some { outContent := done.1.1, errs := done.1.2, trace := done.2 }
  else if kind = trueMustacheKind then
    let done := processMustache mu content filename componentName componentDepends kv
    some { outContent := done.1.1,
           errs := match done.1.2 with
             | some err => [err]
             | none => [],
           trace := done.2 }
  else none

/-- The path of the rendered file (template.go:289-292): the name of the template without the
suffix `.template`. -/
def templateOutPath (filename : String) : String :=
  if HasSuffix filename templateSuffix then
    String.mk (filename.data.take (filename.data.length - templateSuffix.data.length))
  else filename

/-- The function `processTemplate` (template.go:270-331): the errors returned, the events, and
the file system after the call. The writing of the rendered content is the event `write`. -/
def processTemplate {φ : Type} (cfg : Config) (lk : Lookup) (mu : Mustache) (fs : Files φ)
    (template : TemplateRef) (componentName : String) (componentDepends : List String)
    (kv : GoMap String) (world : φ) : (List String × List Event) × φ :=
  match fs.Open template.Filename world with
  | some err =>
    ((["Unable to open `" ++ componentName ++ "` component template input `" ++
        template.Filename ++ "`: " ++ err], []), world)
  | none =>
    match fs.ReadAll template.Filename world with
    | Except.error err =>
      ((["Unable to read `" ++ componentName ++ "` component template content `" ++
          template.Filename ++ "`: " ++ err], []), world)
    | Except.ok content =>
      let statWarn : List Event :=
        match fs.Stat template.Filename world with
        | Except.error err =>
          [Event.warn "Unable to stat `%s` component template input `%s`: %v"
            [componentName, template.Filename, err]]
        | Except.ok _ => []
      let outPath := templateOutPath template.Filename
      match fs.Create outPath world with
      | Except.error err =>
        ((["Unable to open `" ++ componentName ++ "` component template output `" ++
            outPath ++ "`: " ++ err], statWarn), world)
      | Except.ok created =>
        let chmod : List Event × φ :=
          match fs.Stat template.Filename world with
          | Except.ok mode =>
            match (fs.Chmod outPath mode created).1 with
            | some err =>
              ([Event.warn "Unable to chmod `%s` component template output `%s`: %v"
                [componentName, template.Filename, err]], (fs.Chmod outPath mode created).2)
            | none => ([], (fs.Chmod outPath mode created).2)
          | Except.error _ => ([], created)
        match renderTemplate cfg lk mu template.Kind content template.Filename componentName
            componentDepends kv with
        | none =>
          ((["Error processing `" ++ componentName ++ "` component template `" ++ outPath ++
              "`: unknown `" ++ template.Kind ++ "` template kind"],
            statWarn ++ chmod.1), chmod.2)
        | some rendered =>
          if rendered.outContent.data.length > 0 then
            let written := fs.WriteTo outPath rendered.outContent chmod.2
            ((rendered.errs ++
                (if written.1.2 ≠ none ∨
                    written.1.1 ≠ (charsBytes rendered.outContent.data).length then
                  ["Error writting `" ++ componentName ++ "` component template output `" ++
                    outPath ++ "`: " ++ written.1.2.getD "<nil>"]
                else []),
              statWarn ++ chmod.1 ++ rendered.trace ++
                [Event.write outPath rendered.outContent]), written.2)
          else ((rendered.errs, statWarn ++ chmod.1 ++ rendered.trace), chmod.2)

/-- A file system in memory, path to content, with no failure but that of a missing file. -/
def memoryFiles : Files (GoMap String) where
  Open := fun path world =>
    match mapGet world path with
    | some _ => none
    | none => some ("open " ++ path ++ ": no such file or directory")
  ReadAll := fun path world =>
    match mapGet world path with
    | some content => Except.ok content
    | none => Except.error "bad file descriptor"
  Stat := fun path world =>
    match mapGet world path with
    | some _ => Except.ok 420
    | none => Except.error "bad file descriptor"
  Create := fun path world => Except.ok (mapSet world path "")
  Chmod := fun _ _ world => (none, world)
  WriteTo := fun path content world =>
    (((charsBytes content.data).length, none), mapSet world path content)

/-- A template library that renders every content as it is. -/
def plainMustache : Mustache where
  ParseString := fun _ => none
  RenderString := fun content _ => (content, none)

/-! ## `lifecycle/requirement.go`: the map of optional requirements -/

/-- Modelled from the spec: `util.AppendMapList` is not among the sources. Entries are
appended in list order: the value goes at the end of the list of the key, the list of an
absent key being empty. -/
def AppendMapList (m : GoMap (List String)) (key value : String) : GoMap (List String) :=
  mapSet m key ((mapGet m key).getD [] ++ [value])

/-- Modelled from the spec: the type `manifest.RequiresTuning` is not among the sources; the
`optional` list is the only field that `parseRequiresTunning` reads. -/
structure RequiresTuning where
  Optional : List String
deriving DecidableEq, Repr

/-- The loop of `parseRequiresTunning` (requirement.go:312-321) over the entries still to
visit. The needle `:` is one byte, so the index counted in characters cuts where the index
counted in bytes does, and is first or last in characters exactly when it is in bytes. -/
def parseRequiresTunningLoop : List String → GoMap (List String) → GoMap (List String)
  | [], optional => optional
  | req :: rest, optional =>
    let i := stringsIndex req.data ':'
    if i > 0 ∧ i < (req.data.length : Int) - 1 then
      parseRequiresTunningLoop rest
        (AppendMapList optional (String.mk (req.data.take i.toNat))
          (String.mk (req.data.drop (i.toNat + 1))))
    else if i = -1 then parseRequiresTunningLoop rest (AppendMapList optional req "*")
    else parseRequiresTunningLoop rest optional

/-- The function `parseRequiresTunning` (requirement.go:310-323). -/
def parseRequiresTunning (requires : RequiresTuning) : GoMap (List String) :=
  parseRequiresTunningLoop requires.Optional []

/-- What the specification says an entry of the `optional` list gives to a term: the wildcard
`*` when the entry has no `:` and is the term; the text after the first `:` when the text
before it is the term and neither text is empty; nothing otherwise. It follows the words of
the specification, not the code. -/
def entryFor (term req : String) : Option String :=
  if ':' ∉ req.data then
    if req = term then some "*" else none
  else if req.data.takeWhile (fun x => x != ':') ≠ [] ∧
      (req.data.dropWhile (fun x => x != ':')).drop 1 ≠ [] ∧
      String.mk (req.data.takeWhile (fun x => x != ':')) = term then
    some (String.mk ((req.data.dropWhile (fun x => x != ':')).drop 1))
  else none

/-- The list of a term that the specification describes: what the entries give to the term,
in the order of the entries. -/
def optionalComponents (entries : List String) (term : String) : List String :=
  entries.filterMap (entryFor term)

/-! ## `lifecycle/template.go`: `processReplacement` on values of any bytes -/

/-- A Go string as the sequence of its bytes. A Go string holds any bytes: the value of a
parameter, and what `unbase64` decodes, need not be UTF-8 text. -/
abbrev GoBytes := List (Fin 256)

/-- The bytes of the numbers of a list, each below 256 where the list is one of bytes. -/
def ofNats (bytes : List Nat) : GoBytes :=
  bytes.map (fun n => Fin.ofNat n)

/-- The Go string of a text: its UTF-8 bytes. -/
def textBytes (s : String) : GoBytes :=
  ofNats (charsBytes s.data)

/-- The bytes of a Go string, each read as the character of its code. The decoder of
`encoding/base64` reads its input byte by byte and its alphabet is ASCII, so it is applied to
this reading. -/
def bytesLatin (bytes : GoBytes) : List Char :=
  bytes.map (fun b => Char.ofNat b.val)

/-- The call `base64.StdEncoding.EncodeToString([]byte(s))` on a Go string: the encoding is
ASCII text, given as the Go string of its bytes. -/
def base64Bytes (s : GoBytes) : GoBytes :=
  ofNats (charsBytes (base64Encode (s.map Fin.val)))

/-- The call `base64.StdEncoding.DecodeString(s)` on a Go string, followed by `string(bytes)`,
which keeps the bytes; `none` is the error of the decoder. -/
def unbase64Bytes (s : GoBytes) : Option GoBytes :=
  (base64Decode (bytesLatin s)).map ofNats

/-- The code points of the white space of `unicode.IsSpace`. -/
def spaceRunes : List Nat :=
  [0x09, 0x0A, 0x0B, 0x0C, 0x0D, 0x20, 0x85, 0xA0, 0x1680, 0x2000, 0x2001, 0x2002, 0x2003,
    0x2004, 0x2005, 0x2006, 0x2007, 0x2008, 0x2009, 0x200A, 0x2028, 0x2029, 0x202F, 0x205F,
    0x3000]

/-- The UTF-8 forms of the white space. -/
def spaceCodes : List GoBytes :=
  spaceRunes.map (fun n => ofNats (utf8Bytes (Char.ofNat n)))

/-- The bytes without the forms of `codes` that stand at their head, one after the other;
`fuel` bounds the number of forms dropped. -/
def dropCodes (codes : List GoBytes) : Nat → GoBytes → GoBytes
  | 0, bytes => bytes
  | fuel + 1, bytes =>
    match codes.find? (fun code => code.isPrefixOf bytes) with
    | some code => dropCodes codes fuel (bytes.drop code.length)
    | none => bytes

/-- The Go `strings.TrimSpace` on the bytes of a string. Go reads the string rune by rune
from the left, then from the right; a rune is white space exactly when the bytes read are the
UTF-8 form of a white space, and a byte that belongs to no UTF-8 form reads as `RuneError`,
which is not white space. So the forms of the white space are dropped at the head, then at
the end. -/
def TrimSpaceBytes (bytes : GoBytes) : GoBytes :=
  (dropCodes (spaceCodes.map List.reverse) bytes.length
    (dropCodes spaceCodes bytes.length bytes).reverse).reverse

/-- A message whose arguments are Go strings of any bytes: `printf` is `log.Printf`, `warn` is
`util.Warn`, `warnOnce` is `util.WarnOnce`, each with its format and its arguments. -/
inductive RawEvent where
  | printf (format : String) (args : List GoBytes)
  | warn (format : String) (args : List GoBytes)
  | warnOnce (format : String) (args : List GoBytes)
deriving DecidableEq, Repr

/-- The lookup machinery of the `parameters` package, which is not among the sources and is
taken as a parameter, on values of any bytes. -/
structure LookupBytes where
  FindValue : String → String → List String → GoMap GoBytes → Option GoBytes
  RequireExpansion : GoBytes → Bool

/-- Modelled from the spec: `parameters.FindValue` is not among the sources; the spec reads
it as the value qualified by the component itself, else by one of its dependencies in order,
else the unqualified value. It serves the evaluations; the properties are proved for every
`LookupBytes`. -/
def specLookupBytes : LookupBytes where
  FindValue := fun name componentName componentDepends kv =>
    match mapGet kv (name ++ ":" ++ componentName) with
    | some value => some value
    | none =>
      match componentDepends.findSome? (fun dep => mapGet kv (name ++ ":" ++ dep)) with
      | some value => some value
      | none => mapGet kv name
  RequireExpansion := fun value => containsChars (bytesLatin value) "$\x7b".data

/-- What the callback of `processReplacement` returns for one match, the text put in its
place being a Go string of any bytes. -/
structure SubstitutedBytes where
  substitution : GoBytes
  errs : List String
  trace : List RawEvent
deriving DecidableEq, Repr

/-- The callback of `processReplacement` (template.go:360-395) on the match `m`, the values
being Go strings of any bytes: `[]byte(substitution)` and `string(bytes)` keep the bytes as
they are. The match, and so the variable and the encoding, is ASCII text, as the regular
expression takes nothing else. The values of the messages are recorded as they are, before
`util.Trim` (not among the sources); the error text of the base64 decoder is not recorded. -/
def replaceVariableBytes (cfg : Config) (lk : LookupBytes) (filename componentName : String)
    (componentDepends : List String) (kv : GoMap GoBytes) (strip : String → String)
    (m : String) : SubstitutedBytes :=
  let name := (valueEncoding (strip m)).1
  let encoding := (valueEncoding (strip m)).2
  let found := lk.FindValue name componentName componentDepends kv
  let substitution := found.getD (textBytes "(unknown)")
  let errs : List String :=
    match found with
    | none => ["Template `" ++ filename ++ "` refer to unknown substitution `" ++ name ++ "`"]
    | some _ => []
  let looked : List RawEvent :=
    (match found with
      | some value =>
        if lk.RequireExpansion value then
          [RawEvent.warnOnce
            "Template `%s` substitution `%s` refer to a value `%s` that is not expanded"
            [textBytes filename, textBytes name, value]]
        else []
      | none => []) ++
    (if cfg.Trace then
      [RawEvent.printf "--- %s | %s => %s"
        [textBytes name, textBytes componentName, substitution]]
      else [])
  if encoding != "" then
    if encoding == "base64" then
      { substitution := base64Bytes substitution, errs := errs, trace := looked }
    else if encoding == "unbase64" then
      match unbase64Bytes substitution with
      | none =>
        { substitution := substitution, errs := errs,
          trace := looked ++
            [RawEvent.warn "Unable to decode `%s` base64 value `%s`: %v"
              [textBytes name, substitution]] }
      | some bytes =>
        { substitution := bytes, errs := errs, trace := looked }
    else
      { substitution := substitution, errs := errs,
        trace := looked ++
          [RawEvent.warn "Unknown encoding `%s` processing template `%s` substitution `%s`"
            [textBytes encoding, textBytes filename, textBytes name]] }
  else
    { substitution := TrimSpaceBytes substitution, errs := errs, trace := looked }

/-- The call `replacement.ReplaceAllStringFunc(content, callback)` over the stretches of the
scanned content, from left to right: the bytes written, the errors and the events. -/
def replaceMatchesBytes (callback : String → SubstitutedBytes) : List Piece → SubstitutedBytes
  | [] => { substitution := [], errs := [], trace := [] }
  | Piece.text s :: rest =>
    let next := replaceMatchesBytes callback rest
    { substitution := textBytes s ++ next.substitution, errs := next.errs, trace := next.trace }
  | Piece.hit m :: rest =>
    let this := callback m
    let next := replaceMatchesBytes callback rest
    { substitution := this.substitution ++ next.substitution, errs := this.errs ++ next.errs,
      trace := this.trace ++ next.trace }

/-- The function `processReplacement` (template.go:353-401) on values of any bytes: the bytes
of the returned content, the errors, and the events; `replacement` is the scan by the regular
expression passed in. -/
def processReplacementBytes (cfg : Config) (lk : LookupBytes)
    (content filename componentName : String) (componentDepends : List String)
    (kv : GoMap GoBytes) (replacement : String → List Piece) (strip : String → String) :
    (GoBytes × List String) × List RawEvent :=
  let done := replaceMatchesBytes
    (replaceVariableBytes cfg lk filename componentName componentDepends kv strip)
    (replacement content)
  let replaced := !(hits (replacement content)).isEmpty
  ((done.substitution, done.errs),
    done.trace ++
      if !replaced then
        [RawEvent.warn "No substitutions found in template `%s`" [textBytes filename]]
      else [])

/-! # Properties -/

/-! ## Lemmas on maps -/

theorem mapGet_mapSet_self {V : Type} (m : GoMap V) (k : String) (v : V) :
    mapGet (mapSet m k v) k = some v := by
  induction m with
  | nil => simp [mapSet, mapGet]
  | cons e rest ih =>
    obtain ⟨k', v'⟩ := e
    by_cases h : k' = k
    · simp [mapSet, mapGet, h]
    · simp [mapSet, mapGet, h, ih]

theorem mapGet_mapSet_ne {V : Type} (m : GoMap V) (k k' : String) (v : V) (hk : k' ≠ k) :
    mapGet (mapSet m k v) k' = mapGet m k' := by
  induction m with
  | nil => simp [mapSet, mapGet, Ne.symm hk]
  | cons e rest ih =>
    obtain ⟨k0, v0⟩ := e
    by_cases h : k0 = k
    · subst h
      simp [mapSet, mapGet, Ne.symm hk]
    · by_cases h' : k0 = k'
      · subst h'
        simp [mapSet, mapGet, h]
      · simp [mapSet, mapGet, h, h', ih]

theorem mapSet_eq_self {V : Type} (m : GoMap V) (k : String) (v : V)
    (h : mapGet m k = some v) : mapSet m k v = m := by
  induction m with
  | nil => simp [mapGet] at h
  | cons e rest ih =>
    obtain ⟨k0, v0⟩ := e
    by_cases hk : k0 = k
    · simp [mapGet, hk] at h
      simp [mapSet, hk, h]
    · simp [mapGet, hk] at h
      simp [mapSet, hk, ih h]

theorem Contains_iff (l : List String) (s : String) : Contains l s = true ↔ s ∈ l := by
  induction l with
  | nil => simp [Contains]
  | cons x xs ih =>
    by_cases h : x = s
    · simp [Contains, h]
    · simp [Contains, h, ih, Ne.symm h]

/-! ## `mergeProvides` is idempotent -/

theorem mem_withProvider (c : String) (o : Option (List String)) : c ∈ withProvider c o := by
  cases o with
  | none => simp [withProvider]
  | some who =>
    by_cases h : Contains who c = true
    · simpa [withProvider, h] using (Contains_iff who c).1 h
    · simp [withProvider, h]

theorem withProvider_of_mem (c : String) (who : List String) (h : c ∈ who) :
    withProvider c (some who) = who := by
  simp [withProvider, (Contains_iff who c).2 h]

theorem withProvider_of_not_mem (c : String) (who : List String) (h : c ∉ who) :
    withProvider c (some who) = who ++ [c] := by
  have hc : ¬ Contains who c = true := fun hc => h ((Contains_iff who c).1 hc)
  simp [withProvider, hc]

theorem withProvider_idem (c : String) (o : Option (List String)) :
    withProvider c (some (withProvider c o)) = withProvider c o := by
  exact withProvider_of_mem c _ (mem_withProvider c o)

theorem count_withProvider (c : String) (o : Option (List String))
    (h : (o.getD []).count c ≤ 1) : (withProvider c o).count c = 1 := by
  cases o with
  | none => simp [withProvider]
  | some who =>
    by_cases hc : Contains who c = true
    · have hm := (Contains_iff who c).1 hc
      have hpos : 0 < who.count c := List.count_pos_iff.2 hm
      simp only [Option.getD_some] at h
      simp only [withProvider, hc, if_true]
      omega
    · have hm : c ∉ who := fun hm => hc ((Contains_iff who c).2 hm)
      simp [withProvider, hc, List.count_eq_zero_of_not_mem hm]

theorem validatorPasses_tail {cfg : Config} {c prov : String} {rest : List String}
    {outs : CapturedOutputs} (hv : validatorPasses cfg c (prov :: rest) outs) :
    validatorPasses cfg c rest outs := by
  rcases hv with hf | hk
  · exact Or.inl hf
  · exact Or.inr (fun hm => hk (List.mem_cons_of_mem _ hm))

theorem mergeProvides_cons_result (cfg : Config) (provides : GoMap (List String))
    (c prov : String) (rest : List String) (outs : CapturedOutputs)
    (hv : validatorPasses cfg c (prov :: rest) outs) :
    (mergeProvides cfg provides c (prov :: rest) outs).result =
      (mergeProvides cfg (mapSet provides prov (withProvider c (mapGet provides prov))) c rest
        outs).result := by
  have hgo : (decide (prov = "kubernetes") &&
      (mapGet outs (OutputQualifiedName "dns.domain" c)).isNone && !cfg.Force) = false := by
    rcases hv with hf | hk
    · simp [hf]
    · by_cases hp : prov = "kubernetes"
      · have := hk (by simp [hp])
        cases hg : mapGet outs (OutputQualifiedName "dns.domain" c) with
        | none => simp [hg] at this
        | some o => simp
      · simp [hp]
  rw [mergeProvides]
  simp only [hgo]
  cases hget : mapGet provides prov with
  | none => simp [withProvider]
  | some who =>
    by_cases hc : Contains who c = true
    · simp [withProvider, hc]
    · simp [withProvider, hc]

/-- What `mergeProvides` returns: every declared capability gets the component added (once),
every other capability keeps its entry. -/
theorem mergeProvides_spec (cfg : Config) (c : String) (outs : CapturedOutputs) :
    ∀ (provs : List String) (provides : GoMap (List String)),
      validatorPasses cfg c provs outs →
      ∃ merged, (mergeProvides cfg provides c provs outs).result = some merged ∧
        ∀ p, mapGet merged p =
          if p ∈ provs then some (withProvider c (mapGet provides p)) else mapGet provides p := by
  intro provs
  induction provs with
  | nil =>
    intro provides _
    exact ⟨provides, by simp [mergeProvides], by simp⟩
  | cons prov rest ih =>
    intro provides hv
    obtain ⟨merged, hres, hget⟩ :=
      ih (mapSet provides prov (withProvider c (mapGet provides prov))) (validatorPasses_tail hv)
    refine ⟨merged, by rw [mergeProvides_cons_result cfg provides c prov rest outs hv, hres], ?_⟩
    intro p
    rw [hget p]
    by_cases hp : p = prov
    · subst hp
      by_cases hr : p ∈ rest
      · simp [hr, mapGet_mapSet_self, withProvider_idem]
      · simp [hr, mapGet_mapSet_self]
    · by_cases hr : p ∈ rest
      · simp [hr, hp, mapGet_mapSet_ne _ _ _ _ hp]
      · simp [hr, hp, mapGet_mapSet_ne _ _ _ _ hp]

/-- A map in which the component already provides every declared capability is a fixed point
of `mergeProvides`. -/
theorem mergeProvides_fixed (cfg : Config) (c : String) (outs : CapturedOutputs) :
    ∀ (provs : List String) (m : GoMap (List String)),
      validatorPasses cfg c provs outs →
      (∀ p ∈ provs, ∃ who, mapGet m p = some who ∧ c ∈ who) →
      (mergeProvides cfg m c provs outs).result = some m := by
  intro provs
  induction provs with
  | nil =>
    intro m _ _
    simp [mergeProvides]
  | cons prov rest ih =>
    intro m hv hall
    obtain ⟨who, hwho, hmem⟩ := hall prov (List.mem_cons_self _ _)
    rw [mergeProvides_cons_result cfg m c prov rest outs hv, hwho,
      withProvider_of_mem c who hmem, mapSet_eq_self m prov who hwho]
    exact ih m (validatorPasses_tail hv) (fun p hp => hall p (List.mem_cons_of_mem _ hp))

/-- C1: `mergeProvides` is idempotent per component. When the provide validator passes,
`mergeProvides` returns a map in which the component is among the providers of every declared
capability; running it again with the same arguments on that map returns the same map; and a
provider list in which the component occurred at most once contains it exactly once
afterwards (nothing is assumed about repetitions in the capability list). -/
theorem mergeProvides_idempotent (cfg : Config) (provides : GoMap (List String))
    (componentName : String) (componentProvides : List String)
    (componentOutputs : CapturedOutputs)
    (hv : validatorPasses cfg componentName componentProvides componentOutputs) :
    ∃ merged,
      (mergeProvides cfg provides componentName componentProvides componentOutputs).result
        = some merged ∧
      (∀ prov ∈ componentProvides, ∃ who, mapGet merged prov = some who ∧ componentName ∈ who) ∧
      (mergeProvides cfg merged componentName componentProvides componentOutputs).result
        = some merged ∧
      (∀ prov ∈ componentProvides,
        ((mapGet provides prov).getD []).count componentName ≤ 1 →
        ((mapGet merged prov).getD []).count componentName = 1) := by
  obtain ⟨merged, hres, hget⟩ :=
    mergeProvides_spec cfg componentName componentOutputs componentProvides provides hv
  have hall : ∀ prov ∈ componentProvides,
      ∃ who, mapGet merged prov = some who ∧ componentName ∈ who := by
    intro prov hp
    exact ⟨_, by rw [hget prov, if_pos hp], mem_withProvider _ _⟩
  refine ⟨merged, hres, hall, ?_, ?_⟩
  · exact mergeProvides_fixed cfg componentName componentOutputs componentProvides merged hv hall
  · intro prov hp hcount
    rw [hget prov, if_pos hp, Option.getD_some]
    exact count_withProvider componentName _ hcount

/-- Witness of C1: a component `b` declaring `kubernetes` twice, next to a provider `a`. -/
theorem mergeProvides_idempotent_witness :
    validatorPasses ⟨false, false, false, false⟩ "b" ["kubernetes", "kubernetes"]
        [("dns.domain:b", ⟨"dns.domain", "b", "example.com", ""⟩)] ∧
      (mergeProvides ⟨false, false, false, false⟩ [("kubernetes", ["a"])] "b"
          ["kubernetes", "kubernetes"]
          [("dns.domain:b", ⟨"dns.domain", "b", "example.com", ""⟩)]).result
        = some [("kubernetes", ["a", "b"])] ∧
      ∃ merged,
        (mergeProvides ⟨false, false, false, false⟩ [("kubernetes", ["a"])] "b"
            ["kubernetes", "kubernetes"]
            [("dns.domain:b", ⟨"dns.domain", "b", "example.com", ""⟩)]).result = some merged ∧
        (∀ prov ∈ ["kubernetes", "kubernetes"],
          ∃ who, mapGet merged prov = some who ∧ "b" ∈ who) ∧
        (mergeProvides ⟨false, false, false, false⟩ merged "b" ["kubernetes", "kubernetes"]
            [("dns.domain:b", ⟨"dns.domain", "b", "example.com", ""⟩)]).result = some merged ∧
        (∀ prov ∈ ["kubernetes", "kubernetes"],
          ((mapGet [("kubernetes", ["a"])] prov).getD []).count "b" ≤ 1 →
          ((mapGet merged prov).getD []).count "b" = 1) :=
  ⟨Or.inr (fun _ => by decide), by decide,
    mergeProvides_idempotent _ _ _ _ _ (Or.inr (fun _ => by decide))⟩

/-! ## `prepareComponentRequires` -/

theorem unprovided_eq (provided : GoMap (List String)) (req : String) :
    ((mapGet provided req).isNone || ((mapGet provided req).getD []).length == 0)
      = decide (providersOf provided req = []) := by
  unfold providersOf
  cases h : mapGet provided req with
  | none => simp
  | some l => cases l <;> simp

/-- The first loop when every requirement without a provider is optional: it runs to the end. -/
theorem resolveRequires_ok (cfg : Config) (provided : GoMap (List String))
    (componentName : String) (requires : List String) (maybeOptional : GoMap (List String)) :
    ∀ (l : List String) (setups : List (String × String)) (onp : List String)
      (trace : List Event),
      (∀ req ∈ l, providersOf provided req = [] →
        optionalFor maybeOptional req componentName = true) →
      resolveRequires cfg provided componentName requires maybeOptional l setups onp trace =
        { setups := setups ++ selectedSetups provided l,
          optionalNotProvided := onp ++ l.filter (fun r => decide (providersOf provided r = [])),
          trace := trace ++ resolveEvents cfg provided l,
          err := none } := by
  intro l
  induction l with
  | nil =>
    intro setups onp trace _
    simp [resolveRequires, selectedSetups, resolveEvents]
  | cons req rest ih =>
    intro setups onp trace h
    have hrest : ∀ r ∈ rest, providersOf provided r = [] →
        optionalFor maybeOptional r componentName = true :=
      fun r hr => h r (List.mem_cons_of_mem _ hr)
    simp only [resolveRequires]
    rw [unprovided_eq]
    by_cases hp : providersOf provided req = []
    · have ho := h req (List.mem_cons_self _ _) hp
      simp only [hp, decide_True, if_true, ho]
      rw [ih _ _ _ hrest]
      simp [selectedSetups, resolveEvents, requireEvents, hp]
    · simp only [hp, decide_False, Bool.false_eq_true, if_false]
      rw [ih _ _ _ hrest]
      have hp' : ¬ (mapGet provided req).getD [] = [] := hp
      simp [selectedSetups, resolveEvents, requireEvents, hp', providersOf]

/-- The first loop when some requirement has no provider and is not optional: it returns
the error. -/
theorem resolveRequires_err (cfg : Config) (provided : GoMap (List String))
    (componentName : String) (requires : List String) (maybeOptional : GoMap (List String)) :
    ∀ (l : List String) (setups : List (String × String)) (onp : List String)
      (trace : List Event),
      (∃ req ∈ l, providersOf provided req = [] ∧
        optionalFor maybeOptional req componentName = false) →
      (resolveRequires cfg provided componentName requires maybeOptional l setups onp trace).err
        = some (requiresError provided componentName requires) := by
  intro l
  induction l with
  | nil =>
    intro _ _ _ h
    obtain ⟨r, hr, _⟩ := h
    cases hr
  | cons req rest ih =>
    intro setups onp trace h
    simp only [resolveRequires]
    rw [unprovided_eq]
    by_cases hp : providersOf provided req = []
    · by_cases ho : optionalFor maybeOptional req componentName = true
      · simp only [hp, decide_True, if_true, ho]
        apply ih
        obtain ⟨r, hr, hr1, hr2⟩ := h
        rcases List.mem_cons.1 hr with rfl | hr'
        · rw [ho] at hr2
          cases hr2
        · exact ⟨r, hr', hr1, hr2⟩
      · simp [hp, ho]
    · simp only [hp, decide_False, Bool.false_eq_true, if_false]
      apply ih
      obtain ⟨r, hr, hr1, hr2⟩ := h
      rcases List.mem_cons.1 hr with rfl | hr'
      · exact absurd hr1 hp
      · exact ⟨r, hr', hr1, hr2⟩

/-- The first loop calls no `setupRequirement`. -/
theorem resolveRequires_no_setup (cfg : Config) (provided : GoMap (List String))
    (componentName : String) (requires : List String) (maybeOptional : GoMap (List String)) :
    ∀ (l : List String) (setups : List (String × String)) (onp : List String)
      (trace : List Event),
      (resolveRequires cfg provided componentName requires maybeOptional l setups onp
        trace).trace.filter Event.isSetup = trace.filter Event.isSetup := by
  intro l
  induction l with
  | nil => intro _ _ _; simp [resolveRequires]
  | cons req rest ih =>
    intro setups onp trace
    simp only [resolveRequires]
    split
    · split
      · rw [ih]
        cases cfg.Verbose <;> simp [Event.isSetup]
      · rfl
    · rw [ih]
      simp only [List.filter_append]
      split <;> split <;> simp [Event.isSetup]

theorem resolveEvents_isWarn (cfg : Config) (provided : GoMap (List String)) :
    ∀ l : List String, (resolveEvents cfg provided l).filter Event.isWarn =
      (l.filter (fun req => decide (1 < (providersOf provided req).length))).map
        (fun req => Event.warn
          "Requirement `%s` provided by multiple components `%s`, only `%s` will be used"
          [req, Join (providersOf provided req) ", ", (providersOf provided req).getLastD ""]) := by
  intro l
  induction l with
  | nil => simp [resolveEvents]
  | cons req rest ih =>
    simp only [resolveEvents, List.filter_append, ih, requireEvents]
    by_cases hp : providersOf provided req = []
    · have h1 : ¬ 1 < (providersOf provided req).length := by simp [hp]
      simp only [hp, if_true]
      cases cfg.Verbose <;> simp [Event.isWarn, List.filter_cons, hp]
    · simp only [hp, if_false, List.filter_append]
      by_cases h1 : 1 < (providersOf provided req).length
      · have hd : (if (cfg.Debug && (providersOf provided req).length == 1) = true then
            [Event.printf "Requirement `%s` provided by `%s`"
              [req, (providersOf provided req).headD ""]] else []).filter Event.isWarn = [] := by
          split <;> simp [Event.isWarn]
        rw [hd]
        simp [h1, Event.isWarn]
      · have hd : (if (cfg.Debug && (providersOf provided req).length == 1) = true then
            [Event.printf "Requirement `%s` provided by `%s`"
              [req, (providersOf provided req).headD ""]] else []).filter Event.isWarn = [] := by
          split <;> simp [Event.isWarn]
        rw [hd]
        simp [h1]

theorem runSetups_isWarn {σ : Type}
    (setupRequirement : String → String → LockedParameters → CapturedOutputs → σ → Option σ)
    (parameters : LockedParameters) (outputs : CapturedOutputs) :
    ∀ (setups : List (String × String)) (world : σ),
      (runSetups setupRequirement parameters outputs setups world).trace.filter Event.isWarn
        = [] := by
  intro setups
  induction setups with
  | nil => intro _; simp [runSetups]
  | cons setup rest ih =>
    intro world
    simp only [runSetups]
    cases h : setupRequirement setup.1 setup.2 parameters outputs world with
    | none => simp [Event.isWarn]
    | some w => simp [Event.isWarn, ih]

/-- When every call of `setupRequirement` returns, the second loop makes all the calls in
order and returns. -/
theorem runSetups_all {σ : Type}
    (setupRequirement : String → String → LockedParameters → CapturedOutputs → σ → Option σ)
    (parameters : LockedParameters) (outputs : CapturedOutputs) :
    ∀ (setups : List (String × String)) (world : σ),
      (∀ setup ∈ setups, ∀ w,
        (setupRequirement setup.1 setup.2 parameters outputs w).isSome = true) →
      (runSetups setupRequirement parameters outputs setups world).trace
          = setups.map (fun setup => Event.setup setup.1 setup.2) ∧
        ∃ world', (runSetups setupRequirement parameters outputs setups world).result
          = some world' := by
  intro setups
  induction setups with
  | nil => intro world _; simp [runSetups]
  | cons setup rest ih =>
    intro world h
    have hs := h setup (List.mem_cons_self _ _) world
    obtain ⟨w, hw⟩ := Option.isSome_iff_exists.1 hs
    obtain ⟨ht, w', hr⟩ := ih w (fun s hs' => h s (List.mem_cons_of_mem _ hs'))
    simp only [runSetups, hw]
    exact ⟨by simp [ht], w', hr⟩

/-- The first loop in general: it takes the requirements up to the first one that has no
provider and is not optional. -/
theorem resolveRequires_passed (cfg : Config) (provided : GoMap (List String))
    (componentName : String) (requires : List String) (maybeOptional : GoMap (List String)) :
    ∀ (l : List String) (setups : List (String × String)) (onp : List String)
      (trace : List Event),
      (resolveRequires cfg provided componentName requires maybeOptional l setups onp
          trace).setups
        = setups ++ selectedSetups provided (passedRequires provided maybeOptional componentName l) ∧
      (resolveRequires cfg provided componentName requires maybeOptional l setups onp
          trace).trace
        = trace ++ resolveEvents cfg provided
            (passedRequires provided maybeOptional componentName l) := by
  intro l
  induction l with
  | nil =>
    intro setups onp trace
    simp [resolveRequires, selectedSetups, resolveEvents, passedRequires]
  | cons req rest ih =>
    intro setups onp trace
    simp only [resolveRequires]
    rw [unprovided_eq]
    by_cases hp : providersOf provided req = []
    · by_cases ho : optionalFor maybeOptional req componentName = true
      · simp only [hp, decide_True, if_true, ho]
        obtain ⟨h1, h2⟩ := ih setups (onp ++ [req])
          (trace ++ if cfg.Verbose = true then
            [Event.printf "Optional requirement `%s` is not provided" [req]] else [])
        rw [h1, h2]
        have hpass : passedRequires provided maybeOptional componentName (req :: rest)
            = req :: passedRequires provided maybeOptional componentName rest := by
          simp [passedRequires, List.takeWhile_cons, hp, ho]
        rw [hpass]
        simp [selectedSetups, resolveEvents, requireEvents, hp]
      · have hpass : passedRequires provided maybeOptional componentName (req :: rest) = [] := by
          simp [passedRequires, List.takeWhile_cons, hp, ho]
        rw [hpass]
        simp [hp, ho, selectedSetups, resolveEvents]
    · simp only [hp, decide_False, Bool.false_eq_true, if_false]
      obtain ⟨h1, h2⟩ := ih (setups ++ [(req, ((mapGet provided req).getD []).getLastD "")]) onp
        (trace ++
          (if (cfg.Debug && ((mapGet provided req).getD []).length == 1) = true then
            [Event.printf "Requirement `%s` provided by `%s`"
              [req, ((mapGet provided req).getD []).headD ""]]
          else []) ++
          (if ((mapGet provided req).getD []).length > 1 then
            [Event.warn
              "Requirement `%s` provided by multiple components `%s`, only `%s` will be used"
              [req, Join ((mapGet provided req).getD []) ", ",
                ((mapGet provided req).getD []).getLastD ""]]
          else []))
      rw [h1, h2]
      have hpass : passedRequires provided maybeOptional componentName (req :: rest)
          = req :: passedRequires provided maybeOptional componentName rest := by
        simp [passedRequires, List.takeWhile_cons, hp]
      rw [hpass]
      have hp' : ¬ (mapGet provided req).getD [] = [] := hp
      simp [selectedSetups, resolveEvents, requireEvents, hp', providersOf]

theorem passedRequires_all (provided maybeOptional : GoMap (List String))
    (componentName : String) (requires : List String)
    (hopt : ∀ req ∈ requires, providersOf provided req = [] →
      optionalFor maybeOptional req componentName = true) :
    passedRequires provided maybeOptional componentName requires = requires := by
  unfold passedRequires
  rw [List.takeWhile_eq_self_iff]
  intro req hreq
  by_cases hp : providersOf provided req = []
  · simp [hp, hopt req hreq hp]
  · simp [hp]

/-- The warnings of a run are those of its first loop. -/
theorem prepareComponentRequires_isWarn {σ : Type} (cfg : Config)
    (setupRequirement : String → String → LockedParameters → CapturedOutputs → σ → Option σ)
    (provided : GoMap (List String)) (componentName : String) (requires : List String)
    (parameters : LockedParameters) (outputs : CapturedOutputs)
    (maybeOptional : GoMap (List String)) (world : σ) :
    (prepareComponentRequires cfg setupRequirement provided componentName requires parameters
        outputs maybeOptional world).trace.filter Event.isWarn
      = (resolveRequires cfg provided componentName requires maybeOptional requires
          [] [] []).trace.filter Event.isWarn := by
  unfold prepareComponentRequires
  simp only []
  split
  · rfl
  · split
    · simp [List.filter_append, runSetups_isWarn]
    · rfl

/-- The run of `prepareComponentRequires` when every requirement without a provider is
optional. -/
theorem prepareComponentRequires_ok {σ : Type} (cfg : Config)
    (setupRequirement : String → String → LockedParameters → CapturedOutputs → σ → Option σ)
    (provided : GoMap (List String)) (componentName : String) (requires : List String)
    (parameters : LockedParameters) (outputs : CapturedOutputs)
    (maybeOptional : GoMap (List String)) (world : σ)
    (hopt : ∀ req ∈ requires, providersOf provided req = [] →
      optionalFor maybeOptional req componentName = true) :
    prepareComponentRequires cfg setupRequirement provided componentName requires parameters
        outputs maybeOptional world =
      if (requires.filter (fun r => decide (providersOf provided r = []))).length == 0 then
        { trace := resolveEvents cfg provided requires ++
            (runSetups setupRequirement parameters outputs (selectedSetups provided requires)
              world).trace,
          result := (runSetups setupRequirement parameters outputs
              (selectedSetups provided requires) world).result.map
            (fun world' =>
              (requires.filter (fun r => decide (providersOf provided r = [])), none, world')) }
      else
        { trace := resolveEvents cfg provided requires,
          result := some
            (requires.filter (fun r => decide (providersOf provided r = [])), none, world) } := by
  unfold prepareComponentRequires
  rw [resolveRequires_ok cfg provided componentName requires maybeOptional requires [] [] [] hopt]
  simp

theorem selectedSetups_all (provided : GoMap (List String)) (l : List String)
    (h : ∀ req ∈ l, providersOf provided req ≠ []) :
    selectedSetups provided l = l.map (fun req => (req, (providersOf provided req).getLastD "")) := by
  unfold selectedSetups
  rw [List.filter_eq_self.2]
  intro a ha
  simpa using h a ha

theorem filter_unprovided_nil (provided : GoMap (List String)) (l : List String)
    (h : ∀ req ∈ l, providersOf provided req ≠ []) :
    l.filter (fun r => decide (providersOf provided r = [])) = [] := by
  rw [List.filter_eq_nil_iff]
  intro a ha
  simpa using h a ha

theorem resolveEvents_isSetup (cfg : Config) (provided : GoMap (List String)) :
    ∀ l : List String, (resolveEvents cfg provided l).filter Event.isSetup = [] := by
  intro l
  induction l with
  | nil => simp [resolveEvents]
  | cons req rest ih =>
    simp only [resolveEvents, List.filter_append, requireEvents]
    refine List.append_eq_nil.2 ⟨?_, ih⟩
    split
    · split <;> simp [Event.isSetup]
    · simp only [List.filter_append]
      split <;> split <;> simp [Event.isSetup]

/-- One round of `mergeProvides` over a single capability. -/
theorem mergeProvides_single (cfg : Config) (provides : GoMap (List String)) (c X : String)
    (outs : CapturedOutputs) (m : GoMap (List String))
    (h : (mergeProvides cfg provides c [X] outs).result = some m) :
    m = mapSet provides X (withProvider c (mapGet provides X)) := by
  rw [mergeProvides] at h
  simp only [mergeProvides] at h
  split at h
  · cases h
  · cases hget : mapGet provides X with
    | none =>
      simp only [hget] at h
      simpa [withProvider] using h.symm
    | some who =>
      simp only [hget] at h
      by_cases hc : Contains who c = true
      · simpa [withProvider, hc] using h.symm
      · simpa [withProvider, hc] using h.symm

theorem prepareComponentRequires_err {σ : Type} (cfg : Config)
    (setupRequirement : String → String → LockedParameters → CapturedOutputs → σ → Option σ)
    (provided : GoMap (List String)) (componentName : String) (requires : List String)
    (parameters : LockedParameters) (outputs : CapturedOutputs)
    (maybeOptional : GoMap (List String)) (world : σ)
    (hbad : ∃ req ∈ requires, providersOf provided req = [] ∧
      optionalFor maybeOptional req componentName = false) :
    prepareComponentRequires cfg setupRequirement provided componentName requires parameters
        outputs maybeOptional world =
      { trace := (resolveRequires cfg provided componentName requires maybeOptional requires
          [] [] []).trace,
        result := some ((resolveRequires cfg provided componentName requires maybeOptional
          requires [] [] []).optionalNotProvided,
          some (requiresError provided componentName requires), world) } := by
  unfold prepareComponentRequires
  simp only [resolveRequires_err cfg provided componentName requires maybeOptional requires
    [] [] [] hbad]

theorem mem_mapKeys {V : Type} (m : GoMap V) (k : String) :
    k ∈ mapKeys m ↔ (mapGet m k).isSome = true := by
  unfold mapKeys
  rw [List.mem_dedup]
  induction m with
  | nil => simp [mapGet]
  | cons e rest ih =>
    obtain ⟨k0, v0⟩ := e
    by_cases h : k0 = k
    · simp [mapGet, h]
    · simp only [List.map_cons, List.mem_cons, mapGet, h, if_false]
      rw [← ih]
      constructor
      · rintro (h' | h')
        · exact absurd h'.symm h
        · exact h'
      · exact fun h' => Or.inr h'

theorem mem_SortedKeys2 (m : GoMap (List String)) (k : String) :
    k ∈ SortedKeys2 m ↔ (mapGet m k).isSome = true := by
  unfold SortedKeys2
  rw [(List.perm_insertionSort _ _).mem_iff]
  exact mem_mapKeys m k

/-- C2 (amended): last provider wins. With `passed` the requirements the first loop takes (all of
them, unless it fails on a requirement that has no provider and is not optional, the case of
C4): the setups collected are those of the passed requirements with a provider, in order of
the requires list, each with the last element of its provider list; the warnings emitted are
exactly those of the passed requirements with more than one provider; when every requirement
has a provider and the calls of `setupRequirement` return, `setupRequirement` is called once
per requirement, in order, with the selected provider, and the function returns no unmet
requirement and no error; and after `mergeProvides` registers a capability for `A` and then
for a different `B` (not a provider of it before), resolving it selects `B`. -/
theorem prepareComponentRequires_last_provider {σ : Type} (cfg : Config)
    (setupRequirement : String → String → LockedParameters → CapturedOutputs → σ → Option σ)
    (provided : GoMap (List String)) (componentName : String) (requires : List String)
    (parameters : LockedParameters) (outputs : CapturedOutputs)
    (maybeOptional : GoMap (List String)) (world : σ) :
    let passed := passedRequires provided maybeOptional componentName requires
    let loop := resolveRequires cfg provided componentName requires maybeOptional requires
      [] [] []
    let run := prepareComponentRequires cfg setupRequirement provided componentName requires
      parameters outputs maybeOptional world
    ((∀ req ∈ requires, providersOf provided req = [] →
        optionalFor maybeOptional req componentName = true) → passed = requires) ∧
      loop.setups.map Prod.fst
        = passed.filter (fun req => decide (providersOf provided req ≠ [])) ∧
      (∀ setup ∈ loop.setups, (providersOf provided setup.1).getLast? = some setup.2) ∧
      run.trace.filter Event.isWarn
        = (passed.filter (fun req => decide (1 < (providersOf provided req).length))).map
            (fun req => Event.warn
              "Requirement `%s` provided by multiple components `%s`, only `%s` will be used"
              [req, Join (providersOf provided req) ", ",
                (providersOf provided req).getLastD ""]) ∧
      ((∀ req ∈ requires, providersOf provided req ≠ []) →
        (∀ req ∈ requires, ∀ w, (setupRequirement req ((providersOf provided req).getLastD "")
          parameters outputs w).isSome = true) →
        run.trace.filter Event.isSetup
            = requires.map
              (fun req => Event.setup req ((providersOf provided req).getLastD "")) ∧
          ∃ world', run.result = some ([], none, world')) ∧
      (∀ (A B X : String) (provides0 m1 : GoMap (List String)) (outsA outsB : CapturedOutputs),
        A ≠ B → B ∉ providersOf provides0 X →
        (mergeProvides cfg provides0 A [X] outsA).result = some m1 →
        (mergeProvides cfg m1 B [X] outsB).result = some provided →
        X ∈ passed → (X, B) ∈ loop.setups) := by
  intro passed loop run
  have hsel : loop.setups = selectedSetups provided passed := by
    have h := (resolveRequires_passed cfg provided componentName requires maybeOptional requires
      [] [] []).1
    simpa using h
  have htrace : loop.trace = resolveEvents cfg provided passed := by
    have h := (resolveRequires_passed cfg provided componentName requires maybeOptional requires
      [] [] []).2
    simpa using h
  refine ⟨passedRequires_all provided maybeOptional componentName requires, ?_, ?_, ?_, ?_, ?_⟩
  · rw [hsel]
    simp [selectedSetups, Function.comp_def]
  · intro setup hs
    rw [hsel] at hs
    obtain ⟨req, hreq, rfl⟩ := List.mem_map.1 hs
    have hne : providersOf provided req ≠ [] := by simpa using (List.mem_filter.1 hreq).2
    simp only [List.getLastD_eq_getLast?]
    cases hl : (providersOf provided req).getLast? with
    | none => exact absurd (List.getLast?_eq_none_iff.1 hl) hne
    | some x => simp
  · rw [prepareComponentRequires_isWarn, htrace]
    exact resolveEvents_isWarn cfg provided passed
  · intro hall hret
    have hopt : ∀ req ∈ requires, providersOf provided req = [] →
        optionalFor maybeOptional req componentName = true :=
      fun req hreq hp => absurd hp (hall req hreq)
    have hrun : run = _ :=
      prepareComponentRequires_ok cfg setupRequirement provided componentName requires
        parameters outputs maybeOptional world hopt
    rw [hrun, filter_unprovided_nil provided requires hall, selectedSetups_all provided requires hall]
    have hret' : ∀ setup ∈ requires.map
        (fun req => (req, (providersOf provided req).getLastD "")), ∀ w,
        (setupRequirement setup.1 setup.2 parameters outputs w).isSome = true := by
      intro setup hs w
      obtain ⟨req, hreq, rfl⟩ := List.mem_map.1 hs
      exact hret req hreq w
    obtain ⟨ht, w', hr⟩ := runSetups_all setupRequirement parameters outputs _ world hret'
    simp only [List.length_nil, beq_self_eq_true, if_true, List.filter_append,
      resolveEvents_isSetup, List.nil_append, ht, hr, Option.map_some']
    refine ⟨?_, w', rfl⟩
    rw [List.filter_eq_self.2]
    · simp [Function.comp_def]
    · intro e he
      obtain ⟨x, _, rfl⟩ := List.mem_map.1 he
      rfl
  · intro A B X provides0 m1 outsA outsB hAB hB h1 h2 hX
    have e1 := mergeProvides_single cfg provides0 A X outsA m1 h1
    have e2 := mergeProvides_single cfg m1 B X outsB provided h2
    have hm1 : mapGet m1 X = some (withProvider A (mapGet provides0 X)) := by
      rw [e1, mapGet_mapSet_self]
    have hBnot : B ∉ withProvider A (mapGet provides0 X) := by
      intro hmem
      cases hg : mapGet provides0 X with
      | none =>
        rw [hg] at hmem
        simp [withProvider] at hmem
        exact hAB hmem.symm
      | some who =>
        rw [hg] at hmem
        have hB' : B ∉ who := by simpa [providersOf, hg] using hB
        by_cases hc : Contains who A = true
        · simp [withProvider, hc] at hmem
          exact hB' hmem
        · simp [withProvider, hc] at hmem
          rcases hmem with hmem | hmem
          · exact hB' hmem
          · exact hAB hmem.symm
    have hprov : providersOf provided X = withProvider A (mapGet provides0 X) ++ [B] := by
      have h3 : mapGet provided X = some (withProvider B (mapGet m1 X)) := by
        rw [e2]
        exact mapGet_mapSet_self _ _ _
      rw [providersOf, h3, hm1, withProvider_of_not_mem B _ hBnot]
      rfl
    rw [hsel]
    refine List.mem_map.2 ⟨X, List.mem_filter.2 ⟨hX, by simp [hprov]⟩, ?_⟩
    simp [hprov]

/-- C3: the optional gate. When every requirement without a provider is optional for the
component or for `*` and at least one requirement has no provider, the function returns no
error, returns the requirements without a provider in the order of the requires list, and
calls no `setupRequirement`. -/
theorem prepareComponentRequires_optional_gate {σ : Type} (cfg : Config)
    (setupRequirement : String → String → LockedParameters → CapturedOutputs → σ → Option σ)
    (provided : GoMap (List String)) (componentName : String) (requires : List String)
    (parameters : LockedParameters) (outputs : CapturedOutputs)
    (maybeOptional : GoMap (List String)) (world : σ)
    (hopt : ∀ req ∈ requires, providersOf provided req = [] →
      optionalFor maybeOptional req componentName = true)
    (hunmet : ∃ req ∈ requires, providersOf provided req = []) :
    (prepareComponentRequires cfg setupRequirement provided componentName requires parameters
        outputs maybeOptional world).result
      = some (requires.filter (fun req => decide (providersOf provided req = [])), none, world) ∧
    (prepareComponentRequires cfg setupRequirement provided componentName requires parameters
        outputs maybeOptional world).trace.filter Event.isSetup = [] := by
  rw [prepareComponentRequires_ok cfg setupRequirement provided componentName requires parameters
    outputs maybeOptional world hopt]
  have hne : requires.filter (fun r => decide (providersOf provided r = [])) ≠ [] := by
    obtain ⟨req, hreq, hp⟩ := hunmet
    intro h
    have := List.filter_eq_nil_iff.1 h req hreq
    simp [hp] at this
  have hlen : ((requires.filter (fun r => decide (providersOf provided r = []))).length == 0)
      = false := by
    cases hl : requires.filter (fun r => decide (providersOf provided r = [])) with
    | nil => exact absurd hl hne
    | cons a l => simp
  rw [hlen]
  exact ⟨rfl, resolveEvents_isSetup cfg provided requires⟩

/-- C4: the error of `prepareComponentRequires`. The function returns an error exactly when
some requirement has no provider (missing from the provider map, or with an empty list) and is
not optional for the component or for `*`; when it does, no `setupRequirement` was called and
the state is untouched, and the error text carries the whole requires list and one line per
key of the provider table, in key order. -/
theorem prepareComponentRequires_error_iff {σ : Type} (cfg : Config)
    (setupRequirement : String → String → LockedParameters → CapturedOutputs → σ → Option σ)
    (provided : GoMap (List String)) (componentName : String) (requires : List String)
    (parameters : LockedParameters) (outputs : CapturedOutputs)
    (maybeOptional : GoMap (List String)) (world : σ) :
    let run := prepareComponentRequires cfg setupRequirement provided componentName requires
      parameters outputs maybeOptional world
    ((∃ unmet err world', run.result = some (unmet, some err, world')) ↔
        ∃ req ∈ requires, providersOf provided req = [] ∧
          optionalFor maybeOptional req componentName = false) ∧
      (∀ unmet err world', run.result = some (unmet, some err, world') →
        run.trace.filter Event.isSetup = [] ∧ world' = world ∧
        err = "Component `" ++ componentName ++ "` requires `" ++ Join requires ", " ++
          "` but only following provides are currently known:\n" ++
          Join ((SortedKeys2 provided).map
            (fun name => "\t" ++ name ++ " => " ++ Join (providersOf provided name) ", "))
            "\n") ∧
      (∀ name, name ∈ SortedKeys2 provided ↔ (mapGet provided name).isSome = true) := by
  intro run
  have hfwd : (∃ unmet err world', run.result = some (unmet, some err, world')) →
      ∃ req ∈ requires, providersOf provided req = [] ∧
        optionalFor maybeOptional req componentName = false := by
    rintro ⟨unmet, err, world', hres⟩
    by_contra hno
    have hopt : ∀ req ∈ requires, providersOf provided req = [] →
        optionalFor maybeOptional req componentName = true := by
      intro req hreq hp
      by_contra ho
      exact hno ⟨req, hreq, hp, by simpa using ho⟩
    have hrun : run = _ :=
      prepareComponentRequires_ok cfg setupRequirement provided componentName requires
        parameters outputs maybeOptional world hopt
    rw [hrun] at hres
    split at hres
    · cases hc : (runSetups setupRequirement parameters outputs
          (selectedSetups provided requires) world).result with
      | none => simp [hc] at hres
      | some w => simp [hc] at hres
    · simp at hres
  refine ⟨⟨hfwd, ?_⟩, ?_, mem_SortedKeys2 provided⟩
  · intro hbad
    have hrun : run = _ :=
      prepareComponentRequires_err cfg setupRequirement provided componentName requires
        parameters outputs maybeOptional world hbad
    exact ⟨_, _, _, by rw [hrun]⟩
  · intro unmet err world' hres
    have hbad := hfwd ⟨unmet, err, world', hres⟩
    have hrun : run = _ :=
      prepareComponentRequires_err cfg setupRequirement provided componentName requires
        parameters outputs maybeOptional world hbad
    rw [hrun] at hres ⊢
    simp only [Option.some.injEq, Prod.mk.injEq] at hres
    obtain ⟨_, herr, hw⟩ := hres
    refine ⟨?_, hw.symm, ?_⟩
    · rw [resolveRequires_no_setup]
      rfl
    · rw [← herr]
      rfl

/-- Witness of C2: `X` provided by `A` then `B`; the state counts the setup calls. -/
theorem prepareComponentRequires_last_provider_witness :
    (∀ req ∈ ["X"], providersOf [("X", ["A", "B"])] req = [] → optionalFor [] req "C" = true) ∧
      prepareComponentRequires ⟨false, false, false, false⟩
          (fun _ _ _ _ (n : Nat) => some (n + 1)) [("X", ["A", "B"])] "C" ["X"] [] [] [] 0
        = { trace := [Event.warn
              "Requirement `%s` provided by multiple components `%s`, only `%s` will be used"
              ["X", "A, B", "B"], Event.setup "X" "B"],
            result := some ([], none, 1) } ∧
      (mergeProvides ⟨false, false, false, false⟩ [] "A" ["X"] []).result
        = some [("X", ["A"])] ∧
      (mergeProvides ⟨false, false, false, false⟩ [("X", ["A"])] "B" ["X"] []).result
        = some [("X", ["A", "B"])] ∧
      (∀ setup ∈ (resolveRequires ⟨false, false, false, false⟩ [("X", ["A", "B"])] "C" ["X"] []
          ["X"] [] [] []).setups,
        (providersOf [("X", ["A", "B"])] setup.1).getLast? = some setup.2) ∧
      ("X", "B") ∈ (resolveRequires ⟨false, false, false, false⟩ [("X", ["A", "B"])] "C" ["X"]
        [] ["X"] [] [] []).setups :=
  ⟨by decide, by decide, by decide, by decide,
    (prepareComponentRequires_last_provider ⟨false, false, false, false⟩
      (fun _ _ _ _ (n : Nat) => some (n + 1)) [("X", ["A", "B"])] "C" ["X"] [] [] []
      0).2.2.1,
    (prepareComponentRequires_last_provider ⟨false, false, false, false⟩
      (fun _ _ _ _ (n : Nat) => some (n + 1)) [("X", ["A", "B"])] "C" ["X"] [] [] []
      0).2.2.2.2.2 "A" "B" "X" [] [("X", ["A"])] [] [] (by decide) (by decide)
      (by decide) (by decide) (by decide)⟩

/-- C2 (counterexample): `B` provides `X` already; `mergeProvides` then registers `X` for `A`
and for `B`. The second registration leaves the list `B, A` as it is, and resolving `X`
selects `A`, the last of the list, not `B`, the last registered. -/
theorem prepareComponentRequires_registered_counterexample :
    "A" ≠ "B" ∧
      (mergeProvides ⟨false, false, false, false⟩ [("X", ["B"])] "A" ["X"] []).result
        = some [("X", ["B", "A"])] ∧
      (mergeProvides ⟨false, false, false, false⟩ [("X", ["B", "A"])] "B" ["X"] []).result
        = some [("X", ["B", "A"])] ∧
      prepareComponentRequires ⟨false, false, false, false⟩
          (fun _ _ _ _ (n : Nat) => some (n + 1)) [("X", ["B", "A"])] "C" ["X"] [] [] [] 0
        = { trace := [Event.warn
              "Requirement `%s` provided by multiple components `%s`, only `%s` will be used"
              ["X", "B, A", "A"], Event.setup "X" "A"],
            result := some ([], none, 1) } := by
  decide

/-- Witness of C3: `C` requires `X` and `Y`, `Y` is optional for `C`, only `X` is provided. -/
theorem prepareComponentRequires_optional_gate_witness :
    (∀ req ∈ ["X", "Y"], providersOf [("X", ["P"])] req = [] →
        optionalFor [("Y", ["C"])] req "C" = true) ∧
      (∃ req ∈ ["X", "Y"], providersOf [("X", ["P"])] req = []) ∧
      (prepareComponentRequires ⟨true, true, false, false⟩
          (fun _ _ _ _ (n : Nat) => some (n + 1)) [("X", ["P"])] "C" ["X", "Y"] [] []
          [("Y", ["C"])] 0).result
        = some (["X", "Y"].filter (fun req => decide (providersOf [("X", ["P"])] req = [])),
            none, 0) ∧
      (prepareComponentRequires ⟨true, true, false, false⟩
          (fun _ _ _ _ (n : Nat) => some (n + 1)) [("X", ["P"])] "C" ["X", "Y"] [] []
          [("Y", ["C"])] 0).trace.filter Event.isSetup = [] ∧
      (prepareComponentRequires ⟨true, true, false, false⟩
          (fun _ _ _ _ (n : Nat) => some (n + 1)) [("X", ["P"])] "C" ["X", "Y"] [] []
          [("Y", ["C"])] 0).result = some (["Y"], none, 0) :=
  ⟨by decide, by decide,
    (prepareComponentRequires_optional_gate ⟨true, true, false, false⟩
      (fun _ _ _ _ (n : Nat) => some (n + 1)) [("X", ["P"])] "C" ["X", "Y"] [] []
      [("Y", ["C"])] 0 (by decide) (by decide)).1,
    (prepareComponentRequires_optional_gate ⟨true, true, false, false⟩
      (fun _ _ _ _ (n : Nat) => some (n + 1)) [("X", ["P"])] "C" ["X", "Y"] [] []
      [("Y", ["C"])] 0 (by decide) (by decide)).2,
    by decide⟩

/-- An evaluation of the error of C4: `C` requires `X` and `Z`, nothing provides `Z`. -/
theorem prepareComponentRequires_error_example :
    prepareComponentRequires ⟨false, false, false, false⟩
        (fun _ _ _ _ (n : Nat) => some (n + 1)) [("b", ["Q"]), ("X", ["A", "B"])] "C"
        ["X", "Z"] [] [] [] 0
      = { trace := [Event.warn
            "Requirement `%s` provided by multiple components `%s`, only `%s` will be used"
            ["X", "A, B", "B"]],
          result := some ([],
            some ("Component `C` requires `X, Z` but only following provides are currently " ++
              "known:\n\tX => A, B\n\tb => Q"), 0) } := by
  decide

/-! ## `MergeOutput` and `OutputsFromList` -/

theorem MergeOutput_fst (cfg : Config) (outputs : CapturedOutputs) (add : CapturedOutput) :
    (MergeOutput cfg outputs add).1 = mapSet outputs add.QName add := rfl

theorem mergeOutputList_get (cfg : Config) :
    ∀ (list : List CapturedOutput) (outputs : CapturedOutputs) (k : String),
      mapGet (mergeOutputList cfg outputs list).1 k =
        match findLast (fun o => decide (o.QName = k)) list with
        | some o => some o
        | none => mapGet outputs k := by
  intro list
  induction list with
  | nil => intro outputs k; simp [mergeOutputList, findLast]
  | cons o rest ih =>
    intro outputs k
    simp only [mergeOutputList, findLast, ih, MergeOutput_fst]
    cases hf : findLast (fun o => decide (o.QName = k)) rest with
    | some y => rfl
    | none =>
      by_cases hk : o.QName = k
      · subst hk
        simp [mapGet_mapSet_self]
      · simp [hk, mapGet_mapSet_ne _ _ _ _ (Ne.symm hk)]

theorem findLast_append {α : Type} (p : α → Bool) (a b : List α) :
    findLast p (a ++ b) =
      match findLast p b with
      | some y => some y
      | none => findLast p a := by
  induction a with
  | nil => cases h : findLast p b <;> simp [findLast, h]
  | cons x rest ih =>
    have hc : findLast p (x :: rest ++ b) =
        match findLast p (rest ++ b) with
        | some y => some y
        | none => if p x then some x else none := rfl
    rw [hc, ih]
    cases h : findLast p b <;> simp [findLast]

theorem mergeOutputLists_get (cfg : Config) :
    ∀ (lists : List (List CapturedOutput)) (outputs : CapturedOutputs) (k : String),
      mapGet (mergeOutputLists cfg outputs lists).1 k =
        match findLast (fun o => decide (o.QName = k)) lists.flatten with
        | some o => some o
        | none => mapGet outputs k := by
  intro lists
  induction lists with
  | nil => intro outputs k; simp [mergeOutputLists, findLast]
  | cons list rest ih =>
    intro outputs k
    simp only [mergeOutputLists, ih, List.flatten_cons, findLast_append, mergeOutputList_get]
    cases h : findLast (fun o => decide (o.QName = k)) rest.flatten <;> simp

theorem mem_mapSet {V : Type} (m : GoMap V) (k : String) (v : V) (e : String × V)
    (h : e ∈ mapSet m k v) : e ∈ m ∨ e = (k, v) := by
  induction m with
  | nil => simpa [mapSet] using h
  | cons e0 rest ih =>
    obtain ⟨k0, v0⟩ := e0
    by_cases hk : k0 = k
    · simp only [mapSet, hk, if_true, List.mem_cons] at h
      rcases h with h | h
      · exact Or.inr h
      · exact Or.inl (List.mem_cons_of_mem _ h)
    · simp only [mapSet, hk, if_false, List.mem_cons] at h
      rcases h with h | h
      · exact Or.inl (h ▸ List.mem_cons_self _ _)
      · rcases ih h with h' | h'
        · exact Or.inl (List.mem_cons_of_mem _ h')
        · exact Or.inr h'

theorem mapSet_keys_nodup {V : Type} (m : GoMap V) (k : String) (v : V)
    (h : (m.map Prod.fst).Nodup) : ((mapSet m k v).map Prod.fst).Nodup := by
  induction m with
  | nil => simp [mapSet]
  | cons e0 rest ih =>
    obtain ⟨k0, v0⟩ := e0
    simp only [List.map_cons, List.nodup_cons] at h
    by_cases hk : k0 = k
    · subst hk
      simpa [mapSet] using h
    · simp only [mapSet, hk, if_false, List.map_cons, List.nodup_cons]
      refine ⟨?_, ih h.2⟩
      intro hmem
      obtain ⟨e, he, hfst⟩ := List.mem_map.1 hmem
      rcases mem_mapSet rest k v e he with h' | h'
      · exact h.1 (List.mem_map.2 ⟨e, h', hfst⟩)
      · rw [h'] at hfst
        exact hk hfst.symm

/-- `MergeOutput` keeps the captured outputs well keyed. -/
theorem WellKeyed_MergeOutput (cfg : Config) (outputs : CapturedOutputs) (add : CapturedOutput)
    (h : WellKeyed outputs) : WellKeyed (MergeOutput cfg outputs add).1 := by
  rw [MergeOutput_fst]
  refine ⟨mapSet_keys_nodup _ _ _ h.1, ?_⟩
  intro entry he
  rcases mem_mapSet _ _ _ _ he with h' | h'
  · exact h.2 entry h'
  · rw [h']

theorem WellKeyed_mergeOutputList (cfg : Config) :
    ∀ (list : List CapturedOutput) (outputs : CapturedOutputs), WellKeyed outputs →
      WellKeyed (mergeOutputList cfg outputs list).1 := by
  intro list
  induction list with
  | nil => intro outputs h; exact h
  | cons o rest ih =>
    intro outputs h
    exact ih _ (WellKeyed_MergeOutput cfg outputs o h)

/-- Every map that `OutputsFromList` builds is well keyed. -/
theorem WellKeyed_OutputsFromList (cfg : Config) (toMerge : List (List CapturedOutput)) :
    WellKeyed (OutputsFromList cfg toMerge).1 := by
  have hgen : ∀ (lists : List (List CapturedOutput)) (outputs : CapturedOutputs),
      WellKeyed outputs → WellKeyed (mergeOutputLists cfg outputs lists).1 := by
    intro lists
    induction lists with
    | nil => intro outputs h; exact h
    | cons list rest ih =>
      intro outputs h
      exact ih _ (WellKeyed_mergeOutputList cfg list outputs h)
  exact hgen toMerge [] ⟨by simp, by simp⟩

/-- C9: `MergeOutput` is insert-or-overwrite, last write wins. After `MergeOutput` the entry
under the qualified name of `add` is `add` and every other key reads as before; and
`OutputsFromList` maps each qualified name to the last output that carries it in the
concatenation of the lists (and has no entry for a name that no output carries). -/
theorem MergeOutput_insert_or_overwrite (cfg : Config) :
    (∀ (outputs : CapturedOutputs) (add : CapturedOutput),
      mapGet (MergeOutput cfg outputs add).1 add.QName = some add ∧
      ∀ k, k ≠ add.QName → mapGet (MergeOutput cfg outputs add).1 k = mapGet outputs k) ∧
    (∀ (toMerge : List (List CapturedOutput)) (k : String),
      mapGet (OutputsFromList cfg toMerge).1 k
        = findLast (fun o => decide (o.QName = k)) toMerge.flatten) := by
  refine ⟨fun outputs add => ⟨?_, ?_⟩, fun toMerge k => ?_⟩
  · rw [MergeOutput_fst]
    exact mapGet_mapSet_self _ _ _
  · intro k hk
    rw [MergeOutput_fst]
    exact mapGet_mapSet_ne _ _ _ _ hk
  · unfold OutputsFromList
    rw [mergeOutputLists_get]
    cases h : findLast (fun o => decide (o.QName = k)) toMerge.flatten <;> simp [mapGet]

/-- An evaluation of C9: two lists that both carry `k:c`. -/
theorem OutputsFromList_example :
    (OutputsFromList ⟨false, false, false, false⟩
        [[⟨"k", "c", "v1", ""⟩, ⟨"j", "c", "w", ""⟩], [⟨"k", "c", "v2", ""⟩]]).1
      = [("k:c", ⟨"k", "c", "v2", ""⟩), ("j:c", ⟨"j", "c", "w", ""⟩)] := by
  decide

/-- Counterexample to C10 as stated: with `config.Verbose` off, a differing non-empty plain
value is overwritten by a plain value and nothing is logged. -/
theorem MergeOutput_quiet_counterexample :
    mapGet [("k", (⟨"k", "", "v1", ""⟩ : CapturedOutput))] (CapturedOutput.QName ⟨"k", "", "v2", ""⟩)
        = some ⟨"k", "", "v1", ""⟩ ∧
      overwriteReported ⟨"k", "", "v1", ""⟩ ⟨"k", "", "v2", ""⟩ ∧
      (MergeOutput ⟨false, true, true, true⟩ [("k", ⟨"k", "", "v1", ""⟩)]
        ⟨"k", "", "v2", ""⟩).2 = [] := by
  refine ⟨by decide, ?_, by decide⟩
  unfold overwriteReported
  decide

/-- C10 (amended): with `config.Verbose` on, `MergeOutput` logs the overwrite message exactly
when an entry exists under the same qualified name, its value is not empty and differs from
the new value, and it is not a plain (empty) kind overwritten by a kind that starts with
`secret`; with `config.Verbose` off it logs nothing. With it on, merging `k = v` (plain) then
`k = v` (secret) logs nothing, and merging `k = v1` then `k = v2` (plain) logs. -/
theorem MergeOutput_logs_iff (cfg : Config) (outputs : CapturedOutputs) (add : CapturedOutput) :
    ((MergeOutput cfg outputs add).2 ≠ [] ↔
        cfg.Verbose = true ∧
          ∃ current, mapGet outputs add.QName = some current ∧ overwriteReported current add) ∧
      (∀ current, cfg.Verbose = true → mapGet outputs add.QName = some current →
        overwriteReported current add →
        (MergeOutput cfg outputs add).2 =
          [Event.printf "Output `%s` current value `%s` overridden by new value `%s`"
            [add.QName, current.Value, add.Value]]) ∧
      (OutputsFromList ⟨true, cfg.Debug, cfg.Trace, cfg.Force⟩
        [[⟨"k", "", "v", ""⟩], [⟨"k", "", "v", "secret"⟩]]).2 = [] ∧
      (OutputsFromList ⟨true, cfg.Debug, cfg.Trace, cfg.Force⟩
        [[⟨"k", "", "v1", ""⟩], [⟨"k", "", "v2", ""⟩]]).2 =
          [Event.printf "Output `%s` current value `%s` overridden by new value `%s`"
            ["k", "v1", "v2"]] := by
  have key : ∀ current, mapGet outputs add.QName = some current →
      ((current.Value != add.Value && current.Value != "" &&
        !(current.Kind == "" && HasPrefix add.Kind "secret")) = true ↔
        overwriteReported current add) := by
    intro current _
    unfold overwriteReported
    simp only [Bool.and_eq_true, bne_iff_ne, ne_eq, Bool.not_eq_true', Bool.and_eq_false_imp,
      beq_iff_eq]
    constructor
    · rintro ⟨⟨h1, h2⟩, h3⟩
      refine ⟨h2, h1, ?_⟩
      rintro ⟨h4, h5⟩
      rw [h3 h4] at h5
      cases h5
    · rintro ⟨h1, h2, h3⟩
      refine ⟨⟨h2, h1⟩, ?_⟩
      intro h4
      by_contra h5
      exact h3 ⟨h4, by simpa using h5⟩
  refine ⟨?_, ?_, by rfl, by rfl⟩
  · simp only [MergeOutput]
    cases hv : cfg.Verbose with
    | false => simp
    | true =>
      cases hg : mapGet outputs add.QName with
      | none => simp
      | some current =>
        have hk := key current hg
        by_cases hc : (current.Value != add.Value && current.Value != "" &&
            !(current.Kind == "" && HasPrefix add.Kind "secret")) = true
        · simp only [hc, if_true]
          exact ⟨fun _ => ⟨trivial, current, rfl, hk.1 hc⟩, fun _ => by simp⟩
        · simp only [hc]
          refine ⟨fun h => absurd rfl h, ?_⟩
          rintro ⟨_, c, hc1, hc2⟩
          cases hc1
          exact absurd (hk.2 hc2) hc
  · intro current hv hg hrep
    simp only [MergeOutput, hv, if_true, hg, (key current hg).2 hrep]

/-! ## `ExpandRequestedOutputs` -/

theorem mapGet_OutputsKV (outputs : CapturedOutputs) (k : String) :
    mapGet (OutputsKV outputs) k = (mapGet outputs k).map (fun o => o.Value) := by
  induction outputs with
  | nil => simp [OutputsKV, mapGet]
  | cons e rest ih =>
    obtain ⟨k0, o⟩ := e
    by_cases h : k0 = k
    · simp [OutputsKV, mapGet, h]
    · simpa [OutputsKV, mapGet, h] using ih

theorem looked_eq (parameters : LockedParameters) (outputs : CapturedOutputs) (name : String) :
    (match mapGet (OutputsKV outputs) name with
      | some substitution => some substitution
      | none => mapGet (ParametersKV parameters) name)
      = resolveVariable parameters outputs name := by
  rw [mapGet_OutputsKV, resolveVariable]
  cases mapGet outputs name <;> rfl

/-- The replacement ends the process as soon as a placeholder resolves to a value that still
holds a placeholder. -/
theorem replacePlaceholders_abort (ph : Placeholders) (parameters : LockedParameters)
    (outputs : CapturedOutputs) (mustExist : Bool) (r : Output) :
    ∀ (pieces : List Piece) (acc : Replaced),
      (hits pieces).any (expandsFurther ph parameters outputs) = true →
      (replacePlaceholders ph (ParametersKV parameters) (OutputsKV outputs) mustExist r pieces
        acc).2 = none := by
  intro pieces
  induction pieces with
  | nil => intro acc h; simp [hits] at h
  | cons piece rest ih =>
    intro acc h
    cases piece with
    | text s =>
      simp only [replacePlaceholders]
      exact ih _ (by simpa [hits] using h)
    | hit m =>
      simp only [replacePlaceholders, looked_eq]
      simp only [hits, List.any_cons, Bool.or_eq_true] at h
      by_cases hcel : (ph.StripCurly m).2 = true
      · simp only [hcel, if_true]
        rcases h with h | h
        · simp [expandsFurther, placeholderValue, hcel] at h
        · exact ih _ h
      · simp only [hcel, if_false]
        cases hres : resolveVariable parameters outputs (ph.StripCurly m).1 with
        | none =>
          simp only []
          rcases h with h | h
          · simp [expandsFurther, placeholderValue, hcel, hres] at h
          · exact ih _ h
        | some v =>
          simp only []
          by_cases hexp : ph.RequireExpansion v = true
          · simp [hexp]
          · simp only [hexp, if_false]
            rcases h with h | h
            · simp [expandsFurther, placeholderValue, hcel, hres, hexp] at h
            · exact ih _ h

/-- Otherwise the replacement returns: the text is the substitutions one after the other, and
`invoked` exceeds `found` by the number of placeholders without a value. -/
theorem replacePlaceholders_done (ph : Placeholders) (parameters : LockedParameters)
    (outputs : CapturedOutputs) (mustExist : Bool) (r : Output) :
    ∀ (pieces : List Piece) (acc : Replaced),
      (hits pieces).any (expandsFurther ph parameters outputs) = false →
      ∃ out, (replacePlaceholders ph (ParametersKV parameters) (OutputsKV outputs) mustExist r
          pieces acc).2 = some out ∧
        out.value = acc.value ++ concatStrings (pieces.map (substitutionOf ph parameters outputs)) ∧
        out.invoked + acc.found = out.found + acc.invoked +
          ((hits pieces).filter
            (fun m => (placeholderValue ph parameters outputs m).isNone)).length := by
  intro pieces
  induction pieces with
  | nil =>
    intro acc _
    exact ⟨acc, by simp [replacePlaceholders], by simp [concatStrings, String.append_empty],
      by simp [hits]; omega⟩
  | cons piece rest ih =>
    intro acc h
    cases piece with
    | text s =>
      simp only [replacePlaceholders]
      obtain ⟨out, h1, h2, h3⟩ := ih { acc with value := acc.value ++ s } (by simpa [hits] using h)
      exact ⟨out, h1, by simp [h2, concatStrings, substitutionOf, String.append_assoc],
        by simpa [hits] using h3⟩
    | hit m =>
      simp only [replacePlaceholders, looked_eq]
      simp only [hits, List.any_cons, Bool.or_eq_false_iff] at h
      obtain ⟨hm, hrest⟩ := h
      by_cases hcel : (ph.StripCurly m).2 = true
      · simp only [hcel, if_true]
        obtain ⟨out, h1, h2, h3⟩ := ih _ hrest
        refine ⟨out, h1, by simp [h2, concatStrings, substitutionOf, hcel, String.append_assoc], ?_⟩
        simp only [hits, List.filter_cons, placeholderValue, hcel, if_true, Option.isNone_none,
          List.length_cons] at h3 ⊢
        omega
      · simp only [hcel, if_false]
        cases hres : resolveVariable parameters outputs (ph.StripCurly m).1 with
        | none =>
          simp only []
          obtain ⟨out, h1, h2, h3⟩ := ih _ hrest
          refine ⟨out, h1,
            by simp [h2, concatStrings, substitutionOf, hcel, hres, String.append_assoc], ?_⟩
          simp only [hits, List.filter_cons, placeholderValue, hcel, hres, if_true,
            Option.isNone_none, List.length_cons, Bool.false_eq_true, if_false] at h3 ⊢
          omega
        | some v =>
          simp only []
          have hexp : ph.RequireExpansion v = false := by
            simpa [expandsFurther, placeholderValue, hcel, hres] using hm
          simp only [hexp, Bool.false_eq_true, if_false]
          obtain ⟨out, h1, h2, h3⟩ := ih _ hrest
          refine ⟨out, h1,
            by simp [h2, concatStrings, substitutionOf, hcel, hres, String.append_assoc], ?_⟩
          simp only [hits, List.filter_cons, placeholderValue, hcel, hres, if_true,
            Option.isNone_some, List.length_cons, Bool.false_eq_true, if_false] at h3 ⊢
          omega

/-- The expanded output of a round does not depend on `debugPrinted`. -/
theorem expandRequestedOutput_fst (ph : Placeholders) (kvParameters kvOutputs : GoMap String)
    (outputs : CapturedOutputs) (mustExist : Bool) (r : Output) (debugPrinted : Bool) :
    (expandRequestedOutput ph kvParameters kvOutputs outputs mustExist r debugPrinted).result.map
        Prod.fst
      = (expandRequestedOutput ph kvParameters kvOutputs outputs mustExist r false).result.map
        Prod.fst := by
  simp only [expandRequestedOutput]
  split
  · rfl
  · split
    · simp [Option.map_map, Function.comp_def]
    · rfl

/-- The loop returns what the rounds yield, after what was expanded before. -/
theorem expandLoop_result (ph : Placeholders) (parameters : LockedParameters)
    (outputs : CapturedOutputs) (mustExist : Bool) :
    ∀ (l : List Output) (expanded : List ExpandedOutput) (debugPrinted : Bool)
      (trace : List Event),
      (expandLoop ph (ParametersKV parameters) (OutputsKV outputs) outputs mustExist l expanded
          debugPrinted trace).result
        = (collectYields ph parameters outputs mustExist l).map (fun tail => expanded ++ tail) := by
  intro l
  induction l with
  | nil => intro expanded _ _; simp [expandLoop, collectYields]
  | cons r rest ih =>
    intro expanded debugPrinted trace
    have hy : yieldOf ph parameters outputs mustExist r =
        (expandRequestedOutput ph (ParametersKV parameters) (OutputsKV outputs) outputs mustExist
          r debugPrinted).result.map Prod.fst :=
      (expandRequestedOutput_fst ph _ _ outputs mustExist r debugPrinted).symm
    simp only [expandLoop, collectYields, hy]
    cases hround : (expandRequestedOutput ph (ParametersKV parameters) (OutputsKV outputs)
        outputs mustExist r debugPrinted).result with
    | none => simp
    | some pair =>
      obtain ⟨out, dp⟩ := pair
      cases out with
      | none => simp [ih]
      | some e => simp [ih, Option.map_map, Function.comp_def]

theorem ExpandRequestedOutputs_result (ph : Placeholders) (parameters : LockedParameters)
    (outputs : CapturedOutputs) (mustExist : Bool) (l : List Output) :
    (ExpandRequestedOutputs ph parameters outputs l mustExist).result
      = collectYields ph parameters outputs mustExist l := by
  rw [ExpandRequestedOutputs, expandLoop_result]
  cases collectYields ph parameters outputs mustExist l <;> simp

theorem collectYields_append (ph : Placeholders) (parameters : LockedParameters)
    (outputs : CapturedOutputs) (mustExist : Bool) (a b : List Output) :
    collectYields ph parameters outputs mustExist (a ++ b) =
      (collectYields ph parameters outputs mustExist a).bind (fun head =>
        (collectYields ph parameters outputs mustExist b).map (fun tail => head ++ tail)) := by
  induction a with
  | nil => cases h : collectYields ph parameters outputs mustExist b <;> simp [collectYields, h]
  | cons r rest ih =>
    have hc : ∀ l, collectYields ph parameters outputs mustExist (r :: l) =
        match yieldOf ph parameters outputs mustExist r with
        | none => none
        | some y =>
          (collectYields ph parameters outputs mustExist l).map (fun tail => y.toList ++ tail) :=
      fun _ => rfl
    rw [List.cons_append, hc, hc, ih]
    cases yieldOf ph parameters outputs mustExist r with
    | none => simp
    | some y =>
      cases collectYields ph parameters outputs mustExist rest with
      | none => simp
      | some head =>
        cases collectYields ph parameters outputs mustExist b <;> simp

/-- The run over a list of declarations is the run over what precedes a declaration, then
the yield of that declaration, then the run over what follows it. -/
theorem ExpandRequestedOutputs_split (ph : Placeholders) (parameters : LockedParameters)
    (outputs : CapturedOutputs) (mustExist : Bool) (before after : List Output) (r : Output) :
    (ExpandRequestedOutputs ph parameters outputs (before ++ r :: after) mustExist).result =
      (ExpandRequestedOutputs ph parameters outputs before mustExist).result.bind (fun head =>
        match yieldOf ph parameters outputs mustExist r with
        | none => none
        | some y =>
          (ExpandRequestedOutputs ph parameters outputs after mustExist).result.map
            (fun tail => head ++ y.toList ++ tail)) := by
  simp only [ExpandRequestedOutputs_result, collectYields_append, collectYields]
  cases collectYields ph parameters outputs mustExist before with
  | none => simp
  | some head =>
    cases yieldOf ph parameters outputs mustExist r with
    | none => simp
    | some y =>
      cases collectYields ph parameters outputs mustExist after <;> simp

theorem propagateKind_skip (name kind : String) :
    ∀ outputs : CapturedOutputs, (∀ entry ∈ outputs, entry.2.QName ≠ name) →
      propagateKind name kind outputs = kind := by
  intro outputs
  induction outputs with
  | nil => intro _; rfl
  | cons e rest ih =>
    intro h
    obtain ⟨k, o⟩ := e
    have hk : o.QName ≠ name := h (k, o) (List.mem_cons_self _ _)
    simp only [propagateKind, hk, false_and, if_false]
    exact ih (fun entry he => h entry (List.mem_cons_of_mem _ he))

/-- In well-keyed captured outputs the loop of output.go:79-86 finds the kind of the output
stored under the name. -/
theorem propagateKind_wellKeyed (name : String) :
    ∀ (outputs : CapturedOutputs) (o : CapturedOutput), WellKeyed outputs →
      mapGet outputs name = some o → propagateKind name "" outputs = o.Kind := by
  intro outputs
  induction outputs with
  | nil => intro o _ h; simp [mapGet] at h
  | cons e rest ih =>
    intro o hwk hget
    obtain ⟨k, o'⟩ := e
    obtain ⟨hnodup, hq⟩ := hwk
    have hq' : o'.QName = k := hq (k, o') (List.mem_cons_self _ _)
    have hrest : WellKeyed rest :=
      ⟨(List.nodup_cons.1 (by simpa using hnodup)).2,
        fun entry he => hq entry (List.mem_cons_of_mem _ he)⟩
    by_cases hk : k = name
    · have ho : o' = o := by simpa [mapGet, hk] using hget
      subst ho
      by_cases hkind : o'.Kind = ""
      · simp only [propagateKind, hkind, ne_eq, not_true_eq_false, and_false, if_false]
        apply propagateKind_skip
        intro entry he hname
        have hfst : entry.1 = k := by rw [← hq entry (List.mem_cons_of_mem _ he), hname, hk]
        have hnot : k ∉ rest.map Prod.fst := (List.nodup_cons.1 (by simpa using hnodup)).1
        exact hnot (List.mem_map.2 ⟨entry, he, hfst⟩)
      · simp [propagateKind, hq', hk, hkind]
    · have hne : o'.QName ≠ name := by rw [hq']; exact hk
      have hget' : mapGet rest name = some o := by simpa [mapGet, hk] using hget
      simp only [propagateKind, hne, false_and, if_false]
      exact ih o hrest hget'

theorem withDefaultValue_qualified (r : Output) (h : stringsContains r.Name ":" = true) :
    withDefaultValue r = r := by
  simp [withDefaultValue, h]

theorem withDefaultValue_valued (r : Output) (h : r.Value ≠ "" ∨ r.Name = "") :
    withDefaultValue r = r := by
  rcases h with h | h
  · simp [withDefaultValue, h]
  · simp [withDefaultValue, h]

/-- The yield of a declaration whose name holds `:`. -/
theorem yieldOf_qualified (ph : Placeholders) (parameters : LockedParameters)
    (outputs : CapturedOutputs) (mustExist : Bool) (r : Output)
    (hq : stringsContains r.Name ":" = true) (hwk : WellKeyed outputs) :
    yieldOf ph parameters outputs mustExist r =
      some ((mapGet outputs r.Name).map (fun o =>
        { Name := r.Name, Value := o.Value, Kind := if r.Kind = "" then o.Kind else r.Kind,
          Brief := r.Brief })) := by
  simp only [yieldOf, expandRequestedOutput, hq, if_true, withDefaultValue_qualified r hq,
    mapGet_OutputsKV, Option.map_some']
  cases hget : mapGet outputs r.Name with
  | none => simp
  | some o =>
    by_cases hk : r.Kind = ""
    · simp [hk, propagateKind_wellKeyed r.Name outputs o hwk hget]
    · simp [hk]

/-- The yield of a declaration without `:` in its name whose value holds placeholders. -/
theorem yieldOf_template (ph : Placeholders) (parameters : LockedParameters)
    (outputs : CapturedOutputs) (mustExist : Bool) (r : Output)
    (hq : stringsContains r.Name ":" = false)
    (hreq : ph.RequireExpansion (withDefaultValue r).Value = true) :
    yieldOf ph parameters outputs mustExist r =
      if (hits (ph.CurlyReplacement (withDefaultValue r).Value)).any
          (expandsFurther ph parameters outputs) then none
      else some
        (if (hits (ph.CurlyReplacement (withDefaultValue r).Value)).all
            (fun m => (placeholderValue ph parameters outputs m).isSome) then
          some { Name := (withDefaultValue r).Name,
                 Value := concatStrings ((ph.CurlyReplacement (withDefaultValue r).Value).map
                   (substitutionOf ph parameters outputs)),
                 Kind := r.Kind, Brief := (withDefaultValue r).Brief }
        else none) := by
  simp only [yieldOf, expandRequestedOutput, hq, Bool.false_eq_true, if_false, hreq, if_true]
  by_cases hab : (hits (ph.CurlyReplacement (withDefaultValue r).Value)).any
      (expandsFurther ph parameters outputs) = true
  · simp [hab, replacePlaceholders_abort ph parameters outputs mustExist (withDefaultValue r) _
      _ hab]
  · have hab' : (hits (ph.CurlyReplacement (withDefaultValue r).Value)).any
        (expandsFurther ph parameters outputs) = false := by simpa using hab
    obtain ⟨out, h1, h2, h3⟩ := replacePlaceholders_done ph parameters outputs mustExist
      (withDefaultValue r) (ph.CurlyReplacement (withDefaultValue r).Value)
      { value := "", invoked := 0, found := 0, trace := [] } hab'
    simp only [hab', Bool.false_eq_true, if_false, h1, Option.map_some', Option.some.injEq]
    simp only [String.empty_append, Nat.add_zero] at h2 h3
    have hall : (out.invoked == out.found) =
        (hits (ph.CurlyReplacement (withDefaultValue r).Value)).all
          (fun m => (placeholderValue ph parameters outputs m).isSome) := by
      rw [Bool.eq_iff_iff, beq_iff_eq, List.all_eq_true]
      constructor
      · intro he
        have hz : ((hits (ph.CurlyReplacement (withDefaultValue r).Value)).filter
            (fun m => (placeholderValue ph parameters outputs m).isNone)).length = 0 := by omega
        intro m hm
        have hnil := List.length_eq_zero.1 hz
        have := List.filter_eq_nil_iff.1 hnil m hm
        cases hv : placeholderValue ph parameters outputs m with
        | none => simp [hv] at this
        | some v => rfl
      · intro hall
        have hnil : (hits (ph.CurlyReplacement (withDefaultValue r).Value)).filter
            (fun m => (placeholderValue ph parameters outputs m).isNone) = [] := by
          rw [List.filter_eq_nil_iff]
          intro m hm
          have := hall m hm
          cases hv : placeholderValue ph parameters outputs m with
          | none => simp [hv] at this
          | some v => simp
        rw [hnil] at h3
        simpa using h3
    rw [hall, h2]

/-- The yield of a declaration without `:` in its name whose value holds no placeholder. -/
theorem yieldOf_literal (ph : Placeholders) (parameters : LockedParameters)
    (outputs : CapturedOutputs) (mustExist : Bool) (r : Output)
    (hq : stringsContains r.Name ":" = false)
    (hreq : ph.RequireExpansion (withDefaultValue r).Value = false) :
    yieldOf ph parameters outputs mustExist r =
      some (some { Name := (withDefaultValue r).Name, Value := (withDefaultValue r).Value,
                   Kind := r.Kind, Brief := (withDefaultValue r).Brief }) := by
  simp [yieldOf, expandRequestedOutput, hq, hreq]

theorem yieldOf_qualified_isSome (ph : Placeholders) (parameters : LockedParameters)
    (outputs : CapturedOutputs) (mustExist : Bool) (r : Output)
    (hq : stringsContains r.Name ":" = true) :
    yieldOf ph parameters outputs mustExist r ≠ none := by
  simp [yieldOf, expandRequestedOutput, hq]

theorem collectYields_eq_none (ph : Placeholders) (parameters : LockedParameters)
    (outputs : CapturedOutputs) (mustExist : Bool) (l : List Output) :
    collectYields ph parameters outputs mustExist l = none ↔
      ∃ r ∈ l, yieldOf ph parameters outputs mustExist r = none := by
  induction l with
  | nil => simp [collectYields]
  | cons r rest ih =>
    simp only [collectYields, List.mem_cons, exists_eq_or_imp]
    cases hy : yieldOf ph parameters outputs mustExist r with
    | none => simp
    | some y =>
      simp only [Option.map_eq_none', ih]
      simp

theorem mapGet_foldl_ParametersKV :
    ∀ (parameters : LockedParameters) (kv : GoMap String) (k : String),
      mapGet (parameters.foldl (fun kv p => mapSet kv p.QName p.Value) kv) k =
        match findLast (fun p => decide (p.QName = k)) parameters with
        | some p => some p.Value
        | none => mapGet kv k := by
  intro parameters
  induction parameters with
  | nil => intro kv k; simp [findLast]
  | cons p rest ih =>
    intro kv k
    simp only [List.foldl_cons, ih, findLast]
    cases hf : findLast (fun p => decide (p.QName = k)) rest with
    | some y => rfl
    | none =>
      by_cases hk : p.QName = k
      · subst hk
        simp [mapGet_mapSet_self]
      · simp [hk, mapGet_mapSet_ne _ _ _ _ (Ne.symm hk)]

/-- The locked-parameters value of a name is the value of the last parameter of that
qualified name. -/
theorem mapGet_ParametersKV (parameters : LockedParameters) (k : String) :
    mapGet (ParametersKV parameters) k =
      (findLast (fun p => decide (p.QName = k)) parameters).map (fun p => p.Value) := by
  rw [ParametersKV, mapGet_foldl_ParametersKV]
  cases findLast (fun p => decide (p.QName = k)) parameters <;> simp [mapGet]

/-- C5: qualified output passthrough. In well-keyed captured outputs, a requested output
whose name holds `:` contributes to the result, at its place between what the declarations
before it and after it contribute, exactly one expanded output when the captured outputs have
an entry under that name and none otherwise; the expanded output has the captured value as it
is, the declared brief, and the declared kind, or the kind of the captured output when no
kind is declared. The declared value plays no part, and the round never ends the process. -/
theorem ExpandRequestedOutputs_qualified (ph : Placeholders) (parameters : LockedParameters)
    (outputs : CapturedOutputs) (mustExist : Bool) (before after : List Output) (r : Output)
    (hq : stringsContains r.Name ":" = true) (hwk : WellKeyed outputs) :
    (ExpandRequestedOutputs ph parameters outputs (before ++ r :: after) mustExist).result =
      (ExpandRequestedOutputs ph parameters outputs before mustExist).result.bind (fun head =>
        (ExpandRequestedOutputs ph parameters outputs after mustExist).result.map (fun tail =>
          head ++
          (match mapGet outputs r.Name with
            | some o =>
              [{ Name := r.Name, Value := o.Value,
                 Kind := if r.Kind = "" then o.Kind else r.Kind, Brief := r.Brief }]
            | none => []) ++
          tail)) := by
  rw [ExpandRequestedOutputs_split, yieldOf_qualified ph parameters outputs mustExist r hq hwk]
  cases mapGet outputs r.Name <;> rfl

/-- C6: template-valued requested outputs. A requested output without `:` in its name whose
value is a template with placeholders contributes, unless a placeholder resolves to a value
that still holds a placeholder (then the process is ended), one expanded output exactly when
every placeholder found in the value has a value, and none otherwise; its value is the
declared value with each supported placeholder replaced by the value of the captured output
of that name when there is one, and otherwise by the value of the locked parameter of that
name (the last parameter of that qualified name). -/
theorem ExpandRequestedOutputs_template (ph : Placeholders) (parameters : LockedParameters)
    (outputs : CapturedOutputs) (mustExist : Bool) (before after : List Output) (r : Output)
    (hq : stringsContains r.Name ":" = false) (hv : r.Value ≠ "")
    (hreq : ph.RequireExpansion r.Value = true) :
    (ExpandRequestedOutputs ph parameters outputs (before ++ r :: after) mustExist).result =
      (ExpandRequestedOutputs ph parameters outputs before mustExist).result.bind (fun head =>
        if (hits (ph.CurlyReplacement r.Value)).any (expandsFurther ph parameters outputs) then
          none
        else
          (ExpandRequestedOutputs ph parameters outputs after mustExist).result.map (fun tail =>
            head ++
            (if (hits (ph.CurlyReplacement r.Value)).all
                (fun m => (placeholderValue ph parameters outputs m).isSome) then
              [{ Name := r.Name,
                 Value := concatStrings
                   ((ph.CurlyReplacement r.Value).map (substitutionOf ph parameters outputs)),
                 Kind := r.Kind, Brief := r.Brief }]
            else []) ++
            tail)) ∧
      (∀ m, (ph.StripCurly m).2 = false →
        substitutionOf ph parameters outputs (Piece.hit m) =
          match mapGet outputs (ph.StripCurly m).1 with
          | some o => o.Value
          | none =>
            match findLast (fun p => decide (p.QName = (ph.StripCurly m).1)) parameters with
            | some p => p.Value
            | none => "") ∧
      (∀ s, substitutionOf ph parameters outputs (Piece.text s) = s) := by
  have hd : withDefaultValue r = r := withDefaultValue_valued r (Or.inl hv)
  refine ⟨?_, ?_, fun _ => rfl⟩
  · have hy := yieldOf_template ph parameters outputs mustExist r hq (by rw [hd]; exact hreq)
    rw [hd] at hy
    rw [ExpandRequestedOutputs_split, hy]
    by_cases hab : (hits (ph.CurlyReplacement r.Value)).any
        (expandsFurther ph parameters outputs) = true
    · simp [hab]
    · simp only [hab, if_false]
      by_cases hall : (hits (ph.CurlyReplacement r.Value)).all
          (fun m => (placeholderValue ph parameters outputs m).isSome) = true
      · simp only [hall, if_true]
        rfl
      · simp only [hall, if_false]
        rfl
  · intro m hm
    simp only [substitutionOf, hm, Bool.false_eq_true, if_false, resolveVariable,
      mapGet_ParametersKV]
    cases mapGet outputs (ph.StripCurly m).1 with
    | some o => rfl
    | none =>
      cases findLast (fun p => decide (p.QName = (ph.StripCurly m).1)) parameters <;> rfl

/-- C7: the expansion-idempotence hard stop. `ExpandRequestedOutputs` ends the process exactly
when some requested output without `:` in its name has a template value (as declared, or
`${name}` for an empty value) in which a supported placeholder resolves, from the captured
outputs or the locked parameters, to a value that still holds a placeholder. A placeholder
without a value and a CEL expression never end it. -/
theorem ExpandRequestedOutputs_aborts_iff (ph : Placeholders) (parameters : LockedParameters)
    (outputs : CapturedOutputs) (mustExist : Bool) (requested : List Output) :
    (ExpandRequestedOutputs ph parameters outputs requested mustExist).result = none ↔
      ∃ r ∈ requested, stringsContains r.Name ":" = false ∧
        ph.RequireExpansion (withDefaultValue r).Value = true ∧
        ∃ m ∈ hits (ph.CurlyReplacement (withDefaultValue r).Value),
          (ph.StripCurly m).2 = false ∧
          ∃ v, resolveVariable parameters outputs (ph.StripCurly m).1 = some v ∧
            ph.RequireExpansion v = true := by
  rw [ExpandRequestedOutputs_result, collectYields_eq_none]
  have hexp : ∀ m, expandsFurther ph parameters outputs m = true ↔
      ((ph.StripCurly m).2 = false ∧
        ∃ v, resolveVariable parameters outputs (ph.StripCurly m).1 = some v ∧
          ph.RequireExpansion v = true) := by
    intro m
    unfold expandsFurther placeholderValue
    cases hc : (ph.StripCurly m).2 with
    | true => simp
    | false =>
      cases hr : resolveVariable parameters outputs (ph.StripCurly m).1 with
      | none => simp
      | some v => simp
  have hyield : ∀ r, yieldOf ph parameters outputs mustExist r = none ↔
      (stringsContains r.Name ":" = false ∧
        ph.RequireExpansion (withDefaultValue r).Value = true ∧
        ∃ m ∈ hits (ph.CurlyReplacement (withDefaultValue r).Value),
          (ph.StripCurly m).2 = false ∧
          ∃ v, resolveVariable parameters outputs (ph.StripCurly m).1 = some v ∧
            ph.RequireExpansion v = true) := by
    intro r
    cases hq : stringsContains r.Name ":" with
    | true =>
      have := yieldOf_qualified_isSome ph parameters outputs mustExist r hq
      simp [this]
    | false =>
      cases hreq : ph.RequireExpansion (withDefaultValue r).Value with
      | false => simp [yieldOf_literal ph parameters outputs mustExist r hq hreq]
      | true =>
        rw [yieldOf_template ph parameters outputs mustExist r hq hreq]
        by_cases hab : (hits (ph.CurlyReplacement (withDefaultValue r).Value)).any
            (expandsFurther ph parameters outputs) = true
        · simp only [hab, if_true, true_and, true_iff]
          obtain ⟨m, hm, hm'⟩ := List.any_eq_true.1 hab
          exact ⟨m, hm, (hexp m).1 hm'⟩
        · simp only [hab, if_false, true_and, Bool.false_eq_true]
          refine ⟨fun h => (by cases h), ?_⟩
          rintro ⟨m, hm, hm'⟩
          exact absurd (List.any_eq_true.2 ⟨m, hm, (hexp m).2 hm'⟩) hab
  constructor
  · rintro ⟨r, hr, hy⟩
    exact ⟨r, hr, (hyield r).1 hy⟩
  · rintro ⟨r, hr, h⟩
    exact ⟨r, hr, (hyield r).2 h⟩

/-- Counterexample to C8 as stated: the declaration `k` with an empty value has no `:` in its
name and no placeholder in its declared value, yet no expanded output is emitted for it: the
empty value is read as the template `${k}`, which has no value here. -/
theorem ExpandRequestedOutputs_literal_counterexample :
    stringsContains (Output.Name ⟨"k", "", "", ""⟩) ":" = false ∧
      specPlaceholders.RequireExpansion (Output.Value ⟨"k", "", "", ""⟩) = false ∧
      (withDefaultValue ⟨"k", "", "", ""⟩).Value = "$\x7bk\x7d" ∧
      (ExpandRequestedOutputs specPlaceholders [] [] [⟨"k", "", "", ""⟩] true).result
        = some [] := by
  decide

/-- C8 (amended): literal passthrough. A requested output without `:` in its name whose
declared value is not empty (or whose name is empty) and holds no placeholder contributes
exactly one expanded output, with the same name, the declared value unchanged, the declared
kind and the declared brief; the round never ends the process. -/
theorem ExpandRequestedOutputs_literal (ph : Placeholders) (parameters : LockedParameters)
    (outputs : CapturedOutputs) (mustExist : Bool) (before after : List Output) (r : Output)
    (hq : stringsContains r.Name ":" = false) (hv : r.Value ≠ "" ∨ r.Name = "")
    (hreq : ph.RequireExpansion r.Value = false) :
    (ExpandRequestedOutputs ph parameters outputs (before ++ r :: after) mustExist).result =
      (ExpandRequestedOutputs ph parameters outputs before mustExist).result.bind (fun head =>
        (ExpandRequestedOutputs ph parameters outputs after mustExist).result.map (fun tail =>
          head ++ [{ Name := r.Name, Value := r.Value, Kind := r.Kind, Brief := r.Brief }] ++
            tail)) := by
  have hd : withDefaultValue r = r := withDefaultValue_valued r hv
  have hy := yieldOf_literal ph parameters outputs mustExist r hq (by rw [hd]; exact hreq)
  rw [hd] at hy
  rw [ExpandRequestedOutputs_split, hy]
  rfl

/-- Witness of C5: the requested output `dns:ingress` with no declared kind, the captured
output of that name being a secret; the captured outputs are built by `OutputsFromList`. -/
theorem ExpandRequestedOutputs_qualified_witness :
    stringsContains (Output.Name ⟨"dns:ingress", "", "", "the ingress"⟩) ":" = true ∧
      WellKeyed (OutputsFromList ⟨false, false, false, false⟩
        [[⟨"dns", "ingress", "example.com", "secret"⟩]]).1 ∧
      (ExpandRequestedOutputs specPlaceholders []
          (OutputsFromList ⟨false, false, false, false⟩
            [[⟨"dns", "ingress", "example.com", "secret"⟩]]).1
          [⟨"dns:ingress", "", "", "the ingress"⟩] true).result
        = some [⟨"dns:ingress", "example.com", "secret", "the ingress"⟩] :=
  ⟨by decide, WellKeyed_OutputsFromList _ _,
    (ExpandRequestedOutputs_qualified specPlaceholders []
      (OutputsFromList ⟨false, false, false, false⟩
        [[⟨"dns", "ingress", "example.com", "secret"⟩]]).1 true [] []
      ⟨"dns:ingress", "", "", "the ingress"⟩ (by decide)
      (WellKeyed_OutputsFromList _ _)).trans (by decide)⟩

/-- An evaluation of C5: a plain captured kind, a declared kind, and a name that is not
captured. -/
theorem ExpandRequestedOutputs_qualified_example :
    (ExpandRequestedOutputs specPlaceholders []
        [("dns:ingress", ⟨"dns", "ingress", "example.com", ""⟩)]
        [⟨"dns:ingress", "", "", "the ingress"⟩] true).result
      = some [⟨"dns:ingress", "example.com", "", "the ingress"⟩] ∧
    (ExpandRequestedOutputs specPlaceholders []
        [("dns:ingress", ⟨"dns", "ingress", "example.com", "secret"⟩)]
        [⟨"dns:ingress", "$\x7bignored\x7d", "link", "the ingress"⟩] true).result
      = some [⟨"dns:ingress", "example.com", "link", "the ingress"⟩] ∧
    (ExpandRequestedOutputs specPlaceholders []
        [("dns:ingress", ⟨"dns", "ingress", "example.com", "secret"⟩)]
        [⟨"dns:egress", "", "", ""⟩] true)
      = { trace := [Event.warn "Stack output `%s` not found in outputs:" ["dns:egress"],
            Event.printOutputs [("dns:ingress", ⟨"dns", "ingress", "example.com", "secret"⟩)]],
          result := some [] } := by
  decide

/-- Witness of C6: the template `http://${host}:${port}`, `host` a captured output and `port`
a locked parameter. -/
theorem ExpandRequestedOutputs_template_witness :
    stringsContains (Output.Name ⟨"url", "http://$\x7bhost\x7d:$\x7bport\x7d", "", ""⟩) ":"
        = false ∧
      Output.Value ⟨"url", "http://$\x7bhost\x7d:$\x7bport\x7d", "", ""⟩ ≠ "" ∧
      specPlaceholders.RequireExpansion
        (Output.Value ⟨"url", "http://$\x7bhost\x7d:$\x7bport\x7d", "", ""⟩) = true ∧
      (ExpandRequestedOutputs specPlaceholders [⟨"port", "", "80", ""⟩]
          [("host", ⟨"host", "", "example.com", ""⟩)]
          [⟨"url", "http://$\x7bhost\x7d:$\x7bport\x7d", "", ""⟩] true).result
        = some [⟨"url", "http://example.com:80", "", ""⟩] :=
  ⟨by decide, by decide, by decide,
    (ExpandRequestedOutputs_template specPlaceholders [⟨"port", "", "80", ""⟩]
      [("host", ⟨"host", "", "example.com", ""⟩)] true [] []
      ⟨"url", "http://$\x7bhost\x7d:$\x7bport\x7d", "", ""⟩ (by decide) (by decide)
      (by decide)).1.trans (by decide)⟩

/-- An evaluation of C6: the same template without the parameter `port` is dropped, with a
warning when `mustExist` is on. -/
theorem ExpandRequestedOutputs_template_example :
    ExpandRequestedOutputs specPlaceholders [] [("host", ⟨"host", "", "example.com", ""⟩)]
        [⟨"url", "http://$\x7bhost\x7d:$\x7bport\x7d", "", ""⟩] true
      = { trace := [Event.warn "Stack output `%s = %s` refer to unknown substitution `%s`"
            ["url", "http://$\x7bhost\x7d:$\x7bport\x7d", "port"]],
          result := some [] } := by
  decide

/-- An evaluation of C7: the parameter `a` holds `${b}`; the output `x = ${a}` ends the run,
the outputs with an unknown placeholder do not. -/
theorem ExpandRequestedOutputs_aborts_example :
    (ExpandRequestedOutputs specPlaceholders [⟨"a", "", "$\x7bb\x7d", ""⟩] []
        [⟨"y", "$\x7bnone\x7d", "", ""⟩, ⟨"x", "$\x7ba\x7d", "", ""⟩] true).result = none ∧
      (ExpandRequestedOutputs specPlaceholders [⟨"a", "", "$\x7bb\x7d", ""⟩] []
        [⟨"y", "$\x7bnone\x7d", "", ""⟩, ⟨"z", "plain", "", ""⟩] true).result
        = some [⟨"z", "plain", "", ""⟩] := by
  decide

/-- Witness of C8 (amended): the literal output `z = plain`. -/
theorem ExpandRequestedOutputs_literal_witness :
    stringsContains (Output.Name ⟨"z", "plain", "text", "a literal"⟩) ":" = false ∧
      (Output.Value ⟨"z", "plain", "text", "a literal"⟩ ≠ "" ∨
        Output.Name ⟨"z", "plain", "text", "a literal"⟩ = "") ∧
      specPlaceholders.RequireExpansion (Output.Value ⟨"z", "plain", "text", "a literal"⟩)
        = false ∧
      (ExpandRequestedOutputs specPlaceholders [] [] [⟨"z", "plain", "text", "a literal"⟩]
          false).result = some [⟨"z", "plain", "text", "a literal"⟩] :=
  ⟨by decide, Or.inl (by decide), by decide,
    (ExpandRequestedOutputs_literal specPlaceholders [] [] false [] []
      ⟨"z", "plain", "text", "a literal"⟩ (by decide) (Or.inl (by decide))
      (by decide)).trans (by decide)⟩

/-! ## `valueEncoding` -/

theorem stringsIndex_neg (s : List Char) (c : Char) : stringsIndex s c < 0 ↔ c ∉ s := by
  induction s with
  | nil => simp [stringsIndex]
  | cons x rest ih =>
    by_cases hx : x = c
    · simp [stringsIndex, hx]
    · by_cases hr : stringsIndex rest c < 0
      · simp [stringsIndex, hx, hr, ← ih, Ne.symm hx]
      · have hge : ¬ stringsIndex rest c + 1 < 0 := by omega
        simp [stringsIndex, hx, hr, hge, ← ih, Ne.symm hx]

theorem stringsIndex_ge (s : List Char) (c : Char) : -1 ≤ stringsIndex s c := by
  induction s with
  | nil => simp [stringsIndex]
  | cons x rest ih =>
    simp only [stringsIndex]
    split
    · omega
    · split <;> omega

/-- When the character occurs, the index cuts the list at its first occurrence. -/
theorem stringsIndex_split (s : List Char) (c : Char) (h : c ∈ s) :
    0 ≤ stringsIndex s c ∧ (stringsIndex s c).toNat < s.length ∧
      c ∉ s.take (stringsIndex s c).toNat ∧
      s = s.take (stringsIndex s c).toNat ++ c :: s.drop ((stringsIndex s c).toNat + 1) := by
  induction s with
  | nil => cases h
  | cons x rest ih =>
    by_cases hx : x = c
    · subst hx
      simp [stringsIndex]
    · have hr : c ∈ rest := by
        rcases List.mem_cons.1 h with h' | h'
        · exact absurd h'.symm hx
        · exact h'
      obtain ⟨h0, h1, h2, h3⟩ := ih hr
      have hnn : ¬ stringsIndex rest c < 0 := by omega
      have hi : stringsIndex (x :: rest) c = stringsIndex rest c + 1 := by
        simp [stringsIndex, hx, hnn]
      have hn : (stringsIndex rest c + 1).toNat = (stringsIndex rest c).toNat + 1 := by omega
      rw [hi, hn]
      refine ⟨by omega, by simpa using h1, ?_, ?_⟩
      · simp only [List.take_succ_cons, List.mem_cons, not_or]
        exact ⟨Ne.symm hx, h2⟩
      · simp only [List.take_succ_cons, List.drop_succ_cons, List.cons_append]
        rw [← h3]

theorem stringsIndex_append (front rest : List Char) (c : Char) (h : c ∉ front) :
    stringsIndex (front ++ c :: rest) c = front.length := by
  induction front with
  | nil => simp [stringsIndex]
  | cons x xs ih =>
    simp only [List.mem_cons, not_or] at h
    have hx : ¬ x = c := Ne.symm h.1
    have hrec := ih h.2
    have hnn : ¬ ((xs.length : Int) < 0) := by omega
    have hstep : stringsIndex (x :: (xs ++ c :: rest)) c =
        if stringsIndex (xs ++ c :: rest) c < 0 then -1
        else stringsIndex (xs ++ c :: rest) c + 1 := by
      simp only [stringsIndex, hx, if_false]
    rw [List.cons_append, hstep, hrec, if_neg hnn]
    simp

theorem valueEncoding_plain (v : String)
    (h : stringsIndex v.data '/' ≤ 0 ∨ stringsIndex v.data '/' = (v.data.length : Int) - 1) :
    valueEncoding v = (v, "") := by
  unfold valueEncoding
  exact if_pos h

theorem valueEncoding_cut (v : String)
    (h : ¬ (stringsIndex v.data '/' ≤ 0 ∨
      stringsIndex v.data '/' = (v.data.length : Int) - 1)) :
    valueEncoding v = (String.mk (v.data.take (stringsIndex v.data '/').toNat),
      String.mk (v.data.drop ((stringsIndex v.data '/').toNat + 1))) := by
  unfold valueEncoding
  exact if_neg h

/-- The split of a body `name/enc` whose name is not empty and has no `/` and whose encoding
is not empty. -/
theorem valueEncoding_name_enc (name enc : String) (hn : name ≠ "") (hs : '/' ∉ name.data)
    (he : enc ≠ "") : valueEncoding (name ++ "/" ++ enc) = (name, enc) := by
  have hdata : (name ++ "/" ++ enc).data = name.data ++ '/' :: enc.data := by
    rw [String.data_append, String.data_append, List.append_assoc]
    rfl
  have hidx : stringsIndex (name ++ "/" ++ enc).data '/' = name.data.length := by
    rw [hdata]
    exact stringsIndex_append _ _ _ hs
  have hnl : name.data ≠ [] := fun h => hn (String.ext (by simpa using h))
  have hel : enc.data ≠ [] := fun h => he (String.ext (by simpa using h))
  have hnpos : 0 < name.data.length := List.length_pos.2 hnl
  have hepos : 0 < enc.data.length := List.length_pos.2 hel
  have hlen : (name ++ "/" ++ enc).data.length = name.data.length + 1 + enc.data.length := by
    rw [hdata, List.length_append, List.length_cons]
    omega
  have htake : (name.data ++ '/' :: enc.data).take name.data.length = name.data :=
    List.take_left _ _
  have hdrop : (name.data ++ '/' :: enc.data).drop (name.data.length + 1) = enc.data := by
    have h1 : name.data ++ '/' :: enc.data = (name.data ++ ['/']) ++ enc.data := by
      rw [List.append_assoc]
      rfl
    rw [h1]
    exact List.drop_left' (by rw [List.length_append]; rfl)
  rw [valueEncoding_cut]
  · rw [hidx, hdata, Int.toNat_ofNat, htake, hdrop]
  · rw [hidx, hlen]
    push_cast
    omega

/-- C19: `valueEncoding` splits at the first `/`. For every string `v`, either the encoding
is empty and the name is `v`, or the encoding is not empty, the name is not empty and holds
no `/`, and `v` is the name, `/` and the encoding; the encoding is empty exactly when `v`
has no `/`, or its first `/` is its first character, or its first `/` is its last
character. -/
theorem valueEncoding_first_slash (v : String) :
    (((valueEncoding v).2 = "" ∧ (valueEncoding v).1 = v) ∨
      ((valueEncoding v).2 ≠ "" ∧ (valueEncoding v).1 ≠ "" ∧
        '/' ∉ (valueEncoding v).1.data ∧
        v = (valueEncoding v).1 ++ "/" ++ (valueEncoding v).2)) ∧
    ((valueEncoding v).2 = "" ↔
      ('/' ∉ v.data ∨ (∃ rest, v.data = '/' :: rest) ∨
        (∃ front, '/' ∉ front ∧ v.data = front ++ ['/']))) := by
  by_cases hmem : '/' ∈ v.data
  · obtain ⟨h0, h1, h2, h3⟩ := stringsIndex_split v.data '/' hmem
    by_cases hplain : stringsIndex v.data '/' ≤ 0 ∨
        stringsIndex v.data '/' = (v.data.length : Int) - 1
    · rw [valueEncoding_plain v hplain]
      refine ⟨Or.inl ⟨rfl, rfl⟩, ⟨fun _ => Or.inr ?_, fun _ => rfl⟩⟩
      rcases hplain with hz | hl
      · have hz' : (stringsIndex v.data '/').toNat = 0 := by omega
        rw [hz'] at h3
        exact Or.inl ⟨_, by simpa using h3⟩
      · have hl' : (stringsIndex v.data '/').toNat + 1 = v.data.length := by omega
        refine Or.inr ⟨v.data.take (stringsIndex v.data '/').toNat, h2, ?_⟩
        have hd : v.data.drop ((stringsIndex v.data '/').toNat + 1) = [] := by
          rw [hl']
          exact List.drop_length _
        rw [hd] at h3
        exact h3
    · rw [valueEncoding_cut v hplain]
      have hpos : 0 < (stringsIndex v.data '/').toNat := by omega
      have hlt : (stringsIndex v.data '/').toNat + 1 < v.data.length := by omega
      have hname : v.data.take (stringsIndex v.data '/').toNat ≠ [] := by
        intro h
        rcases List.take_eq_nil_iff.1 h with h' | h'
        · omega
        · rw [h'] at hmem
          cases hmem
      have henc : v.data.drop ((stringsIndex v.data '/').toNat + 1) ≠ [] := by
        intro h
        have := List.drop_eq_nil_iff.1 h
        omega
      have henc' : String.mk (v.data.drop ((stringsIndex v.data '/').toNat + 1)) ≠ "" := by
        intro h
        exact henc (by simpa using congrArg String.data h)
      have hname' : String.mk (v.data.take (stringsIndex v.data '/').toNat) ≠ "" := by
        intro h
        exact hname (by simpa using congrArg String.data h)
      refine ⟨Or.inr ⟨henc', hname', h2, ?_⟩, ⟨fun h => absurd h henc', ?_⟩⟩
      · apply String.ext
        rw [String.data_append, String.data_append, List.append_assoc]
        exact h3
      · rintro (h | ⟨rest, h⟩ | ⟨front, hf, h⟩)
        · exact absurd hmem h
        · exfalso
          apply hplain
          left
          rw [h]
          simp [stringsIndex]
        · exfalso
          apply hplain
          right
          rw [h, stringsIndex_append front [] '/' hf]
          simp
  · have hneg : stringsIndex v.data '/' < 0 := (stringsIndex_neg _ _).2 hmem
    rw [valueEncoding_plain v (Or.inl (by omega))]
    exact ⟨Or.inl ⟨rfl, rfl⟩, ⟨fun _ => Or.inl hmem, fun _ => rfl⟩⟩

/-- An evaluation of C19. -/
theorem valueEncoding_example :
    valueEncoding "name/base64" = ("name", "base64") ∧
      valueEncoding "a/b/c" = ("a", "b/c") ∧
      valueEncoding "name" = ("name", "") ∧
      valueEncoding "/enc" = ("/enc", "") ∧
      valueEncoding "name/" = ("name/", "") ∧
      valueEncoding "" = ("", "") := by
  decide

/-! ## Bytes and base64: the round trips -/

theorem decodeSextet_encodeSextet :
    ∀ i, i < 64 → decodeSextet (encodeSextet i) = some i := by
  decide

theorem base64Alphabet_plain :
    ∀ c ∈ 'A' :: base64Alphabet, c ≠ '=' ∧ c ≠ '\r' ∧ c ≠ '\n' := by
  decide

theorem encodeSextet_plain (i : Nat) :
    encodeSextet i ≠ '=' ∧ encodeSextet i ≠ '\r' ∧ encodeSextet i ≠ '\n' := by
  apply base64Alphabet_plain
  unfold encodeSextet
  rw [List.getD_eq_getElem?_getD]
  cases h : base64Alphabet[i]? with
  | none => simp
  | some c => exact List.mem_cons_of_mem _ (List.getElem?_mem h)

/-- The encoding holds no line break. -/
theorem base64Encode_filter (bs : List Nat) :
    (base64Encode bs).filter (fun c => !(c == '\r' || c == '\n')) = base64Encode bs := by
  rw [List.filter_eq_self]
  intro c hc
  have hplain : ∀ i, (!(encodeSextet i == '\r' || encodeSextet i == '\n')) = true := by
    intro i
    have := encodeSextet_plain i
    simp [this.2.1, this.2.2]
  induction bs using base64Encode.induct with
  | case1 => simp [base64Encode] at hc
  | case2 a =>
    simp only [base64Encode, List.mem_cons, List.mem_singleton] at hc
    rcases hc with rfl | rfl | rfl | hc
    · exact hplain _
    · exact hplain _
    · decide
    · rcases hc with rfl | hc
      · decide
      · cases hc
  | case3 a b =>
    simp only [base64Encode, List.mem_cons, List.mem_singleton] at hc
    rcases hc with rfl | rfl | rfl | hc
    · exact hplain _
    · exact hplain _
    · exact hplain _
    · rcases hc with rfl | hc
      · decide
      · cases hc
  | case4 a b c' rest ih =>
    simp only [base64Encode, List.mem_cons] at hc
    rcases hc with rfl | rfl | rfl | rfl | hc
    · exact hplain _
    · exact hplain _
    · exact hplain _
    · exact hplain _
    · exact ih hc

/-- Decoding undoes encoding, for bytes. -/
theorem base64DecodeGroups_encode (bs : List Nat) (hb : ∀ b ∈ bs, b < 256) :
    base64DecodeGroups (base64Encode bs) = some bs := by
  induction bs using base64Encode.induct with
  | case1 => simp [base64Encode, base64DecodeGroups]
  | case2 a =>
    have ha : a < 256 := hb a (by simp)
    have h0 := decodeSextet_encodeSextet (a / 4) (by omega)
    have h1 := decodeSextet_encodeSextet (a % 4 * 16) (by omega)
    simp only [base64Encode, base64DecodeGroups, h0, h1]
    simp
    omega
  | case3 a b =>
    have ha : a < 256 := hb a (by simp)
    have hb' : b < 256 := hb b (by simp)
    have h0 := decodeSextet_encodeSextet (a / 4) (by omega)
    have h1 := decodeSextet_encodeSextet (a % 4 * 16 + b / 16) (by omega)
    have h2 := decodeSextet_encodeSextet (b % 16 * 4) (by omega)
    have hp := (encodeSextet_plain (b % 16 * 4)).1
    simp only [base64Encode, base64DecodeGroups, h0, h1, h2, hp, if_false]
    simp
    omega
  | case4 a b c rest ih =>
    have ha : a < 256 := hb a (by simp)
    have hb' : b < 256 := hb b (by simp)
    have hc : c < 256 := hb c (by simp)
    have hrest : ∀ x ∈ rest, x < 256 := fun x hx => hb x (by simp [hx])
    have h0 := decodeSextet_encodeSextet (a / 4) (by omega)
    have h1 := decodeSextet_encodeSextet (a % 4 * 16 + b / 16) (by omega)
    have h2 := decodeSextet_encodeSextet (b % 16 * 4 + c / 64) (by omega)
    have h3 := decodeSextet_encodeSextet (c % 64) (by omega)
    have hp2 := (encodeSextet_plain (b % 16 * 4 + c / 64)).1
    have hp3 := (encodeSextet_plain (c % 64)).1
    simp only [base64Encode, base64DecodeGroups, h0, h1, h2, h3, hp2, hp3, if_false, ih hrest,
      Option.map_some']
    have e0 : a / 4 * 4 + (a % 4 * 16 + b / 16) / 16 = a := by omega
    have e1 : (a % 4 * 16 + b / 16) % 16 * 16 + (b % 16 * 4 + c / 64) / 4 = b := by omega
    have e2 : (b % 16 * 4 + c / 64) % 4 * 64 + c % 64 = c := by omega
    rw [e0, e1, e2]

/-- The function `DecodeString` undoes `EncodeToString`. -/
theorem base64Decode_encode (bs : List Nat) (hb : ∀ b ∈ bs, b < 256) :
    base64Decode (base64Encode bs) = some bs := by
  rw [base64Decode, base64Encode_filter, base64DecodeGroups_encode bs hb]

theorem Char_toNat_valid (c : Char) :
    c.toNat < 0xd800 ∨ (0xdfff < c.toNat ∧ c.toNat < 0x110000) :=
  c.valid

theorem utf8Bytes_lt (c : Char) : ∀ b ∈ utf8Bytes c, b < 256 := by
  have hv := Char_toNat_valid c
  intro b hb
  unfold utf8Bytes at hb
  split at hb
  · simp at hb; omega
  · split at hb
    · simp at hb; omega
    · split at hb
      · simp at hb; omega
      · simp at hb; omega

theorem charsBytes_lt (cs : List Char) : ∀ b ∈ charsBytes cs, b < 256 := by
  induction cs with
  | nil => intro b hb; cases hb
  | cons c rest ih =>
    intro b hb
    rcases List.mem_append.1 hb with h | h
    · exact utf8Bytes_lt c b h
    · exact ih b h

theorem decodeUtf8_utf8Bytes (c : Char) (rest : List Nat) :
    decodeUtf8 (utf8Bytes c ++ rest) 0 0 = c :: decodeUtf8 rest 0 0 := by
  have hv := Char_toNat_valid c
  unfold utf8Bytes
  by_cases h1 : c.toNat < 0x80
  · simp only [h1, if_true, List.cons_append, List.nil_append, decodeUtf8, Char.ofNat_toNat]
  · by_cases h2 : c.toNat < 0x800
    · have g1 : ¬ 0xC0 + c.toNat / 64 < 0x80 := by omega
      have g2 : 0xC0 + c.toNat / 64 < 0xE0 := by omega
      have e : (0xC0 + c.toNat / 64 - 0xC0) * 64 + (0x80 + c.toNat % 64 - 0x80) = c.toNat := by
        omega
      simp only [h1, h2, if_true, if_false, List.cons_append, List.nil_append, decodeUtf8, g1,
        g2, e, Char.ofNat_toNat]
    · by_cases h3 : c.toNat < 0x10000
      · have g1 : ¬ 0xE0 + c.toNat / 4096 < 0x80 := by omega
        have g2 : ¬ 0xE0 + c.toNat / 4096 < 0xE0 := by omega
        have g3 : 0xE0 + c.toNat / 4096 < 0xF0 := by omega
        have e : ((0xE0 + c.toNat / 4096 - 0xE0) * 64 + (0x80 + c.toNat / 64 % 64 - 0x80)) * 64
            + (0x80 + c.toNat % 64 - 0x80) = c.toNat := by omega
        simp only [h1, h2, h3, if_true, if_false, List.cons_append, List.nil_append, decodeUtf8,
          g1, g2, g3, e, Char.ofNat_toNat]
      · have g1 : ¬ 0xF0 + c.toNat / 262144 < 0x80 := by omega
        have g2 : ¬ 0xF0 + c.toNat / 262144 < 0xE0 := by omega
        have g3 : ¬ 0xF0 + c.toNat / 262144 < 0xF0 := by omega
        have e : (((0xF0 + c.toNat / 262144 - 0xF0) * 64
            + (0x80 + c.toNat / 4096 % 64 - 0x80)) * 64
            + (0x80 + c.toNat / 64 % 64 - 0x80)) * 64 + (0x80 + c.toNat % 64 - 0x80)
            = c.toNat := by omega
        simp only [h1, h2, h3, if_false, List.cons_append, List.nil_append, decodeUtf8,
          g1, g2, g3, e, Char.ofNat_toNat]

/-- The conversion `string([]byte(s))` gives `s` back. -/
theorem bytesChars_charsBytes (cs : List Char) : bytesChars (charsBytes cs) = cs := by
  unfold bytesChars
  induction cs with
  | nil => rfl
  | cons c rest ih => rw [charsBytes, decodeUtf8_utf8Bytes, ih]

/-- An evaluation of the byte and base64 functions. -/
theorem base64_example :
    String.mk (base64Encode (charsBytes "hello".data)) = "aGVsbG8=" ∧
      (base64Decode "aGVsbG8=".data).map (fun bytes => String.mk (bytesChars bytes))
        = some "hello" ∧
      String.mk (base64Encode (charsBytes "héllo €".data)) = "aMOpbGxvIOKCrA==" ∧
      (base64Decode "aMOp\nbGxvIOKCrA==\r\n".data).map
        (fun bytes => String.mk (bytesChars bytes)) = some "héllo €" ∧
      base64Decode "(unknown)".data = none ∧
      base64Decode "aGVsbG8".data = none ∧
      base64Decode "aGV=bG8=".data = none ∧
      TrimSpace "  \t padded value\n" = "padded value" := by
  decide

/-! ## `processReplacement` -/

theorem replaceMatches_spec (callback : String → Substituted) :
    ∀ pieces : List Piece,
      (replaceMatches callback pieces).substitution
          = concatStrings (pieces.map (renderPiece callback)) ∧
        (replaceMatches callback pieces).errs
          = (pieces.map (pieceErrs callback)).flatten := by
  intro pieces
  induction pieces with
  | nil => exact ⟨rfl, rfl⟩
  | cons piece rest ih =>
    cases piece with
    | text s =>
      simp only [replaceMatches, List.map_cons, concatStrings, renderPiece, pieceErrs,
        List.flatten_cons, List.nil_append, ih.1, ih.2, and_self]
    | hit m =>
      simp only [replaceMatches, List.map_cons, concatStrings, renderPiece, pieceErrs,
        List.flatten_cons, ih.1, ih.2, and_self]

/-- The content that `processReplacement` returns is the scanned content with each match
replaced by what the callback returns for it, and the errors are those of the matches, in
order. -/
theorem processReplacement_output (cfg : Config) (lk : Lookup)
    (content filename componentName : String) (componentDepends : List String)
    (kv : GoMap String) (replacement : String → List Piece) (strip : String → String) :
    (processReplacement cfg lk content filename componentName componentDepends kv replacement
        strip).1.1
      = concatStrings ((replacement content).map
          (renderPiece (replaceVariable cfg lk filename componentName componentDepends kv
            strip))) ∧
    (processReplacement cfg lk content filename componentName componentDepends kv replacement
        strip).1.2
      = ((replacement content).map
          (pieceErrs (replaceVariable cfg lk filename componentName componentDepends kv
            strip))).flatten := by
  unfold processReplacement
  exact replaceMatches_spec _ _

theorem stripCurly_bracket (body : String) :
    stripCurly ("$\x7b" ++ body ++ "\x7d") = body := by
  apply String.ext
  have hd : ("$\x7b" ++ body ++ "\x7d").data = '$' :: '\x7b' :: (body.data ++ ['\x7d']) := by
    rw [String.data_append, String.data_append, List.append_assoc]
    rfl
  simp only [stripCurly, hd, List.drop_succ_cons, List.drop_zero, List.dropLast_concat]

theorem stripMustache_braces (body : String) :
    stripMustache ("\x7b\x7b" ++ body ++ "\x7d\x7d") = body := by
  apply String.ext
  have hd : ("\x7b\x7b" ++ body ++ "\x7d\x7d").data
      = '\x7b' :: '\x7b' :: ((body.data ++ ['\x7d']) ++ ['\x7d']) := by
    rw [String.data_append, String.data_append, List.append_assoc, List.append_assoc]
    rfl
  simp only [stripMustache, hd, List.drop_succ_cons, List.drop_zero, List.dropLast_concat]

/-- What the callback returns for a match whose variable has a value, by encoding. -/
theorem replaceVariable_found (cfg : Config) (lk : Lookup) (filename componentName : String)
    (componentDepends : List String) (kv : GoMap String) (strip : String → String)
    (m name enc v : String) (hsplit : valueEncoding (strip m) = (name, enc))
    (hv : lk.FindValue name componentName componentDepends kv = some v) :
    (replaceVariable cfg lk filename componentName componentDepends kv strip m).errs = [] ∧
    (replaceVariable cfg lk filename componentName componentDepends kv strip m).substitution =
      if enc = "" then TrimSpace v
      else if enc = "base64" then String.mk (base64Encode (charsBytes v.data))
      else if enc = "unbase64" then
        match base64Decode v.data with
        | some bytes => String.mk (bytesChars bytes)
        | none => v
      else v := by
  simp only [replaceVariable, hsplit, hv, Option.getD_some]
  by_cases h0 : enc = ""
  · simp [h0]
  · by_cases h1 : enc = "base64"
    · simp [h1]
    · by_cases h2 : enc = "unbase64"
      · cases hd : base64Decode v.data <;> simp [h2, hd]
      · simp [h0, h1, h2]

/-- What the callback returns for a match whose variable has no value. -/
theorem replaceVariable_unknown (cfg : Config) (lk : Lookup) (filename componentName : String)
    (componentDepends : List String) (kv : GoMap String) (strip : String → String)
    (m name enc : String) (hsplit : valueEncoding (strip m) = (name, enc))
    (hv : lk.FindValue name componentName componentDepends kv = none) :
    (replaceVariable cfg lk filename componentName componentDepends kv strip m).errs
      = ["Template `" ++ filename ++ "` refer to unknown substitution `" ++ name ++ "`"] ∧
    (replaceVariable cfg lk filename componentName componentDepends kv strip m).substitution =
      if enc = "base64" then "KHVua25vd24p" else "(unknown)" := by
  have htrim : TrimSpace "(unknown)" = "(unknown)" := by decide
  have hdec : base64Decode "(unknown)".data = none := by decide
  have henc : String.mk (base64Encode (charsBytes "(unknown)".data)) = "KHVua25vd24p" := by
    decide
  simp only [replaceVariable, hsplit, hv, Option.getD_none]
  by_cases h0 : enc = ""
  · simp [h0, htrim]
  · by_cases h1 : enc = "base64"
    · simp [h1, henc]
    · by_cases h2 : enc = "unbase64"
      · simp [h2, hdec]
      · simp [h0, h1, h2]

theorem scanCurly_brace (rest : List Char) :
    ∀ (body acc lit : List Char), (∀ c ∈ body, isIdentifierChar c = true) → acc ++ body ≠ [] →
      scanCurly (body ++ '\x7d' :: rest) lit (ScanState.brace acc) =
        flushText lit ++
          Piece.hit (String.mk ('$' :: '\x7b' :: (acc ++ body) ++ ['\x7d'])) ::
            scanCurly rest [] ScanState.text := by
  intro body
  induction body with
  | nil =>
    intro acc lit _ hne
    have hacc : acc ≠ [] := by simpa using hne
    have hclose : isIdentifierChar '\x7d' = false := by decide
    simp only [List.nil_append, scanCurly, hclose, Bool.false_eq_true, if_false, hacc, ne_eq,
      not_false_eq_true, and_self, if_true, List.append_nil]
  | cons c body' ih =>
    intro acc lit hid hne
    have hc : isIdentifierChar c = true := hid c (List.mem_cons_self _ _)
    have hrec := ih (acc ++ [c]) lit (fun x hx => hid x (List.mem_cons_of_mem _ hx)) (by simp)
    have hstep : scanCurly (c :: (body' ++ '\x7d' :: rest)) lit (ScanState.brace acc)
        = scanCurly (body' ++ '\x7d' :: rest) lit (ScanState.brace (acc ++ [c])) := by
      simp only [scanCurly, hc, if_true]
    rw [List.cons_append, hstep, hrec]
    simp only [List.append_assoc, List.singleton_append]

/-- A content that is one bracket placeholder is scanned as one match. -/
theorem curlyReplacement_single (body : String) (hne : body ≠ "")
    (hid : ∀ c ∈ body.data, isIdentifierChar c = true) :
    curlyReplacement ("$\x7b" ++ body ++ "\x7d") = [Piece.hit ("$\x7b" ++ body ++ "\x7d")] := by
  have hd : ("$\x7b" ++ body ++ "\x7d").data = '$' :: '\x7b' :: (body.data ++ ['\x7d']) := by
    rw [String.data_append, String.data_append, List.append_assoc]
    rfl
  have hb : body.data ≠ [] := fun h => hne (String.ext (by simpa using h))
  have hdollar : ('$' : Char) = '$' := rfl
  unfold curlyReplacement
  rw [hd]
  have h1 : scanCurly ('$' :: '\x7b' :: (body.data ++ ['\x7d'])) [] ScanState.text
      = scanCurly (body.data ++ '\x7d' :: []) [] (ScanState.brace []) := by
    simp only [scanCurly, if_true]
  rw [h1, scanCurly_brace [] body.data [] [] hid (by simpa using hb)]
  have hs : String.mk ('$' :: '\x7b' :: ([] ++ body.data) ++ ['\x7d'])
      = "$\x7b" ++ body ++ "\x7d" := by
    apply String.ext
    rw [hd]
    simp
  rw [hs]
  simp [flushText, scanCurly]

/-- The run of `processReplacement` over a content that is one bracket placeholder. -/
theorem processReplacement_single (cfg : Config) (lk : Lookup)
    (filename componentName : String) (componentDepends : List String) (kv : GoMap String)
    (body : String) (hne : body ≠ "") (hid : ∀ c ∈ body.data, isIdentifierChar c = true) :
    (processReplacement cfg lk ("$\x7b" ++ body ++ "\x7d") filename componentName
        componentDepends kv curlyReplacement stripCurly).1
      = ((replaceVariable cfg lk filename componentName componentDepends kv stripCurly
            ("$\x7b" ++ body ++ "\x7d")).substitution,
          (replaceVariable cfg lk filename componentName componentDepends kv stripCurly
            ("$\x7b" ++ body ++ "\x7d")).errs) := by
  have h := processReplacement_output cfg lk ("$\x7b" ++ body ++ "\x7d") filename componentName
    componentDepends kv curlyReplacement stripCurly
  rw [curlyReplacement_single body hne hid] at h
  simp only [List.map_cons, List.map_nil, concatStrings, renderPiece, pieceErrs,
    List.flatten_cons, List.flatten_nil, List.append_nil, String.append_empty] at h
  exact Prod.ext h.1 h.2

theorem identifier_append (a b : String) (ha : ∀ c ∈ a.data, isIdentifierChar c = true)
    (hb : ∀ c ∈ b.data, isIdentifierChar c = true) :
    ∀ c ∈ (a ++ b).data, isIdentifierChar c = true := by
  intro c hc
  rw [String.data_append] at hc
  rcases List.mem_append.1 hc with h | h
  · exact ha c h
  · exact hb c h

theorem append_ne_empty (a b : String) (hb : b ≠ "") : a ++ b ≠ "" := by
  intro h
  apply hb
  apply String.ext
  have := congrArg String.data h
  rw [String.data_append] at this
  exact (List.append_eq_nil.1 this).2

/-- The encoding round trip in the embedding that keeps values as text. For a variable `p`
(an identifier without `/`) that has the text `v` as its value, the content `${p/base64}`
renders as the standard base64 encoding of the bytes of `v`; for a variable `q` that has that
encoding as its value, the content `${q/unbase64}` renders as `v`; in both cases no error is
recorded. -/
theorem processReplacement_base64_roundtrip (cfg : Config) (lk : Lookup)
    (filename componentName : String) (componentDepends : List String) (kv : GoMap String)
    (p q v : String)
    (hp : p ≠ "") (hps : '/' ∉ p.data) (hpi : ∀ c ∈ p.data, isIdentifierChar c = true)
    (hq : q ≠ "") (hqs : '/' ∉ q.data) (hqi : ∀ c ∈ q.data, isIdentifierChar c = true)
    (hpv : lk.FindValue p componentName componentDepends kv = some v)
    (hqv : lk.FindValue q componentName componentDepends kv
      = some (String.mk (base64Encode (charsBytes v.data)))) :
    (processReplacement cfg lk ("$\x7b" ++ (p ++ "/" ++ "base64") ++ "\x7d") filename
        componentName componentDepends kv curlyReplacement stripCurly).1
      = (String.mk (base64Encode (charsBytes v.data)), []) ∧
    (processReplacement cfg lk ("$\x7b" ++ (q ++ "/" ++ "unbase64") ++ "\x7d") filename
        componentName componentDepends kv curlyReplacement stripCurly).1
      = (v, []) ∧
    (∀ (strip : String → String) (m : String), valueEncoding (strip m) = (p, "base64") →
      (replaceVariable cfg lk filename componentName componentDepends kv strip m).substitution
          = String.mk (base64Encode (charsBytes v.data)) ∧
        (replaceVariable cfg lk filename componentName componentDepends kv strip m).errs = []) ∧
    (∀ (strip : String → String) (m : String), valueEncoding (strip m) = (q, "unbase64") →
      (replaceVariable cfg lk filename componentName componentDepends kv strip m).substitution
          = v ∧
        (replaceVariable cfg lk filename componentName componentDepends kv strip m).errs
          = []) := by
  have hdec : base64Decode (String.mk (base64Encode (charsBytes v.data))).data
      = some (charsBytes v.data) := base64Decode_encode _ (charsBytes_lt _)
  have hback : String.mk (bytesChars (charsBytes v.data)) = v := by
    rw [bytesChars_charsBytes]
  have hE : ∀ (strip : String → String) (m : String), valueEncoding (strip m) = (p, "base64") →
      (replaceVariable cfg lk filename componentName componentDepends kv strip m).substitution
          = String.mk (base64Encode (charsBytes v.data)) ∧
        (replaceVariable cfg lk filename componentName componentDepends kv strip m).errs
          = [] := by
    intro strip m hm
    have h := replaceVariable_found cfg lk filename componentName componentDepends kv strip m p
      "base64" v hm hpv
    refine ⟨?_, h.1⟩
    rw [h.2]
    simp
  have hD : ∀ (strip : String → String) (m : String),
      valueEncoding (strip m) = (q, "unbase64") →
      (replaceVariable cfg lk filename componentName componentDepends kv strip m).substitution
          = v ∧
        (replaceVariable cfg lk filename componentName componentDepends kv strip m).errs
          = [] := by
    intro strip m hm
    have h := replaceVariable_found cfg lk filename componentName componentDepends kv strip m q
      "unbase64" _ hm hqv
    refine ⟨?_, h.1⟩
    rw [h.2, hdec]
    simpa using hback
  have hb64 : ∀ c ∈ ("/" ++ "base64" : String).data, isIdentifierChar c = true := by decide
  have hu64 : ∀ c ∈ ("/" ++ "unbase64" : String).data, isIdentifierChar c = true := by decide
  refine ⟨?_, ?_, hE, hD⟩
  · have hsplit : valueEncoding (stripCurly ("$\x7b" ++ (p ++ "/" ++ "base64") ++ "\x7d"))
        = (p, "base64") := by
      rw [stripCurly_bracket]
      exact valueEncoding_name_enc p "base64" hp hps (by decide)
    rw [processReplacement_single cfg lk filename componentName componentDepends kv _
      (append_ne_empty _ _ (by decide))
      (by
        rw [String.append_assoc]
        exact identifier_append _ _ hpi hb64)]
    exact Prod.ext (hE _ _ hsplit).1 (hE _ _ hsplit).2
  · have hsplit : valueEncoding (stripCurly ("$\x7b" ++ (q ++ "/" ++ "unbase64") ++ "\x7d"))
        = (q, "unbase64") := by
      rw [stripCurly_bracket]
      exact valueEncoding_name_enc q "unbase64" hq hqs (by decide)
    rw [processReplacement_single cfg lk filename componentName componentDepends kv _
      (append_ne_empty _ _ (by decide))
      (by
        rw [String.append_assoc]
        exact identifier_append _ _ hqi hu64)]
    exact Prod.ext (hD _ _ hsplit).1 (hD _ _ hsplit).2

/-- An evaluation of the round trip on text: `p = hello` renders `aGVsbG8=`, and
`q = aGVsbG8=` renders `hello`. -/
theorem processReplacement_base64_roundtrip_witness :
    specLookup.FindValue "p" "c" [] [("p", "hello"), ("q", "aGVsbG8=")] = some "hello" ∧
      specLookup.FindValue "q" "c" [] [("p", "hello"), ("q", "aGVsbG8=")]
        = some (String.mk (base64Encode (charsBytes "hello".data))) ∧
      (processReplacement ⟨false, false, false, false⟩ specLookup
          ("$\x7b" ++ ("p" ++ "/" ++ "base64") ++ "\x7d") "f" "c" [] [("p", "hello"), ("q", "aGVsbG8=")]
          curlyReplacement stripCurly).1 = ("aGVsbG8=", []) ∧
      (processReplacement ⟨false, false, false, false⟩ specLookup
          ("$\x7b" ++ ("q" ++ "/" ++ "unbase64") ++ "\x7d") "f" "c" []
          [("p", "hello"), ("q", "aGVsbG8=")] curlyReplacement stripCurly).1 = ("hello", []) :=
  ⟨by decide, by decide,
    (processReplacement_base64_roundtrip ⟨false, false, false, false⟩ specLookup "f" "c" []
      [("p", "hello"), ("q", "aGVsbG8=")] "p" "q" "hello" (by decide) (by decide) (by decide)
      (by decide) (by decide) (by decide) (by decide) (by decide)).1.trans (by decide),
    (processReplacement_base64_roundtrip ⟨false, false, false, false⟩ specLookup "f" "c" []
      [("p", "hello"), ("q", "aGVsbG8=")] "p" "q" "hello" (by decide) (by decide) (by decide)
      (by decide) (by decide) (by decide) (by decide) (by decide)).2.1⟩

theorem valueEncoding_eta (v : String) :
    valueEncoding v = ((valueEncoding v).1, (valueEncoding v).2) := rfl

/-- The number of errors is the number of matches whose variable has no value. -/
theorem pieceErrs_length (cfg : Config) (lk : Lookup) (filename componentName : String)
    (componentDepends : List String) (kv : GoMap String) (strip : String → String) :
    ∀ pieces : List Piece,
      ((pieces.map (pieceErrs
          (replaceVariable cfg lk filename componentName componentDepends kv strip))).flatten).length
        = ((hits pieces).filter (fun m =>
            (lk.FindValue (valueEncoding (strip m)).1 componentName componentDepends
              kv).isNone)).length := by
  intro pieces
  induction pieces with
  | nil => rfl
  | cons piece rest ih =>
    cases piece with
    | text s => simpa [pieceErrs, hits] using ih
    | hit m =>
      simp only [List.map_cons, List.flatten_cons, List.length_append, ih, hits,
        List.filter_cons, pieceErrs]
      cases hv : lk.FindValue (valueEncoding (strip m)).1 componentName componentDepends kv with
      | none =>
        rw [(replaceVariable_unknown cfg lk filename componentName componentDepends kv strip m
          _ _ (valueEncoding_eta _) hv).1]
        simp
        omega
      | some v =>
        rw [(replaceVariable_found cfg lk filename componentName componentDepends kv strip m
          _ _ v (valueEncoding_eta _) hv).1]
        simp

/-- Counterexample to C12 as stated: the variable of `${missing/base64}` has no value, and
the placeholder is replaced by the base64 encoding of `(unknown)`, not by `(unknown)`. -/
theorem processReplacement_unknown_counterexample :
    specLookup.FindValue "missing" "c" [] [] = none ∧
      (processReplacement ⟨false, false, false, false⟩ specLookup "$\x7bmissing/base64\x7d" "f" "c"
          [] [] curlyReplacement stripCurly).1
        = ("KHVua25vd24p", ["Template `f` refer to unknown substitution `missing`"]) := by
  decide

/-- C12 (amended): unknown variables. For every content and binding map, a placeholder whose
variable has no value is replaced by `(unknown)` (by the base64 encoding of `(unknown)`,
`KHVua25vd24p`, when it asks for `base64`) and adds exactly one error; a placeholder whose
variable has a value adds no error and is substituted as usual; the errors returned are as
many as the placeholder occurrences without a value; and a content that is the single
placeholder `${name}` of a variable without a value renders `(unknown)` with one error. -/
theorem processReplacement_unknown (cfg : Config) (lk : Lookup)
    (content filename componentName : String) (componentDepends : List String)
    (kv : GoMap String) (replacement : String → List Piece) (strip : String → String) :
    (processReplacement cfg lk content filename componentName componentDepends kv replacement
        strip).1.1
      = concatStrings ((replacement content).map
          (renderPiece (replaceVariable cfg lk filename componentName componentDepends kv
            strip))) ∧
    (processReplacement cfg lk content filename componentName componentDepends kv replacement
        strip).1.2.length
      = ((hits (replacement content)).filter (fun m =>
          (lk.FindValue (valueEncoding (strip m)).1 componentName componentDepends
            kv).isNone)).length ∧
    (∀ m, lk.FindValue (valueEncoding (strip m)).1 componentName componentDepends kv = none →
      (replaceVariable cfg lk filename componentName componentDepends kv strip m).substitution
          = (if (valueEncoding (strip m)).2 = "base64" then "KHVua25vd24p" else "(unknown)") ∧
        (replaceVariable cfg lk filename componentName componentDepends kv strip m).errs
          = ["Template `" ++ filename ++ "` refer to unknown substitution `" ++
              (valueEncoding (strip m)).1 ++ "`"]) ∧
    (∀ m v, lk.FindValue (valueEncoding (strip m)).1 componentName componentDepends kv
        = some v →
      (replaceVariable cfg lk filename componentName componentDepends kv strip m).errs = [] ∧
        (replaceVariable cfg lk filename componentName componentDepends kv strip m).substitution
          = (if (valueEncoding (strip m)).2 = "" then TrimSpace v
            else if (valueEncoding (strip m)).2 = "base64" then
              String.mk (base64Encode (charsBytes v.data))
            else if (valueEncoding (strip m)).2 = "unbase64" then
              match base64Decode v.data with
              | some bytes => String.mk (bytesChars bytes)
              | none => v
            else v)) ∧
    (∀ name : String, name ≠ "" → '/' ∉ name.data →
      (∀ c ∈ name.data, isIdentifierChar c = true) →
      lk.FindValue name componentName componentDepends kv = none →
      (processReplacement cfg lk ("$\x7b" ++ name ++ "\x7d") filename componentName
          componentDepends kv curlyReplacement stripCurly).1
        = ("(unknown)",
            ["Template `" ++ filename ++ "` refer to unknown substitution `" ++ name ++
              "`"])) := by
  have hout := processReplacement_output cfg lk content filename componentName
    componentDepends kv replacement strip
  refine ⟨hout.1, ?_, ?_, ?_, ?_⟩
  · rw [hout.2]
    exact pieceErrs_length cfg lk filename componentName componentDepends kv strip _
  · intro m hv
    have h := replaceVariable_unknown cfg lk filename componentName componentDepends kv strip m
      _ _ (valueEncoding_eta _) hv
    exact ⟨h.2, h.1⟩
  · intro m v hv
    exact replaceVariable_found cfg lk filename componentName componentDepends kv strip m
      _ _ v (valueEncoding_eta _) hv
  · intro name hne hs hid hv
    have hplain : valueEncoding (stripCurly ("$\x7b" ++ name ++ "\x7d")) = (name, "") := by
      rw [stripCurly_bracket]
      exact valueEncoding_plain name
        (Or.inl (by have := (stringsIndex_neg name.data '/').2 hs; omega))
    rw [processReplacement_single cfg lk filename componentName componentDepends kv name hne hid]
    have h := replaceVariable_unknown cfg lk filename componentName componentDepends kv
      stripCurly _ name "" hplain hv
    rw [h.1, h.2]
    simp

/-- C13: an encoding that is not recognised is a no-op. For a variable `name` (not empty,
without `/`) that has the value `v` and an encoding `enc` that is not empty and is neither
`base64` nor `unbase64`, the placeholders `${name/enc}` and `{{name/enc}}` are replaced by
`v` unchanged, no error is recorded and the warning of an unknown encoding is emitted; the
content that is the placeholder `${name/enc}` renders `v`. -/
theorem processReplacement_unknown_encoding (cfg : Config) (lk : Lookup)
    (filename componentName : String) (componentDepends : List String) (kv : GoMap String)
    (name enc v : String) (hn : name ≠ "") (hs : '/' ∉ name.data) (he : enc ≠ "")
    (hb : enc ≠ "base64") (hu : enc ≠ "unbase64")
    (hv : lk.FindValue name componentName componentDepends kv = some v) :
    (∀ (strip : String → String) (m : String),
      (strip = stripCurly ∧ m = "$\x7b" ++ (name ++ "/" ++ enc) ++ "\x7d") ∨
        (strip = stripMustache ∧ m = "\x7b\x7b" ++ (name ++ "/" ++ enc) ++ "\x7d\x7d") ∨
        valueEncoding (strip m) = (name, enc) →
      (replaceVariable cfg lk filename componentName componentDepends kv strip m).substitution
          = v ∧
        (replaceVariable cfg lk filename componentName componentDepends kv strip m).errs = [] ∧
        Event.warn "Unknown encoding `%s` processing template `%s` substitution `%s`"
            [enc, filename, name]
          ∈ (replaceVariable cfg lk filename componentName componentDepends kv strip
              m).trace) ∧
    ((∀ c ∈ name.data, isIdentifierChar c = true) →
      (∀ c ∈ enc.data, isIdentifierChar c = true) →
      (processReplacement cfg lk ("$\x7b" ++ (name ++ "/" ++ enc) ++ "\x7d") filename
          componentName componentDepends kv curlyReplacement stripCurly).1 = (v, [])) := by
  have hsplit := valueEncoding_name_enc name enc hn hs he
  have hcall : ∀ (strip : String → String) (m : String),
      valueEncoding (strip m) = (name, enc) →
      (replaceVariable cfg lk filename componentName componentDepends kv strip m).substitution
          = v ∧
        (replaceVariable cfg lk filename componentName componentDepends kv strip m).errs = [] ∧
        Event.warn "Unknown encoding `%s` processing template `%s` substitution `%s`"
            [enc, filename, name]
          ∈ (replaceVariable cfg lk filename componentName componentDepends kv strip
              m).trace := by
    intro strip m hm
    have h := replaceVariable_found cfg lk filename componentName componentDepends kv strip m
      name enc v hm hv
    refine ⟨?_, h.1, ?_⟩
    · rw [h.2]
      simp [he, hb, hu]
    · simp [replaceVariable, hm, hv, he, hb, hu]
  refine ⟨?_, ?_⟩
  · intro strip m hm
    rcases hm with ⟨rfl, rfl⟩ | ⟨rfl, rfl⟩ | hm
    · exact hcall _ _ (by rw [stripCurly_bracket]; exact hsplit)
    · exact hcall _ _ (by rw [stripMustache_braces]; exact hsplit)
    · exact hcall _ _ hm
  · intro hni hei
    have hslash : ∀ c ∈ ("/" : String).data, isIdentifierChar c = true := by decide
    rw [processReplacement_single cfg lk filename componentName componentDepends kv _
      (append_ne_empty _ _ he) (identifier_append _ _ (identifier_append _ _ hni hslash) hei)]
    have h := hcall stripCurly ("$\x7b" ++ (name ++ "/" ++ enc) ++ "\x7d")
      (by rw [stripCurly_bracket]; exact hsplit)
    exact Prod.ext h.1 h.2.1

/-- Witness of C13: `${s/hex}` with `s` bound to a padded value. -/
theorem processReplacement_unknown_encoding_witness :
    specLookup.FindValue "s" "c" [] [("s", " v ")] = some " v " ∧
      (processReplacement ⟨false, false, false, false⟩ specLookup
          ("$\x7b" ++ ("s" ++ "/" ++ "hex") ++ "\x7d") "f" "c" [] [("s", " v ")]
          curlyReplacement stripCurly).1 = (" v ", []) :=
  ⟨by decide,
    (processReplacement_unknown_encoding ⟨false, false, false, false⟩ specLookup "f" "c" []
      [("s", " v ")] "s" "hex" " v " (by decide) (by decide) (by decide) (by decide)
      (by decide) (by decide)).2 (by decide) (by decide)⟩

/-- An evaluation of `processReplacement` on the two dialects. -/
theorem processReplacement_example :
    processReplacement ⟨false, false, false, false⟩ specLookup
        "a=$\x7bp/base64\x7d b=$\x7bq/unbase64\x7d c=$\x7bunknown\x7d d=$\x7bs/hex\x7d $\x7b\x7d"
        "f" "c" [] [("p", "hello"), ("q", "aGVsbG8="), ("s", " v ")] curlyReplacement stripCurly
      = (("a=aGVsbG8= b=hello c=(unknown) d= v  $\x7b\x7d",
          ["Template `f` refer to unknown substitution `unknown`"]),
        [Event.warn "Unknown encoding `%s` processing template `%s` substitution `%s`"
          ["hex", "f", "s"]]) ∧
    processReplacement ⟨false, false, false, false⟩ specLookup
        "\x7b\x7b\x7bp\x7d\x7d \x7b\x7bs\x7d\x7d \x7b\x7bs\x7d" "f" "c" [] [("p", "hello"), ("s", " v ")]
        mustacheReplacement stripMustache
      = (("\x7bhello v \x7b\x7bs\x7d", []), []) ∧
    processReplacement ⟨false, false, false, false⟩ specLookup "plain" "f" "c" [] []
        curlyReplacement stripCurly
      = (("plain", []), [Event.warn "No substitutions found in template `%s`" ["f"]]) := by
  decide

/-! ## `calculateOptionalFalseParameters` -/

theorem mem_mapEntries {V : Type} (m : GoMap V) (k : String) (v : V) :
    (k, v) ∈ mapEntries m ↔ mapGet m k = some v := by
  unfold mapEntries
  rw [List.mem_filterMap]
  constructor
  · rintro ⟨k', _, hk'⟩
    cases hg : mapGet m k' with
    | none => simp [hg] at hk'
    | some v' =>
      simp only [hg, Option.map_some', Option.some.injEq, Prod.mk.injEq] at hk'
      rw [← hk'.1, ← hk'.2]
      exact hg
  · intro h
    exact ⟨k, (mem_mapKeys m k).2 (by simp [h]), by simp [h]⟩

theorem scanFalseParameters_spec (componentName term optionalFor : String) :
    ∀ params : LockedParameters,
      ((scanFalseParameters componentName term optionalFor params).parameterExists = true ↔
        ∃ p ∈ params, p.Name = term ∧ (p.Component = "" ∨ p.Component = componentName)) ∧
      ∀ x, x ∈ (scanFalseParameters componentName term optionalFor params).appended ↔
        ∃ p ∈ params, p.Name = term ∧ (p.Component = "" ∨ p.Component = componentName) ∧
          p.Value ∈ falseParameterValues ∧ x = p.QName := by
  intro params
  induction params with
  | nil => simp [scanFalseParameters]
  | cons p rest ih =>
    obtain ⟨ih1, ih2⟩ := ih
    by_cases hm : p.Name = term ∧ (p.Component = "" ∨ p.Component = componentName)
    · by_cases hf : Contains falseParameterValues p.Value = true
      · have hf' := (Contains_iff _ _).1 hf
        have e1 : (scanFalseParameters componentName term optionalFor (p :: rest)).parameterExists
            = true := by
          simp only [scanFalseParameters, if_pos hm, if_pos hf]
        have e2 : (scanFalseParameters componentName term optionalFor (p :: rest)).appended
            = p.QName :: (scanFalseParameters componentName term optionalFor rest).appended := by
          simp only [scanFalseParameters, if_pos hm, if_pos hf]
        rw [e1, e2]
        refine ⟨⟨fun _ => ⟨p, List.mem_cons_self _ _, hm⟩, fun _ => rfl⟩, fun x => ?_⟩
        rw [List.mem_cons, ih2 x]
        constructor
        · rintro (h | ⟨q, hq, h⟩)
          · exact ⟨p, List.mem_cons_self _ _, hm.1, hm.2, hf', h⟩
          · exact ⟨q, List.mem_cons_of_mem _ hq, h⟩
        · rintro ⟨q, hq, h⟩
          rcases List.mem_cons.1 hq with rfl | hq'
          · exact Or.inl h.2.2.2
          · exact Or.inr ⟨q, hq', h⟩
      · have hf' : p.Value ∉ falseParameterValues := fun h => hf ((Contains_iff _ _).2 h)
        have e1 : (scanFalseParameters componentName term optionalFor (p :: rest)).parameterExists
            = true := by
          simp only [scanFalseParameters, if_pos hm, if_neg hf]
        have e2 : (scanFalseParameters componentName term optionalFor (p :: rest)).appended
            = (scanFalseParameters componentName term optionalFor rest).appended := by
          simp only [scanFalseParameters, if_pos hm, if_neg hf]
        rw [e1, e2]
        refine ⟨⟨fun _ => ⟨p, List.mem_cons_self _ _, hm⟩, fun _ => rfl⟩, fun x => ?_⟩
        rw [ih2 x]
        constructor
        · rintro ⟨q, hq, h⟩
          exact ⟨q, List.mem_cons_of_mem _ hq, h⟩
        · rintro ⟨q, hq, h⟩
          rcases List.mem_cons.1 hq with rfl | hq'
          · exact absurd h.2.2.1 hf'
          · exact ⟨q, hq', h⟩
    · have e : scanFalseParameters componentName term optionalFor (p :: rest)
          = scanFalseParameters componentName term optionalFor rest := by
        simp only [scanFalseParameters, if_neg hm]
      rw [e]
      refine ⟨?_, fun x => ?_⟩
      · rw [ih1]
        constructor
        · rintro ⟨q, hq, h⟩
          exact ⟨q, List.mem_cons_of_mem _ hq, h⟩
        · rintro ⟨q, hq, h⟩
          rcases List.mem_cons.1 hq with rfl | hq'
          · exact absurd h hm
          · exact ⟨q, hq', h⟩
      · rw [ih2 x]
        constructor
        · rintro ⟨q, hq, h⟩
          exact ⟨q, List.mem_cons_of_mem _ hq, h⟩
        · rintro ⟨q, hq, h⟩
          rcases List.mem_cons.1 hq with rfl | hq'
          · exact absurd ⟨h.1, h.2.1⟩ hm
          · exact ⟨q, hq', h⟩

theorem scanOptionalFor_spec (componentName term : String) (params : LockedParameters) :
    ∀ (list : List String) (x : String),
      x ∈ (scanOptionalFor componentName term params list).1 ↔
        ∃ optionalFor ∈ list, addedFor componentName term optionalFor params x := by
  intro list
  induction list with
  | nil => intro x; simp [scanOptionalFor]
  | cons optionalFor rest ih =>
    intro x
    obtain ⟨hs1, hs2⟩ := scanFalseParameters_spec componentName term optionalFor params
    have hhead : (optionalFor = "*" ∨ optionalFor = componentName) →
        (x ∈ (scanFalseParameters componentName term optionalFor params).appended ++
            (if (!(scanFalseParameters componentName term optionalFor params).parameterExists
                && optionalFor != "*") = true then [term] else []) ↔
          addedFor componentName term optionalFor params x) := by
      intro ho
      unfold addedFor
      rw [List.mem_append, hs2 x]
      by_cases hex : (scanFalseParameters componentName term optionalFor params).parameterExists
          = true
      · have hex' := hs1.1 hex
        have habs : (if (!(scanFalseParameters componentName term optionalFor
            params).parameterExists && optionalFor != "*") = true then [term] else [])
            = ([] : List String) := by
          rw [hex]
          rfl
        rw [habs]
        constructor
        · rintro (h | h)
          · exact ⟨ho, Or.inl h⟩
          · cases h
        · rintro ⟨_, h | ⟨hno, _⟩⟩
          · exact Or.inl h
          · obtain ⟨q, hq, h⟩ := hex'
            exact absurd h (hno q hq)
      · have hno : ∀ p ∈ params,
            ¬ (p.Name = term ∧ (p.Component = "" ∨ p.Component = componentName)) :=
          fun q hq h => hex (hs1.2 ⟨q, hq, h⟩)
        have hexf : (scanFalseParameters componentName term optionalFor params).parameterExists
            = false := by simpa using hex
        by_cases hstar : optionalFor = "*"
        · have habs : (if (!(scanFalseParameters componentName term optionalFor
              params).parameterExists && optionalFor != "*") = true then [term] else [])
              = ([] : List String) := by
            rw [hexf, hstar]
            rfl
          rw [habs]
          constructor
          · rintro (h | h)
            · exact ⟨ho, Or.inl h⟩
            · cases h
          · rintro ⟨_, h | ⟨_, hne, _⟩⟩
            · exact Or.inl h
            · exact absurd hstar hne
        · have hb : (optionalFor != "*") = true := by simpa using hstar
          have habs : (if (!(scanFalseParameters componentName term optionalFor
              params).parameterExists && optionalFor != "*") = true then [term] else [])
              = [term] := by
            rw [hexf, hb]
            rfl
          rw [habs]
          constructor
          · rintro (h | h)
            · exact ⟨ho, Or.inl h⟩
            · exact ⟨ho, Or.inr ⟨hno, hstar, List.mem_singleton.1 h⟩⟩
          · rintro ⟨_, h | ⟨_, _, h⟩⟩
            · exact Or.inl h
            · exact Or.inr (List.mem_singleton.2 h)
    by_cases ho : optionalFor = "*" ∨ optionalFor = componentName
    · have e : (scanOptionalFor componentName term params (optionalFor :: rest)).1
          = ((scanFalseParameters componentName term optionalFor params).appended ++
              (if (!(scanFalseParameters componentName term optionalFor params).parameterExists
                  && optionalFor != "*") = true then [term] else [])) ++
              (scanOptionalFor componentName term params rest).1 := by
        simp only [scanOptionalFor, if_pos ho]
      rw [e, List.mem_append, hhead ho, ih x]
      simp only [List.mem_cons, exists_eq_or_imp]
    · have e : scanOptionalFor componentName term params (optionalFor :: rest)
          = scanOptionalFor componentName term params rest := by
        simp only [scanOptionalFor, if_neg ho]
      rw [e, ih x]
      simp only [List.mem_cons, exists_eq_or_imp]
      constructor
      · exact fun h => Or.inr h
      · rintro (h | h)
        · exact absurd h.1 ho
        · exact h

theorem scanOptionalTerms_spec (componentName : String) (params : LockedParameters) :
    ∀ (entries : List (String × List String)) (x : String),
      x ∈ (scanOptionalTerms componentName params entries).1 ↔
        ∃ term list, (term, list) ∈ entries ∧ stringsContains term "." = true ∧
          ∃ optionalFor ∈ list, addedFor componentName term optionalFor params x := by
  intro entries
  induction entries with
  | nil => intro x; simp [scanOptionalTerms]
  | cons entry rest ih =>
    intro x
    obtain ⟨term, list⟩ := entry
    by_cases hdot : stringsContains term "." = true
    · have e : (scanOptionalTerms componentName params ((term, list) :: rest)).1
          = (scanOptionalFor componentName term params list).1 ++
              (scanOptionalTerms componentName params rest).1 := by
        simp only [scanOptionalTerms, if_pos hdot]
      rw [e, List.mem_append, scanOptionalFor_spec, ih x]
      constructor
      · rintro (h | ⟨t, l, hmem, h⟩)
        · exact ⟨term, list, List.mem_cons_self _ _, hdot, h⟩
        · exact ⟨t, l, List.mem_cons_of_mem _ hmem, h⟩
      · rintro ⟨t, l, hmem, hd, h⟩
        rcases List.mem_cons.1 hmem with heq | hmem'
        · cases heq
          exact Or.inl h
        · exact Or.inr ⟨t, l, hmem', hd, h⟩
    · have e : scanOptionalTerms componentName params ((term, list) :: rest)
          = scanOptionalTerms componentName params rest := by
        simp only [scanOptionalTerms, if_neg hdot]
      rw [e, ih x]
      constructor
      · rintro ⟨t, l, hmem, h⟩
        exact ⟨t, l, List.mem_cons_of_mem _ hmem, h⟩
      · rintro ⟨t, l, hmem, hd, h⟩
        rcases List.mem_cons.1 hmem with heq | hmem'
        · cases heq
          exact absurd hd hdot
        · exact ⟨t, l, hmem', hd, h⟩

theorem containsChars_nil (l : List Char) : containsChars l [] = true := by
  cases l <;> simp [containsChars]

theorem containsChars_append (a b sub : List Char) (h : containsChars a sub = true) :
    containsChars (a ++ b) sub = true := by
  induction a with
  | nil =>
    have hs : sub = [] := by simpa [containsChars] using h
    rw [hs]
    exact containsChars_nil _
  | cons c cs ih =>
    simp only [containsChars, Bool.or_eq_true] at h
    simp only [List.cons_append, containsChars, Bool.or_eq_true]
    rcases h with h | h
    · left
      rw [List.isPrefixOf_iff_prefix] at h ⊢
      exact h.trans (List.prefix_append (c :: cs) b)
    · exact Or.inr (ih h)

theorem QName_contains (p : LockedParameter) (sub : String)
    (h : stringsContains p.Name sub = true) : stringsContains p.QName sub = true := by
  unfold LockedParameter.QName
  split
  · exact h
  · unfold stringsContains at h ⊢
    rw [String.data_append, String.data_append, List.append_assoc]
    exact containsChars_append _ _ _ h

/-- Counterexample to C15 as stated: the term `a.b` is optional for the component `c` and the
parameter `a.b` of `c` is `false`, yet the term is not in the returned list: the list holds
the qualified name of the parameter. -/
theorem calculateOptionalFalseParameters_counterexample :
    stringsContains "a.b" "." = true ∧
      mapGet [("a.b", ["c"])] "a.b" = some ["c"] ∧
      Contains falseParameterValues (LockedParameter.Value ⟨"a.b", "c", "false", ""⟩) = true ∧
      (calculateOptionalFalseParameters "c" [⟨"a.b", "c", "false", ""⟩] [("a.b", ["c"])]).1
        = ["a.b:c"] ∧
      "a.b" ∉ (calculateOptionalFalseParameters "c" [⟨"a.b", "c", "false", ""⟩]
        [("a.b", ["c"])]).1 := by
  decide

/-- C15 (amended): `calculateOptionalFalseParameters`. A string is in the returned list
exactly when some term of the optional map holds `.`, is optional for the component or for
`*`, and either the string is the qualified name of a locked parameter of that name
(stack-scoped or scoped to the component) whose value is one of the false values, or no such
parameter exists, the term is listed for the component itself, and the string is the term.
The qualified name of a stack-scoped parameter is its name, so the term itself is returned
for it; every string returned holds `.`. -/
theorem calculateOptionalFalseParameters_mem (componentName : String)
    (params : LockedParameters) (optionalRequires : GoMap (List String)) :
    (∀ x, x ∈ (calculateOptionalFalseParameters componentName params optionalRequires).1 ↔
      ∃ term list, mapGet optionalRequires term = some list ∧
        stringsContains term "." = true ∧
        ∃ optionalFor ∈ list, (optionalFor = "*" ∨ optionalFor = componentName) ∧
          ((∃ p ∈ params, p.Name = term ∧ (p.Component = "" ∨ p.Component = componentName) ∧
              p.Value ∈ ["", "false", "0", "no", "(unknown)"] ∧ x = p.QName) ∨
            ((∀ p ∈ params,
                ¬ (p.Name = term ∧ (p.Component = "" ∨ p.Component = componentName))) ∧
              optionalFor ≠ "*" ∧ x = term))) ∧
    (∀ p : LockedParameter, p.Component = "" → p.QName = p.Name) ∧
    (∀ x ∈ (calculateOptionalFalseParameters componentName params optionalRequires).1,
      stringsContains x "." = true) := by
  have hmem : ∀ x,
      x ∈ (calculateOptionalFalseParameters componentName params optionalRequires).1 ↔
      ∃ term list, mapGet optionalRequires term = some list ∧
        stringsContains term "." = true ∧
        ∃ optionalFor ∈ list, addedFor componentName term optionalFor params x := by
    intro x
    unfold calculateOptionalFalseParameters
    rw [scanOptionalTerms_spec]
    constructor
    · rintro ⟨t, l, hm, h⟩
      exact ⟨t, l, (mem_mapEntries _ _ _).1 hm, h⟩
    · rintro ⟨t, l, hm, h⟩
      exact ⟨t, l, (mem_mapEntries _ _ _).2 hm, h⟩
  refine ⟨hmem, ?_, ?_⟩
  · intro p hp
    simp [LockedParameter.QName, hp]
  · intro x hx
    obtain ⟨term, list, _, hdot, optionalFor, _, _, h⟩ := (hmem x).1 hx
    rcases h with ⟨p, _, hname, _, _, rfl⟩ | ⟨_, _, rfl⟩
    · exact QName_contains p "." (by rw [hname]; exact hdot)
    · exact hdot

/-- An evaluation of C15: a stack-scoped false value, an absent parameter of a term listed
for the component, an absent parameter of a term listed for `*`, a true value, and a term
without `.`. -/
theorem calculateOptionalFalseParameters_example :
    (calculateOptionalFalseParameters "c"
        [⟨"a.on", "", "false", ""⟩, ⟨"d.on", "", "true", ""⟩]
        [("a.on", ["*"]), ("b.on", ["c"]), ("e.on", ["*"]), ("d.on", ["c"]),
          ("kubernetes", ["c"])]).1
      = ["a.on", "b.on"] := by
  decide

/-! ## Checking requirements -/

/-- An evaluation of `checkRequiresBinVersion` and of the comparison it uses. -/
theorem checkRequiresBinVersion_example :
    versionRegexp "GitVersion:\"v" "Client Version: \x7bGitVersion:\"v1.14.3\", Go:\"go1.12\"\x7d"
        = ["GitVersion:\"v1.14.3", "1.14.3"] ∧
      checkRequiresBinVersion "1.13.5" (versionRegexp "GitVersion:\"v")
        "Client Version: \x7bGitVersion:\"v1.14.3\"\x7d" = none ∧
      checkRequiresBinVersion "1.13.5" (versionRegexp "GitVersion:\"v")
        "Client Version: \x7bGitVersion:\"v1.12.0\"\x7d"
        = some "`1.12.0` version detected; must have at least version `1.13.5`" ∧
      checkRequiresBinVersion "1.13.5" (versionRegexp "GitVersion:\"v") ""
        = some "no output" ∧
      checkRequiresBinVersion "1.13.5" (versionRegexp "GitVersion:\"v") "kubectl: not found"
        = some "no version string found" ∧
      versionNumbers "1.13.5" = [1, 13, 5] := by
  decide

/-- What `checkRequiresBinVersion` decides: an error exactly when the output is empty, or the
expression finds no version, or the version found is below the minimum in the order of
strings. -/
theorem checkRequiresBinVersion_spec (minVer : String) (verRegexp : String → List String)
    (out : String) :
    (checkRequiresBinVersion minVer verRegexp out ≠ none ↔
      out = "" ∨ (verRegexp out).length ≠ 2 ∨
        stringLt ((verRegexp out).getD 1 "") minVer = true) ∧
    (out = "" → checkRequiresBinVersion minVer verRegexp out = some "no output") ∧
    (out ≠ "" → (verRegexp out).length ≠ 2 →
      checkRequiresBinVersion minVer verRegexp out = some "no version string found") := by
  have hout : out.length = 0 ↔ out = "" := by
    show out.data.length = 0 ↔ out = ""
    rw [List.length_eq_zero]
    constructor
    · intro h
      exact String.ext h
    · intro h
      rw [h]
  simp only [checkRequiresBinVersion]
  generalize (verRegexp out).getD 1 "" = ver
  refine ⟨?_, ?_, ?_⟩
  · by_cases h0 : out.length = 0
    · simp [h0, hout.mp h0]
    · have hne : out ≠ "" := fun h => h0 (hout.mpr h)
      by_cases h2 : (verRegexp out).length = 2
      · by_cases h3 : stringLt ver minVer = true
        · simp [h0, h2, h3]
        · simp [h0, h2, h3, hne]
      · simp [h0, h2]
  · intro h
    simp [hout.mpr h]
  · intro h h2
    have h0 : ¬ out.length = 0 := fun e => h (hout.mp e)
    simp [h0, h2]

/-- C20 (divergence): the version found is compared with the minimum in the order of strings,
not as dotted numbers. With the minimum `1.13.5` of `kubectl` and the output
`GitVersion:"v1.9.0"` the expression finds the version `1.9.0`, which is lower than `1.13.5`
as a dotted number, and `checkRequiresBinVersion` returns no error; with the minimum
`239.0.0` of `gcloud` and the version `1000.0.0`, which is not lower, it returns an error. -/
theorem checkRequiresBinVersion_string_order :
    mapGet bins "kubectl" = some ["kubectl", "version", "--client"] ∧
      versionRegexp "GitVersion:\"v" "GitVersion:\"v1.9.0\""
        = ["GitVersion:\"v1.9.0", "1.9.0"] ∧
      versionLt (versionNumbers "1.9.0") (versionNumbers "1.13.5") = true ∧
      checkRequiresBinVersion "1.13.5" (versionRegexp "GitVersion:\"v")
        "GitVersion:\"v1.9.0\"" = none ∧
      versionRegexp "Google Cloud SDK " "Google Cloud SDK 1000.0.0"
        = ["Google Cloud SDK 1000.0.0", "1000.0.0"] ∧
      versionLt (versionNumbers "1000.0.0") (versionNumbers "239.0.0") = false ∧
      checkRequiresBinVersion "239.0.0" (versionRegexp "Google Cloud SDK ")
        "Google Cloud SDK 1000.0.0"
        = some "`1000.0.0` version detected; must have at least version `239.0.0`" := by
  decide

theorem checkRequiresAzure_memo {σ : Type} (cfg : Config)
    (exec : List String → GoMap String → σ → (String × Option String) × σ) (ps : Process σ) :
    (checkRequiresAzure cfg exec ps).state.requirementsVerified = ps.requirementsVerified := by
  simp only [checkRequiresAzure]
  repeat' split
  all_goals rfl

theorem checkRequiresGcp_memo {σ : Type} (cfg : Config)
    (exec : List String → GoMap String → σ → (String × Option String) × σ) (ps : Process σ) :
    (checkRequiresGcp cfg exec ps).state.requirementsVerified = ps.requirementsVerified := by
  simp only [checkRequiresGcp]
  repeat' split
  all_goals rfl

theorem copyAzureVars_memo {σ : Type} (cfg : Config) (vars : List String) :
    ∀ ps : Process σ, (copyAzureVars cfg vars ps).2.requirementsVerified
      = ps.requirementsVerified := by
  induction vars with
  | nil => intro ps; rfl
  | cons v rest ih =>
    intro ps
    simp only [copyAzureVars]
    split
    · exact (ih _).trans rfl
    · exact ih ps

theorem setupTerraformAzureOsEnv_memo {σ : Type} (cfg : Config) (ps : Process σ) :
    (setupTerraformAzureOsEnv cfg ps).2.requirementsVerified = ps.requirementsVerified := by
  simp only [setupTerraformAzureOsEnv]
  split
  · rfl
  · split
    · rfl
    · exact copyAzureVars_memo cfg _ ps

theorem checkRequire_verified {σ : Type} (cfg : Config)
    (exec : List String → GoMap String → σ → (String × Option String) × σ)
    (require : String) (ps : Process σ)
    (h : Contains ps.requirementsVerified require = true) :
    checkRequire cfg exec require ps = { value := (true, none), trace := [], state := ps } := by
  unfold checkRequire
  exact if_pos h

theorem checkRequire_state {σ : Type} (cfg : Config)
    (exec : List String → GoMap String → σ → (String × Option String) × σ)
    (require : String) (ps : Process σ) :
    ((checkRequire cfg exec require ps).value = (true, none) ∧
      ((checkRequire cfg exec require ps).state.requirementsVerified = ps.requirementsVerified ∧
          Contains ps.requirementsVerified require = true ∨
        (checkRequire cfg exec require ps).state.requirementsVerified
            = ps.requirementsVerified ++ [require] ∧
          (require = "azure" ∨
            Contains ["aws", "gcp", "gcs", "kubectl", "kubernetes", "helm", "vault"] require
              = true))) ∨
    ((checkRequire cfg exec require ps).value ≠ (true, none) ∧
      (checkRequire cfg exec require ps).state.requirementsVerified
        = ps.requirementsVerified) := by
  by_cases hm : Contains ps.requirementsVerified require = true
  · rw [checkRequire_verified cfg exec require ps hm]
    exact Or.inl ⟨rfl, Or.inl ⟨rfl, hm⟩⟩
  · have hmark : ∀ next : Process σ, next.requirementsVerified = ps.requirementsVerified →
        (markVerified next require).requirementsVerified
          = ps.requirementsVerified ++ [require] := by
      intro next hn
      simp only [markVerified, hn, if_neg hm]
    simp only [checkRequire, if_neg hm]
    by_cases ha : require = "azure"
    · simp only [if_pos ha]
      split
      · exact Or.inr ⟨by simp, checkRequiresAzure_memo cfg exec ps⟩
      · refine Or.inl ⟨rfl, Or.inr ⟨?_, Or.inl ha⟩⟩
        exact hmark (setupTerraformAzureOsEnv cfg (checkRequiresAzure cfg exec ps).state).2
          ((setupTerraformAzureOsEnv_memo cfg _).trans (checkRequiresAzure_memo cfg exec ps))
    · simp only [if_neg ha]
      by_cases hk : Contains ["aws", "gcp", "gcs", "kubectl", "kubernetes", "helm", "vault"]
          require = true
      · simp only [if_pos hk]
        split
        · exact Or.inr ⟨by simp, rfl⟩
        · split
          · split
            · exact Or.inr ⟨by simp, checkRequiresGcp_memo cfg exec _⟩
            · exact Or.inl ⟨rfl, Or.inr ⟨hmark _ (checkRequiresGcp_memo cfg exec _), Or.inr hk⟩⟩
          · exact Or.inl ⟨rfl, Or.inr ⟨hmark _ rfl, Or.inr hk⟩⟩
      · simp only [if_neg hk]
        right
        simp

theorem Contains_append (l : List String) (x term : String) :
    Contains (l ++ [x]) term = true ↔ Contains l term = true ∨ x = term := by
  rw [Contains_iff, Contains_iff, List.mem_append, List.mem_singleton]
  constructor
  · rintro (h | h)
    · exact Or.inl h
    · exact Or.inr h.symm
  · rintro (h | h)
    · exact Or.inl h
    · exact Or.inr h.symm

theorem checkRequire_grows {σ : Type} (cfg : Config)
    (exec : List String → GoMap String → σ → (String × Option String) × σ)
    (require term : String) (ps : Process σ)
    (h : Contains ps.requirementsVerified term = true) :
    Contains (checkRequire cfg exec require ps).state.requirementsVerified term = true := by
  rcases checkRequire_state cfg exec require ps with ⟨_, ⟨e, _⟩ | ⟨e, _⟩⟩ | ⟨_, e⟩
  · rw [e]; exact h
  · rw [e]; exact (Contains_append _ _ _).mpr (Or.inl h)
  · rw [e]; exact h

theorem checkRequire_passed {σ : Type} (cfg : Config)
    (exec : List String → GoMap String → σ → (String × Option String) × σ)
    (require : String) (ps : Process σ)
    (h : (checkRequire cfg exec require ps).value = (true, none)) :
    Contains (checkRequire cfg exec require ps).state.requirementsVerified require = true := by
  rcases checkRequire_state cfg exec require ps with ⟨_, ⟨e, hm⟩ | ⟨e, _⟩⟩ | ⟨hne, _⟩
  · rw [e]; exact hm
  · rw [e]; exact (Contains_append _ _ _).mpr (Or.inr rfl)
  · exact absurd h hne

theorem checkRequire_failed {σ : Type} (cfg : Config)
    (exec : List String → GoMap String → σ → (String × Option String) × σ)
    (require : String) (ps : Process σ)
    (h : (checkRequire cfg exec require ps).value ≠ (true, none)) :
    (checkRequire cfg exec require ps).state.requirementsVerified = ps.requirementsVerified := by
  rcases checkRequire_state cfg exec require ps with ⟨hv, _⟩ | ⟨_, e⟩
  · exact absurd hv h
  · exact e

theorem checkRequireAll_grows {σ : Type} (cfg : Config)
    (exec : List String → GoMap String → σ → (String × Option String) × σ)
    (term : String) (calls : List String) :
    ∀ ps : Process σ, Contains ps.requirementsVerified term = true →
      Contains (checkRequireAll cfg exec calls ps).requirementsVerified term = true := by
  induction calls with
  | nil => intro ps h; exact h
  | cons call rest ih =>
    intro ps h
    exact ih _ (checkRequire_grows cfg exec call term ps h)

theorem checkRequire_unknown {σ : Type} (cfg : Config)
    (exec : List String → GoMap String → σ → (String × Option String) × σ)
    (require : String) (ps : Process σ)
    (hm : Contains ps.requirementsVerified require = false)
    (ha : require ≠ "azure")
    (hk : Contains ["aws", "gcp", "gcs", "kubectl", "kubernetes", "helm", "vault"] require
      = false) :
    checkRequire cfg exec require ps = { value := (false, none), trace := [], state := ps } := by
  simp only [checkRequire, hm, hk, if_neg ha, Bool.false_eq_true, if_false]

theorem checkRequiresBin_exec {σ : Type} (cfg : Config)
    (exec : List String → GoMap String → σ → (String × Option String) × σ)
    (bin : List String) (ps : Process σ) :
    Event.exec bin ∈ (checkRequiresBin cfg exec bin ps).trace := by
  simp [checkRequiresBin]

theorem checkRequiresAzure_exec {σ : Type} (cfg : Config)
    (exec : List String → GoMap String → σ → (String × Option String) × σ) (ps : Process σ) :
    Event.exec ["az", "storage", "account", "list", "-o", "table"]
      ∈ (checkRequiresAzure cfg exec ps).trace := by
  have h := checkRequiresBin_exec cfg exec ["az", "storage", "account", "list", "-o", "table"] ps
  simp only [checkRequiresAzure]
  repeat' split
  all_goals first
    | exact h
    | exact List.mem_append_left _ h

/-- A call for a term that has a checker and is not in the memo runs the first command of the
check. -/
theorem checkRequire_runs {σ : Type} (cfg : Config)
    (exec : List String → GoMap String → σ → (String × Option String) × σ)
    (require : String) (ps : Process σ)
    (hm : Contains ps.requirementsVerified require = false)
    (hk : require = "azure" ∨
      Contains ["aws", "gcp", "gcs", "kubectl", "kubernetes", "helm", "vault"] require = true) :
    Event.exec (if require = "azure" then ["az", "storage", "account", "list", "-o", "table"]
        else (mapGet bins require).getD [require, "version"])
      ∈ (checkRequire cfg exec require ps).trace := by
  have hm2 : ¬ Contains ps.requirementsVerified require = true := by
    rw [hm]
    simp
  simp only [checkRequire, if_neg hm2]
  by_cases ha : require = "azure"
  · simp only [if_pos ha]
    have h := checkRequiresAzure_exec cfg exec ps
    split
    · exact h
    · exact List.mem_append_left _ h
  · have hk2 : Contains ["aws", "gcp", "gcs", "kubectl", "kubernetes", "helm", "vault"] require
        = true := by
      rcases hk with h | h
      · exact absurd h ha
      · exact h
    simp only [if_neg ha, if_pos hk2]
    have h := checkRequiresBin_exec cfg exec ((mapGet bins require).getD [require, "version"]) ps
    split
    · exact h
    · split
      · split
        · exact List.mem_append_left _ (List.mem_append_left _ h)
        · exact List.mem_append_left _ (List.mem_append_left _ h)
      · exact List.mem_append_left _ h

/-- When the first command of the check of a term fails, the check fails with the error of the
command. -/
theorem checkRequire_command_fails {σ : Type} (cfg : Config)
    (exec : List String → GoMap String → σ → (String × Option String) × σ)
    (require err : String) (ps : Process σ)
    (hm : Contains ps.requirementsVerified require = false)
    (ha : require ≠ "azure")
    (hk : Contains ["aws", "gcp", "gcs", "kubectl", "kubernetes", "helm", "vault"] require = true)
    (he : (exec ((mapGet bins require).getD [require, "version"]) ps.env ps.outside).1.2
      = some err) :
    (checkRequire cfg exec require ps).value
      = (true, some ("[" ++ Join ((mapGet bins require).getD [require, "version"]) " " ++ "]: "
          ++ err)) := by
  have hm2 : ¬ Contains ps.requirementsVerified require = true := by
    rw [hm]
    simp
  have hran : (checkRequiresBin cfg exec ((mapGet bins require).getD [require, "version"])
      ps).value.2
      = some ("[" ++ Join ((mapGet bins require).getD [require, "version"]) " " ++ "]: "
          ++ err) := by
    simp only [checkRequiresBin, he, Option.map_some']
  simp only [checkRequire, if_neg hm2, if_neg ha, if_pos hk]
  rw [hran]

/-- A call that returns a failed check was for a term that has a checker and is not in the
memo. -/
theorem checkRequire_failed_known {σ : Type} (cfg : Config)
    (exec : List String → GoMap String → σ → (String × Option String) × σ)
    (require err : String) (ps : Process σ)
    (h : (checkRequire cfg exec require ps).value = (true, some err)) :
    Contains ps.requirementsVerified require = false ∧
      (require = "azure" ∨
        Contains ["aws", "gcp", "gcs", "kubectl", "kubernetes", "helm", "vault"] require
          = true) := by
  cases hm : Contains ps.requirementsVerified require with
  | true =>
    rw [checkRequire_verified cfg exec require ps hm] at h
    simp at h
  | false =>
    refine ⟨rfl, ?_⟩
    by_cases ha : require = "azure"
    · exact Or.inl ha
    · cases hk : Contains ["aws", "gcp", "gcs", "kubectl", "kubernetes", "helm", "vault"] require
        with
      | true => exact Or.inr rfl
      | false =>
        rw [checkRequire_unknown cfg exec require ps hm ha hk] at h
        simp at h

/-- C16 (amended): a term present in the memo returns `(true, nil)` without running any check
and without changing the process; the memo only grows; a check that passes puts its term in
the memo and a check that does not pass leaves the memo as it was; so, over every sequence of
calls, once a check of a term has passed no later call for that term runs a check. A call for
a term that has a checker and is not in the memo runs the command of the check; so the call
that follows a failed check of a term runs the command again; and the check fails when its
command does. -/
theorem checkRequire_memo {σ : Type} (cfg : Config)
    (exec : List String → GoMap String → σ → (String × Option String) × σ) :
    (∀ (ps : Process σ) (require : String),
      Contains ps.requirementsVerified require = true →
        checkRequire cfg exec require ps
          = { value := (true, none), trace := [], state := ps }) ∧
    (∀ (ps : Process σ) (require term : String),
      Contains ps.requirementsVerified term = true →
        Contains (checkRequire cfg exec require ps).state.requirementsVerified term = true) ∧
    (∀ (ps : Process σ) (require : String),
      (checkRequire cfg exec require ps).value = (true, none) →
        Contains (checkRequire cfg exec require ps).state.requirementsVerified require
          = true) ∧
    (∀ (ps : Process σ) (require : String),
      (checkRequire cfg exec require ps).value ≠ (true, none) →
        (checkRequire cfg exec require ps).state.requirementsVerified
          = ps.requirementsVerified) ∧
    (∀ (ps : Process σ) (require : String) (calls : List String),
      (checkRequire cfg exec require ps).value = (true, none) →
        checkRequire cfg exec require
            (checkRequireAll cfg exec calls (checkRequire cfg exec require ps).state)
          = { value := (true, none), trace := [],
              state := checkRequireAll cfg exec calls
                (checkRequire cfg exec require ps).state }) ∧
    (∀ (ps : Process σ) (require : String),
      Contains ps.requirementsVerified require = false →
      (require = "azure" ∨
        Contains ["aws", "gcp", "gcs", "kubectl", "kubernetes", "helm", "vault"] require
          = true) →
        Event.exec
            (if require = "azure" then ["az", "storage", "account", "list", "-o", "table"]
              else (mapGet bins require).getD [require, "version"])
          ∈ (checkRequire cfg exec require ps).trace) ∧
    (∀ (ps : Process σ) (require err : String),
      (checkRequire cfg exec require ps).value = (true, some err) →
        Event.exec
            (if require = "azure" then ["az", "storage", "account", "list", "-o", "table"]
              else (mapGet bins require).getD [require, "version"])
          ∈ (checkRequire cfg exec require (checkRequire cfg exec require ps).state).trace) ∧
    (∀ (ps : Process σ) (require err : String),
      Contains ps.requirementsVerified require = false →
      Contains ["aws", "gcp", "gcs", "kubectl", "kubernetes", "helm", "vault"] require = true →
      (exec ((mapGet bins require).getD [require, "version"]) ps.env ps.outside).1.2
        = some err →
        (checkRequire cfg exec require ps).value
          = (true, some ("[" ++ Join ((mapGet bins require).getD [require, "version"]) " " ++
              "]: " ++ err))) := by
  refine ⟨fun ps require h => checkRequire_verified cfg exec require ps h,
    fun ps require term h => checkRequire_grows cfg exec require term ps h,
    fun ps require h => checkRequire_passed cfg exec require ps h,
    fun ps require h => checkRequire_failed cfg exec require ps h, ?_,
    fun ps require hm hk => checkRequire_runs cfg exec require ps hm hk, ?_, ?_⟩
  · intro ps require calls h
    exact checkRequire_verified cfg exec require _
      (checkRequireAll_grows cfg exec require calls _
        (checkRequire_passed cfg exec require ps h))
  · intro ps require err h
    obtain ⟨hm, hk⟩ := checkRequire_failed_known cfg exec require err ps h
    refine checkRequire_runs cfg exec require _ ?_ hk
    rw [checkRequire_failed cfg exec require ps (by rw [h]; simp)]
    exact hm
  · intro ps require err hm hk he
    have ha : require ≠ "azure" := by
      intro e
      rw [e] at hk
      exact absurd hk (by decide)
    exact checkRequire_command_fails cfg exec require err ps hm ha hk he

/-- C16 (example): after the check of `aws` has passed, and calls for `helm` and for an
unknown term have followed, the call for `aws` runs no command; and after the check of `aws`
has failed, the next call for `aws` runs its command. -/
theorem checkRequire_memo_witness :
    (checkRequire ⟨false, false, false, false⟩ execSucceeds "aws" ⟨[], [], 0⟩).value
        = (true, none) ∧
      checkRequire ⟨false, false, false, false⟩ execSucceeds "aws"
          (checkRequireAll ⟨false, false, false, false⟩ execSucceeds ["helm", "foo"]
            (checkRequire ⟨false, false, false, false⟩ execSucceeds "aws" ⟨[], [], 0⟩).state)
        = { value := (true, none), trace := [], state := ⟨["aws", "helm"], [], 2⟩ } ∧
      (checkRequire ⟨false, false, false, false⟩ execFails "aws" ⟨[], [], 0⟩).value
        = (true, some "[aws s3 ls --page-size 5]: exit status 1") ∧
      Event.exec ["aws", "s3", "ls", "--page-size", "5"]
        ∈ (checkRequire ⟨false, false, false, false⟩ execFails "aws"
            (checkRequire ⟨false, false, false, false⟩ execFails "aws" ⟨[], [], 0⟩).state).trace :=
  ⟨by decide,
    ((checkRequire_memo ⟨false, false, false, false⟩ execSucceeds).2.2.2.2.1 ⟨[], [], 0⟩ "aws"
      ["helm", "foo"] (by decide)).trans (by decide),
    by decide,
    (checkRequire_memo ⟨false, false, false, false⟩ execFails).2.2.2.2.2.2.1 ⟨[], [], 0⟩ "aws"
      "[aws s3 ls --page-size 5]: exit status 1" (by decide)⟩

/-- C16 (counterexample): when the check of `aws` fails, the memo stays empty, and the next
call for `aws` runs the command again: two runs for one term. -/
theorem checkRequire_failed_counterexample :
    (checkRequire ⟨false, false, false, false⟩ execFails "aws" ⟨[], [], 0⟩).value
        = (true, some "[aws s3 ls --page-size 5]: exit status 1") ∧
      (checkRequire ⟨false, false, false, false⟩ execFails "aws" ⟨[], [], 0⟩).trace
        = [Event.exec ["aws", "s3", "ls", "--page-size", "5"]] ∧
      (checkRequire ⟨false, false, false, false⟩ execFails "aws" ⟨[], [], 0⟩).state
        = ⟨[], [], 1⟩ ∧
      (checkRequire ⟨false, false, false, false⟩ execFails "aws" ⟨[], [], 1⟩).trace
        = [Event.exec ["aws", "s3", "ls", "--page-size", "5"]] ∧
      (checkRequire ⟨false, false, false, false⟩ execFails "aws" ⟨[], [], 1⟩).state
        = ⟨[], [], 2⟩ := by
  decide

theorem checkStackRequiresLoop_fatal {σ : Type} (cfg : Config)
    (exec : List String → GoMap String → σ → (String × Option String) × σ)
    (maybeOptional : GoMap (List String)) (requires : List String) :
    ∀ (provided : GoMap (List String)) (ps : Process σ),
      (checkStackRequiresLoop cfg exec maybeOptional requires provided ps).result = none ↔
        ∃ before require after, requires = before ++ require :: after ∧
          (((checkRequire cfg exec require (checkRequireAll cfg exec before ps)).value.1 = true ∧
              (checkRequire cfg exec require (checkRequireAll cfg exec before ps)).value.2
                ≠ none) ∨
            ((checkRequire cfg exec require (checkRequireAll cfg exec before ps)).value.1
                = false ∧
              mapGet maybeOptional require = none)) := by
  induction requires with
  | nil =>
    intro provided ps
    constructor
    · intro h
      simp [checkStackRequiresLoop] at h
    · rintro ⟨before, require, after, h, _⟩
      exact absurd h (by simp)
  | cons r rest ih =>
    intro provided ps
    have hshift : ∀ next : Run (GoMap (List String) × Process σ),
        (next.result = none ↔
          ∃ before require after, rest = before ++ require :: after ∧
            (((checkRequire cfg exec require
                  (checkRequireAll cfg exec before (checkRequire cfg exec r ps).state)).value.1
                  = true ∧
                (checkRequire cfg exec require
                  (checkRequireAll cfg exec before (checkRequire cfg exec r ps).state)).value.2
                  ≠ none) ∨
              ((checkRequire cfg exec require
                  (checkRequireAll cfg exec before (checkRequire cfg exec r ps).state)).value.1
                  = false ∧
                mapGet maybeOptional require = none))) →
        ¬ (((checkRequire cfg exec r ps).value.1 = true ∧
              (checkRequire cfg exec r ps).value.2 ≠ none) ∨
            ((checkRequire cfg exec r ps).value.1 = false ∧ mapGet maybeOptional r = none)) →
        (next.result = none ↔
          ∃ before require after, r :: rest = before ++ require :: after ∧
            (((checkRequire cfg exec require (checkRequireAll cfg exec before ps)).value.1
                  = true ∧
                (checkRequire cfg exec require (checkRequireAll cfg exec before ps)).value.2
                  ≠ none) ∨
              ((checkRequire cfg exec require (checkRequireAll cfg exec before ps)).value.1
                  = false ∧
                mapGet maybeOptional require = none))) := by
      intro next hn hok
      rw [hn]
      constructor
      · rintro ⟨before, require, after, hsplit, h⟩
        exact ⟨r :: before, require, after, by rw [hsplit]; rfl, h⟩
      · rintro ⟨before, require, after, hsplit, h⟩
        cases before with
        | nil =>
          simp only [List.nil_append, List.cons.injEq] at hsplit
          rw [← hsplit.1] at h
          exact absurd h hok
        | cons b before =>
          simp only [List.cons_append, List.cons.injEq] at hsplit
          rw [← hsplit.1] at h
          exact ⟨before, require, after, hsplit.2, h⟩
    have hhere : (((checkRequire cfg exec r ps).value.1 = true ∧
              (checkRequire cfg exec r ps).value.2 ≠ none) ∨
            ((checkRequire cfg exec r ps).value.1 = false ∧ mapGet maybeOptional r = none)) →
          ∃ before require after, r :: rest = before ++ require :: after ∧
            (((checkRequire cfg exec require (checkRequireAll cfg exec before ps)).value.1
                  = true ∧
                (checkRequire cfg exec require (checkRequireAll cfg exec before ps)).value.2
                  ≠ none) ∨
              ((checkRequire cfg exec require (checkRequireAll cfg exec before ps)).value.1
                  = false ∧
                mapGet maybeOptional require = none)) :=
      fun h => ⟨[], r, rest, rfl, h⟩
    simp only [checkStackRequiresLoop]
    cases hk : (checkRequire cfg exec r ps).value.1 with
    | true =>
      simp only [if_true]
      cases he : (checkRequire cfg exec r ps).value.2 with
      | some err =>
        simp only
        exact ⟨fun _ => hhere (Or.inl ⟨hk, by rw [he]; simp⟩), fun _ => trivial⟩
      | none =>
        simp only
        exact hshift _ (ih _ _) (by rw [hk, he]; simp)
    | false =>
      simp only [Bool.false_eq_true, if_false]
      cases ho : mapGet maybeOptional r with
      | none =>
        simp only
        exact ⟨fun _ => hhere (Or.inr ⟨hk, ho⟩), fun _ => trivial⟩
      | some optionalFor =>
        simp only
        exact hshift _ (ih _ _) (by rw [hk, ho]; simp)

theorem checkStackRequiresLoop_provided {σ : Type} (cfg : Config)
    (exec : List String → GoMap String → σ → (String × Option String) × σ)
    (maybeOptional : GoMap (List String)) (requires : List String) :
    ∀ (provided : GoMap (List String)) (ps : Process σ) (out : GoMap (List String))
      (after : Process σ),
      (checkStackRequiresLoop cfg exec maybeOptional requires provided ps).result
        = some (out, after) →
      after = checkRequireAll cfg exec requires ps ∧
      ∀ term : String,
        ((∃ before rest, requires = before ++ term :: rest ∧
            (checkRequire cfg exec term (checkRequireAll cfg exec before ps)).value.1 = true) →
          mapGet out term = some [providedByEnv]) ∧
        ((∀ before rest, requires = before ++ term :: rest →
            (checkRequire cfg exec term (checkRequireAll cfg exec before ps)).value.1 = false) →
          mapGet out term = mapGet provided term) := by
  induction requires with
  | nil =>
    intro provided ps out after h
    simp only [checkStackRequiresLoop, Option.some.injEq, Prod.mk.injEq] at h
    refine ⟨h.2.symm, fun term => ⟨?_, fun _ => by rw [h.1]⟩⟩
    rintro ⟨before, rest, hsplit, _⟩
    exact absurd hsplit (by simp)
  | cons r tail ih =>
    intro provided ps out after h
    simp only [checkStackRequiresLoop] at h
    have hlater : ∀ term : String,
        (∀ before rest, r :: tail = before ++ term :: rest →
          (checkRequire cfg exec term (checkRequireAll cfg exec before ps)).value.1 = false) →
        ∀ before rest, tail = before ++ term :: rest →
          (checkRequire cfg exec term
            (checkRequireAll cfg exec before (checkRequire cfg exec r ps).state)).value.1
            = false :=
      fun term hall before rest hsplit => hall (r :: before) rest (by rw [hsplit]; rfl)
    cases hk : (checkRequire cfg exec r ps).value.1 with
    | true =>
      rw [hk] at h
      simp only [if_true] at h
      cases he : (checkRequire cfg exec r ps).value.2 with
      | some err =>
        rw [he] at h
        simp at h
      | none =>
        rw [he] at h
        simp only at h
        obtain ⟨hstate, hmap⟩ := ih _ _ out after h
        refine ⟨hstate, fun term => ⟨?_, ?_⟩⟩
        · rintro ⟨before, rest, hsplit, hknown⟩
          by_cases hex : ∃ before rest, tail = before ++ term :: rest ∧
              (checkRequire cfg exec term
                (checkRequireAll cfg exec before (checkRequire cfg exec r ps).state)).value.1
                = true
          · exact (hmap term).1 hex
          · cases before with
            | nil =>
              simp only [List.nil_append, List.cons.injEq] at hsplit
              rw [(hmap term).2 (fun before rest hs => by
                cases hv : (checkRequire cfg exec term
                  (checkRequireAll cfg exec before (checkRequire cfg exec r ps).state)).value.1
                with
                | false => rfl
                | true => exact absurd ⟨before, rest, hs, hv⟩ hex), ← hsplit.1]
              exact mapGet_mapSet_self _ _ _
            | cons b before =>
              simp only [List.cons_append, List.cons.injEq] at hsplit
              rw [← hsplit.1] at hknown
              exact absurd ⟨before, rest, hsplit.2, hknown⟩ hex
        · intro hall
          have hne : term ≠ r := by
            intro e
            have hfalse : (checkRequire cfg exec r ps).value.1 = false := by
              have := hall [] tail (by rw [e]; rfl)
              rw [e] at this
              exact this
            rw [hk] at hfalse
            exact absurd hfalse (by simp)
          rw [(hmap term).2 (hlater term hall)]
          exact mapGet_mapSet_ne _ _ _ _ hne
    | false =>
      rw [hk] at h
      simp only [Bool.false_eq_true, if_false] at h
      cases ho : mapGet maybeOptional r with
      | none =>
        rw [ho] at h
        simp at h
      | some optionalFor =>
        rw [ho] at h
        simp only at h
        obtain ⟨hstate, hmap⟩ := ih _ _ out after h
        refine ⟨hstate, fun term => ⟨?_, fun hall => (hmap term).2 (hlater term hall)⟩⟩
        rintro ⟨before, rest, hsplit, hknown⟩
        cases before with
        | nil =>
          simp only [List.nil_append, List.cons.injEq] at hsplit
          rw [← hsplit.1] at hknown
          have htrue : (checkRequire cfg exec r ps).value.1 = true := hknown
          rw [hk] at htrue
          exact absurd htrue (by simp)
        | cons b before =>
          simp only [List.cons_append, List.cons.injEq] at hsplit
          rw [← hsplit.1] at hknown
          exact (hmap term).1 ⟨before, rest, hsplit.2, hknown⟩

theorem checkRequire_unverified {σ : Type} (cfg : Config)
    (exec : List String → GoMap String → σ → (String × Option String) × σ)
    (require term : String) (ps : Process σ)
    (hm : Contains ps.requirementsVerified term = false)
    (ha : term ≠ "azure")
    (hk : Contains ["aws", "gcp", "gcs", "kubectl", "kubernetes", "helm", "vault"] term
      = false) :
    Contains (checkRequire cfg exec require ps).state.requirementsVerified term = false := by
  rcases checkRequire_state cfg exec require ps with ⟨_, ⟨e, _⟩ | ⟨e, hknown⟩⟩ | ⟨_, e⟩
  · rw [e]; exact hm
  · rw [e]
    cases hc : Contains (ps.requirementsVerified ++ [require]) term with
    | false => rfl
    | true =>
      rcases (Contains_append _ _ _).mp hc with h | h
      · rw [hm] at h
        exact absurd h (by simp)
      · rw [h] at hknown
        rcases hknown with h1 | h1
        · exact absurd h1 ha
        · rw [hk] at h1
          exact absurd h1 (by simp)
  · rw [e]; exact hm

theorem checkRequireAll_unverified {σ : Type} (cfg : Config)
    (exec : List String → GoMap String → σ → (String × Option String) × σ)
    (term : String) (ha : term ≠ "azure")
    (hk : Contains ["aws", "gcp", "gcs", "kubectl", "kubernetes", "helm", "vault"] term
      = false) (calls : List String) :
    ∀ ps : Process σ, Contains ps.requirementsVerified term = false →
      Contains (checkRequireAll cfg exec calls ps).requirementsVerified term = false := by
  induction calls with
  | nil => intro ps h; exact h
  | cons call rest ih =>
    intro ps h
    exact ih _ (checkRequire_unverified cfg exec call term ps h ha hk)

/-- C17 (amended): `checkStackRequires` ends the process exactly when some requirement, at
its turn, either is known and its check fails - whether or not the term has an entry in the
map of optional requirements - or is unknown and has no entry in that map. When it returns,
every requirement that was known at its turn is provided by the environment, and a term that
was unknown at each of its turns - in particular a term without a checker that is not in the
memo - is left out of the returned map. -/
theorem checkStackRequires_fatal_iff {σ : Type} (cfg : Config)
    (exec : List String → GoMap String → σ → (String × Option String) × σ)
    (requires : List String) (maybeOptional : GoMap (List String)) (ps : Process σ) :
    ((checkStackRequires cfg exec requires maybeOptional ps).result = none ↔
      ∃ before require after, requires = before ++ require :: after ∧
        (((checkRequire cfg exec require (checkRequireAll cfg exec before ps)).value.1 = true ∧
            (checkRequire cfg exec require (checkRequireAll cfg exec before ps)).value.2
              ≠ none) ∨
          ((checkRequire cfg exec require (checkRequireAll cfg exec before ps)).value.1
              = false ∧
            mapGet maybeOptional require = none))) ∧
    (∀ (out : GoMap (List String)) (after : Process σ),
      (checkStackRequires cfg exec requires maybeOptional ps).result = some (out, after) →
        (∀ before require rest, requires = before ++ require :: rest →
          (checkRequire cfg exec require (checkRequireAll cfg exec before ps)).value.1 = true →
            mapGet out require = some [providedByEnv]) ∧
        (∀ term : String,
          (∀ before rest, requires = before ++ term :: rest →
            (checkRequire cfg exec term (checkRequireAll cfg exec before ps)).value.1
              = false) →
            mapGet out term = none) ∧
        (∀ term : String, Contains ps.requirementsVerified term = false → term ≠ "azure" →
          Contains ["aws", "gcp", "gcs", "kubectl", "kubernetes", "helm", "vault"] term = false →
            mapGet out term = none)) := by
  refine ⟨checkStackRequiresLoop_fatal cfg exec maybeOptional requires [] ps, ?_⟩
  intro out after h
  obtain ⟨_, hmap⟩ := checkStackRequiresLoop_provided cfg exec maybeOptional requires [] ps
    out after h
  refine ⟨fun before require rest hsplit hknown =>
      (hmap require).1 ⟨before, rest, hsplit, hknown⟩,
    fun term hall => ((hmap term).2 hall).trans rfl, ?_⟩
  intro term hm ha hk
  refine ((hmap term).2 ?_).trans rfl
  intro before rest _
  rw [checkRequire_unknown cfg exec term _
    (checkRequireAll_unverified cfg exec term ha hk before ps hm) ha hk]

/-- C17 (example): with `aws` passing and the unknown term `foo` without an entry in the map
of optional requirements, the process ends. -/
theorem checkStackRequires_fatal_iff_witness :
    (checkStackRequires ⟨false, false, false, false⟩ execSucceeds ["aws", "foo"] []
      ⟨[], [], 0⟩).result = none :=
  (checkStackRequires_fatal_iff ⟨false, false, false, false⟩ execSucceeds ["aws", "foo"] []
    ⟨[], [], 0⟩).1.mpr ⟨["aws"], "foo", [], rfl, Or.inr ⟨by decide, by decide⟩⟩

/-- C17 (counterexample): `aws` has an entry in the map of optional requirements and its
check fails: the process ends all the same. -/
theorem checkStackRequires_optional_counterexample :
    mapGet [("aws", ["*"])] "aws" = some ["*"] ∧
      (checkRequire ⟨false, false, false, false⟩ execFails "aws" ⟨[], [], 0⟩).value
        = (true, some "[aws s3 ls --page-size 5]: exit status 1") ∧
      checkStackRequires ⟨false, false, false, false⟩ execFails ["aws"] [("aws", ["*"])]
          ⟨[], [], 0⟩
        = { trace := [Event.exec ["aws", "s3", "ls", "--page-size", "5"],
              Event.fatal "`%s` requirement cannot be satisfied: %v"
                ["aws", "[aws s3 ls --page-size 5]: exit status 1"]],
            result := none } := by
  decide

/-- An evaluation of `checkStackRequires`: the unknown term `foo` is optional and left out. -/
theorem checkStackRequires_example :
    checkStackRequires ⟨false, false, false, false⟩ execSucceeds ["aws", "foo", "helm"]
        [("foo", ["*"])] ⟨[], [], 0⟩
      = { trace := [Event.exec ["aws", "s3", "ls", "--page-size", "5"],
            Event.exec ["helm", "version", "--client"],
            Event.warnOnce "`%s` version requirement cannot be satisfied: %v"
              ["helm", "no output"]],
          result := some ([("aws", ["*environment*"]), ("helm", ["*environment*"])],
            ⟨["aws", "helm"], [], 2⟩) } := by
  decide


/-! ## Template kinds -/

theorem renderTemplate_none (cfg : Config) (lk : Lookup) (mu : Mustache)
    (kind content filename componentName : String) (componentDepends : List String)
    (kv : GoMap String) :
    renderTemplate cfg lk mu kind content filename componentName componentDepends kv = none ↔
      kind ≠ "" ∧ kind ≠ "curly" ∧ kind ≠ "mustache" ∧ kind ≠ "_mustache" := by
  unfold renderTemplate
  by_cases h1 : kind = "" ∨ kind = curlyKind
  · rw [if_pos h1]
    simp only [reduceCtorEq, false_iff, not_and]
    intro a b
    rcases h1 with h | h
    · exact absurd h a
    · exact absurd h b
  · rw [if_neg h1]
    by_cases h2 : kind = mustacheKind
    · rw [if_pos h2]
      simp only [reduceCtorEq, false_iff, not_and]
      intro _ _ c
      exact absurd h2 c
    · rw [if_neg h2]
      by_cases h3 : kind = trueMustacheKind
      · rw [if_pos h3]
        simp only [reduceCtorEq, false_iff, not_and]
        intro _ _ _ d
        exact d h3
      · rw [if_neg h3]
        simp only [true_iff]
        exact ⟨fun e => h1 (Or.inl e), fun e => h1 (Or.inr e), h2, h3⟩

theorem processTemplate_unknown_kind {φ : Type} (cfg : Config) (lk : Lookup) (mu : Mustache)
    (fs : Files φ) (template : TemplateRef) (componentName : String)
    (componentDepends : List String) (kv : GoMap String) (world : φ)
    (hkind : ∀ content, renderTemplate cfg lk mu template.Kind content template.Filename
      componentName componentDepends kv = none) :
    (processTemplate cfg lk mu fs template componentName componentDepends kv world).1.1.length
        = 1 ∧
      (∀ path content, Event.write path content ∉
        (processTemplate cfg lk mu fs template componentName componentDepends kv world).1.2) ∧
      (∀ content created, fs.Open template.Filename world = none →
        fs.ReadAll template.Filename world = Except.ok content →
        fs.Create (templateOutPath template.Filename) world = Except.ok created →
        (processTemplate cfg lk mu fs template componentName componentDepends kv world).1.1
          = ["Error processing `" ++ componentName ++ "` component template `" ++
              templateOutPath template.Filename ++ "`: unknown `" ++ template.Kind ++
              "` template kind"]) := by
  simp only [processTemplate]
  cases hopen : fs.Open template.Filename world with
  | some err =>
    refine ⟨rfl, fun path content => by simp, fun content created h => by simp at h⟩
  | none =>
    cases hread : fs.ReadAll template.Filename world with
    | error err =>
      refine ⟨rfl, fun path content => by simp, fun content created _ h => by simp at h⟩
    | ok content =>
      cases hcreate : fs.Create (templateOutPath template.Filename) world with
      | error err =>
        refine ⟨rfl, ?_, fun content created _ _ h => by simp at h⟩
        intro path text
        simp only
        cases fs.Stat template.Filename world <;> simp
      | ok created =>
        simp only [hkind content]
        refine ⟨rfl, ?_, fun _ _ _ _ _ => trivial⟩
        intro path text
        cases hstat : fs.Stat template.Filename world with
        | error err => simp
        | ok mode =>
          simp only
          cases (fs.Chmod (templateOutPath template.Filename) mode created).1 <;> simp

/-- The file operation that fails gives the one error returned, whatever the kind. -/
theorem processTemplate_io {φ : Type} (cfg : Config) (lk : Lookup) (mu : Mustache)
    (fs : Files φ) (template : TemplateRef) (componentName : String)
    (componentDepends : List String) (kv : GoMap String) (world : φ) :
    (∀ err, fs.Open template.Filename world = some err →
      processTemplate cfg lk mu fs template componentName componentDepends kv world
        = ((["Unable to open `" ++ componentName ++ "` component template input `" ++
            template.Filename ++ "`: " ++ err], []), world)) ∧
    (∀ err, fs.Open template.Filename world = none →
      fs.ReadAll template.Filename world = Except.error err →
      processTemplate cfg lk mu fs template componentName componentDepends kv world
        = ((["Unable to read `" ++ componentName ++ "` component template content `" ++
            template.Filename ++ "`: " ++ err], []), world)) ∧
    (∀ content err, fs.Open template.Filename world = none →
      fs.ReadAll template.Filename world = Except.ok content →
      fs.Create (templateOutPath template.Filename) world = Except.error err →
      (processTemplate cfg lk mu fs template componentName componentDepends kv world).1.1
        = ["Unable to open `" ++ componentName ++ "` component template output `" ++
            templateOutPath template.Filename ++ "`: " ++ err]) := by
  refine ⟨?_, ?_, ?_⟩
  · intro err hopen
    simp only [processTemplate, hopen]
  · intro err hopen hread
    simp only [processTemplate, hopen, hread]
  · intro content err hopen hread hcreate
    simp only [processTemplate, hopen, hread, hcreate]

/-- With the template opened and read and the output file created, a kind that has a render
branch gives the errors of that branch, followed by the error of the write if it fails, and a
rendered content that is not empty is written to the output file. -/
theorem processTemplate_rendered {φ : Type} (cfg : Config) (lk : Lookup) (mu : Mustache)
    (fs : Files φ) (template : TemplateRef) (componentName : String)
    (componentDepends : List String) (kv : GoMap String) (world : φ)
    (content : String) (created : φ) (rendered : Rendered)
    (hopen : fs.Open template.Filename world = none)
    (hread : fs.ReadAll template.Filename world = Except.ok content)
    (hcreate : fs.Create (templateOutPath template.Filename) world = Except.ok created)
    (hrender : renderTemplate cfg lk mu template.Kind content template.Filename componentName
      componentDepends kv = some rendered) :
    (rendered.outContent = "" →
      (processTemplate cfg lk mu fs template componentName componentDepends kv world).1.1
          = rendered.errs ∧
        ∀ path text, Event.write path text ∈
          (processTemplate cfg lk mu fs template componentName componentDepends kv
            world).1.2 → Event.write path text ∈ rendered.trace) ∧
    (rendered.outContent ≠ "" →
      Event.write (templateOutPath template.Filename) rendered.outContent
          ∈ (processTemplate cfg lk mu fs template componentName componentDepends kv
            world).1.2 ∧
        ∃ rest, (processTemplate cfg lk mu fs template componentName componentDepends kv
            world).1.1 = rendered.errs ++ rest ∧
          ∀ e ∈ rest, ∃ err, e = "Error writting `" ++ componentName ++
            "` component template output `" ++ templateOutPath template.Filename ++ "`: " ++
            err) ∧
    (∀ e ∈ rendered.trace, e ∈
      (processTemplate cfg lk mu fs template componentName componentDepends kv world).1.2) := by
  have hlen : rendered.outContent.data.length > 0 ↔ rendered.outContent ≠ "" := by
    rw [gt_iff_lt, List.length_pos]
    constructor
    · intro h e
      rw [e] at h
      exact h rfl
    · intro h e
      exact h (String.ext e)
  have hmain : ∀ (warns : List Event) (after : φ),
      (∀ path text, Event.write path text ∉ warns) →
      (rendered.outContent = "" →
        (if rendered.outContent.data.length > 0 then
            ((rendered.errs ++
                (if (fs.WriteTo (templateOutPath template.Filename) rendered.outContent
                      after).1.2 ≠ none ∨
                    (fs.WriteTo (templateOutPath template.Filename) rendered.outContent
                      after).1.1 ≠ (charsBytes rendered.outContent.data).length then
                  ["Error writting `" ++ componentName ++ "` component template output `" ++
                    templateOutPath template.Filename ++ "`: " ++
                    (fs.WriteTo (templateOutPath template.Filename) rendered.outContent
                      after).1.2.getD "<nil>"]
                else []),
              warns ++ rendered.trace ++
                [Event.write (templateOutPath template.Filename) rendered.outContent]),
              (fs.WriteTo (templateOutPath template.Filename) rendered.outContent after).2)
          else ((rendered.errs, warns ++ rendered.trace), after)).1.1 = rendered.errs ∧
        ∀ path text, Event.write path text ∈
          (if rendered.outContent.data.length > 0 then
            ((rendered.errs ++
                (if (fs.WriteTo (templateOutPath template.Filename) rendered.outContent
                      after).1.2 ≠ none ∨
                    (fs.WriteTo (templateOutPath template.Filename) rendered.outContent
                      after).1.1 ≠ (charsBytes rendered.outContent.data).length then
                  ["Error writting `" ++ componentName ++ "` component template output `" ++
                    templateOutPath template.Filename ++ "`: " ++
                    (fs.WriteTo (templateOutPath template.Filename) rendered.outContent
                      after).1.2.getD "<nil>"]
                else []),
              warns ++ rendered.trace ++
                [Event.write (templateOutPath template.Filename) rendered.outContent]),
              (fs.WriteTo (templateOutPath template.Filename) rendered.outContent after).2)
          else ((rendered.errs, warns ++ rendered.trace), after)).1.2 →
          Event.write path text ∈ rendered.trace) ∧
      (rendered.outContent ≠ "" →
        Event.write (templateOutPath template.Filename) rendered.outContent ∈
          (if rendered.outContent.data.length > 0 then
            ((rendered.errs ++
                (if (fs.WriteTo (templateOutPath template.Filename) rendered.outContent
                      after).1.2 ≠ none ∨
                    (fs.WriteTo (templateOutPath template.Filename) rendered.outContent
                      after).1.1 ≠ (charsBytes rendered.outContent.data).length then
                  ["Error writting `" ++ componentName ++ "` component template output `" ++
                    templateOutPath template.Filename ++ "`: " ++
                    (fs.WriteTo (templateOutPath template.Filename) rendered.outContent
                      after).1.2.getD "<nil>"]
                else []),
              warns ++ rendered.trace ++
                [Event.write (templateOutPath template.Filename) rendered.outContent]),
              (fs.WriteTo (templateOutPath template.Filename) rendered.outContent after).2)
          else ((rendered.errs, warns ++ rendered.trace), after)).1.2 ∧
        ∃ rest,
          (if rendered.outContent.data.length > 0 then
            ((rendered.errs ++
                (if (fs.WriteTo (templateOutPath template.Filename) rendered.outContent
                      after).1.2 ≠ none ∨
                    (fs.WriteTo (templateOutPath template.Filename) rendered.outContent
                      after).1.1 ≠ (charsBytes rendered.outContent.data).length then
                  ["Error writting `" ++ componentName ++ "` component template output `" ++
                    templateOutPath template.Filename ++ "`: " ++
                    (fs.WriteTo (templateOutPath template.Filename) rendered.outContent
                      after).1.2.getD "<nil>"]
                else []),
              warns ++ rendered.trace ++
                [Event.write (templateOutPath template.Filename) rendered.outContent]),
              (fs.WriteTo (templateOutPath template.Filename) rendered.outContent after).2)
          else ((rendered.errs, warns ++ rendered.trace), after)).1.1 = rendered.errs ++ rest ∧
          ∀ e ∈ rest, ∃ err, e = "Error writting `" ++ componentName ++
            "` component template output `" ++ templateOutPath template.Filename ++ "`: " ++
            err) ∧
      (∀ e ∈ rendered.trace, e ∈
          (if rendered.outContent.data.length > 0 then
            ((rendered.errs ++
                (if (fs.WriteTo (templateOutPath template.Filename) rendered.outContent
                      after).1.2 ≠ none ∨
                    (fs.WriteTo (templateOutPath template.Filename) rendered.outContent
                      after).1.1 ≠ (charsBytes rendered.outContent.data).length then
                  ["Error writting `" ++ componentName ++ "` component template output `" ++
                    templateOutPath template.Filename ++ "`: " ++
                    (fs.WriteTo (templateOutPath template.Filename) rendered.outContent
                      after).1.2.getD "<nil>"]
                else []),
              warns ++ rendered.trace ++
                [Event.write (templateOutPath template.Filename) rendered.outContent]),
              (fs.WriteTo (templateOutPath template.Filename) rendered.outContent after).2)
          else ((rendered.errs, warns ++ rendered.trace), after)).1.2) := by
    intro warns after hwarns
    refine ⟨?_, ?_, ?_⟩
    · intro hempty
      have hn : ¬ rendered.outContent.data.length > 0 := fun h => hlen.1 h hempty
      rw [if_neg hn]
      refine ⟨rfl, ?_⟩
      intro path text hmem
      rcases List.mem_append.1 hmem with h | h
      · exact absurd h (hwarns path text)
      · exact h
    · intro hne
      rw [if_pos (hlen.2 hne)]
      refine ⟨by simp, ?_⟩
      simp only
      split
      · exact ⟨_, rfl, fun e he => ⟨_, List.mem_singleton.1 he⟩⟩
      · exact ⟨[], rfl, fun e he => absurd he (List.not_mem_nil e)⟩
    · intro e he
      split
      · simp [he]
      · simp [he]
  cases hs : fs.Stat template.Filename world with
  | error err =>
    simp only [processTemplate, hopen, hread, hcreate, hrender, hs, List.append_nil]
    exact hmain _ _ (by simp)
  | ok mode =>
    cases hc : (fs.Chmod (templateOutPath template.Filename) mode created).1 with
    | none =>
      simp only [processTemplate, hopen, hread, hcreate, hrender, hs, hc, List.nil_append]
      have := hmain [] (fs.Chmod (templateOutPath template.Filename) mode created).2 (by simp)
      simpa using this
    | some err =>
      simp only [processTemplate, hopen, hread, hcreate, hrender, hs, hc, List.nil_append]
      exact hmain _ _ (by simp)
/-- C18 (amended): the kind `go` is in the list `kinds`, so `checkKind` returns it unchanged
and warns of nothing; yet the `switch` of `processTemplate` has no branch for it. For every
template of kind `go`, on every file system, `processTemplate` returns exactly one error and
writes no rendered content, and when the template is opened and read and the output file
created that error reports the unknown template kind `go`. The kinds ``, `curly`, `mustache`
and `_mustache` each reach their render branch: with the template opened and read and the
output file created, `processTemplate` returns the errors of the branch (followed by the error
of a failed write), records its events and writes the rendered content when it is not empty.
For every kind, the file operation that fails gives the one error returned. -/
theorem processTemplate_go_kind {φ : Type} (cfg : Config) (lk : Lookup) (mu : Mustache)
    (fs : Files φ) :
    Contains kinds "go" = true ∧
    (∀ componentName : String, checkKind componentName "go" = ("go", [])) ∧
    (∀ (filename componentName : String) (componentDepends : List String) (kv : GoMap String)
        (world : φ),
      (processTemplate cfg lk mu fs ⟨filename, "go"⟩ componentName componentDepends kv
          world).1.1.length = 1 ∧
      (∀ path content, Event.write path content ∉
        (processTemplate cfg lk mu fs ⟨filename, "go"⟩ componentName componentDepends kv
          world).1.2) ∧
      (∀ content created, fs.Open filename world = none →
        fs.ReadAll filename world = Except.ok content →
        fs.Create (templateOutPath filename) world = Except.ok created →
        (processTemplate cfg lk mu fs ⟨filename, "go"⟩ componentName componentDepends kv
            world).1.1
          = ["Error processing `" ++ componentName ++ "` component template `" ++
              templateOutPath filename ++ "`: unknown `" ++ "go" ++ "` template kind"])) ∧
    (∀ (content filename componentName : String) (componentDepends : List String)
        (kv : GoMap String),
      renderTemplate cfg lk mu "go" content filename componentName componentDepends kv
          = none ∧
      renderTemplate cfg lk mu "" content filename componentName componentDepends kv
          = some
            { outContent := (processReplacement cfg lk content filename componentName
                componentDepends kv curlyReplacement stripCurly).1.1,
              errs := (processReplacement cfg lk content filename componentName
                componentDepends kv curlyReplacement stripCurly).1.2,
              trace := (processReplacement cfg lk content filename componentName
                componentDepends kv curlyReplacement stripCurly).2 } ∧
      renderTemplate cfg lk mu "curly" content filename componentName componentDepends kv
          = renderTemplate cfg lk mu "" content filename componentName componentDepends kv ∧
      renderTemplate cfg lk mu "mustache" content filename componentName componentDepends kv
          = some
            { outContent := (processReplacement cfg lk content filename componentName
                componentDepends kv mustacheReplacement stripMustache).1.1,
              errs := (processReplacement cfg lk content filename componentName
                componentDepends kv mustacheReplacement stripMustache).1.2,
              trace := (processReplacement cfg lk content filename componentName
                componentDepends kv mustacheReplacement stripMustache).2 } ∧
      ∃ rendered,
        renderTemplate cfg lk mu "_mustache" content filename componentName componentDepends kv
          = some rendered ∧
        rendered.outContent
          = (processMustache mu content filename componentName componentDepends kv).1.1 ∧
        rendered.trace
          = (processMustache mu content filename componentName componentDepends kv).2) ∧
    (∀ (template : TemplateRef) (componentName : String) (componentDepends : List String)
        (kv : GoMap String) (world : φ) (content : String) (created : φ) (rendered : Rendered),
      fs.Open template.Filename world = none →
      fs.ReadAll template.Filename world = Except.ok content →
      fs.Create (templateOutPath template.Filename) world = Except.ok created →
      renderTemplate cfg lk mu template.Kind content template.Filename componentName
        componentDepends kv = some rendered →
      (rendered.outContent = "" →
        (processTemplate cfg lk mu fs template componentName componentDepends kv world).1.1
            = rendered.errs ∧
          ∀ path text, Event.write path text ∈
            (processTemplate cfg lk mu fs template componentName componentDepends kv
              world).1.2 → Event.write path text ∈ rendered.trace) ∧
      (rendered.outContent ≠ "" →
        Event.write (templateOutPath template.Filename) rendered.outContent
            ∈ (processTemplate cfg lk mu fs template componentName componentDepends kv
              world).1.2 ∧
          ∃ rest, (processTemplate cfg lk mu fs template componentName componentDepends kv
              world).1.1 = rendered.errs ++ rest ∧
            ∀ e ∈ rest, ∃ err, e = "Error writting `" ++ componentName ++
              "` component template output `" ++ templateOutPath template.Filename ++ "`: " ++
              err) ∧
      (∀ e ∈ rendered.trace, e ∈
        (processTemplate cfg lk mu fs template componentName componentDepends kv
          world).1.2)) ∧
    (∀ (template : TemplateRef) (componentName : String) (componentDepends : List String)
        (kv : GoMap String) (world : φ),
      (∀ err, fs.Open template.Filename world = some err →
        processTemplate cfg lk mu fs template componentName componentDepends kv world
          = ((["Unable to open `" ++ componentName ++ "` component template input `" ++
              template.Filename ++ "`: " ++ err], []), world)) ∧
      (∀ err, fs.Open template.Filename world = none →
        fs.ReadAll template.Filename world = Except.error err →
        processTemplate cfg lk mu fs template componentName componentDepends kv world
          = ((["Unable to read `" ++ componentName ++ "` component template content `" ++
              template.Filename ++ "`: " ++ err], []), world)) ∧
      (∀ content err, fs.Open template.Filename world = none →
        fs.ReadAll template.Filename world = Except.ok content →
        fs.Create (templateOutPath template.Filename) world = Except.error err →
        (processTemplate cfg lk mu fs template componentName componentDepends kv world).1.1
          = ["Unable to open `" ++ componentName ++ "` component template output `" ++
              templateOutPath template.Filename ++ "`: " ++ err])) := by
  have hgo : ∀ (content filename componentName : String) (componentDepends : List String)
      (kv : GoMap String),
      renderTemplate cfg lk mu "go" content filename componentName componentDepends kv
        = none := by
    intro content filename componentName componentDepends kv
    rw [renderTemplate_none]
    decide
  refine ⟨by decide, fun componentName => rfl, ?_, ?_,
    fun template componentName componentDepends kv world content created rendered hopen hread
        hcreate hrender =>
      processTemplate_rendered cfg lk mu fs template componentName componentDepends kv world
        content created rendered hopen hread hcreate hrender,
    fun template componentName componentDepends kv world =>
      processTemplate_io cfg lk mu fs template componentName componentDepends kv world⟩
  · intro filename componentName componentDepends kv world
    exact processTemplate_unknown_kind cfg lk mu fs ⟨filename, "go"⟩ componentName
      componentDepends kv world (fun content => hgo content filename componentName
        componentDepends kv)
  · intro content filename componentName componentDepends kv
    refine ⟨hgo content filename componentName componentDepends kv, ?_, ?_, ?_, ?_⟩
    · simp [renderTemplate]
    · simp [renderTemplate, curlyKind]
    · simp [renderTemplate, curlyKind, mustacheKind]
    · exact ⟨_, by simp [renderTemplate, curlyKind, mustacheKind, trueMustacheKind]; rfl,
        rfl, rfl⟩

/-- C18 (example): the template `a.yaml.template` of the component `c`, in a file system in
memory: of kind `go` it gives the unknown-kind error, of kind `curly` it is rendered and
written. -/
theorem processTemplate_go_kind_witness :
    checkKind "c" "go" = ("go", []) ∧
      (processTemplate ⟨false, false, false, false⟩ specLookup plainMustache memoryFiles
          ⟨"a.yaml.template", "go"⟩ "c" [] [("p", "v")]
          [("a.yaml.template", "p=$\x7bp\x7d")]).1.1
        = ["Error processing `c` component template `a.yaml`: unknown `go` template kind"] ∧
      Event.write (templateOutPath "a.yaml.template") "p=v" ∈
        (processTemplate ⟨false, false, false, false⟩ specLookup plainMustache memoryFiles
          ⟨"a.yaml.template", "curly"⟩ "c" [] [("p", "v")]
          [("a.yaml.template", "p=$\x7bp\x7d")]).1.2 :=
  ⟨by decide,
    (((processTemplate_go_kind ⟨false, false, false, false⟩ specLookup plainMustache
        memoryFiles).2.2.1 "a.yaml.template" "c" [] [("p", "v")]
        [("a.yaml.template", "p=$\x7bp\x7d")]).2.2 "p=$\x7bp\x7d"
        [("a.yaml.template", "p=$\x7bp\x7d"), ("a.yaml", "")] (by decide) (by rfl)
        (by rfl)).trans (by decide),
    (((processTemplate_go_kind ⟨false, false, false, false⟩ specLookup plainMustache
        memoryFiles).2.2.2.2.1 ⟨"a.yaml.template", "curly"⟩ "c" [] [("p", "v")]
        [("a.yaml.template", "p=$\x7bp\x7d")] "p=$\x7bp\x7d"
        [("a.yaml.template", "p=$\x7bp\x7d"), ("a.yaml", "")] ⟨"p=v", [], []⟩ (by decide)
        (by rfl) (by rfl) (by decide)).2.1 (by decide)).1⟩

/-- C18 (counterexample): a template of kind `go` that cannot be opened. The one error
returned is that of `os.Open`; it does not report an unknown template kind. -/
theorem processTemplate_unopened_counterexample :
    memoryFiles.Open "missing" [] = some "open missing: no such file or directory" ∧
      processTemplate ⟨false, false, false, false⟩ specLookup plainMustache memoryFiles
          ⟨"missing", "go"⟩ "c" [] [("p", "v")] []
        = ((["Unable to open `c` component template input `missing`: " ++
              "open missing: no such file or directory"], []), []) ∧
      stringsContains
        ("Unable to open `c` component template input `missing`: " ++
          "open missing: no such file or directory") "unknown" = false := by
  decide

/-- An evaluation of `processTemplate`: the same template is rendered under the kind `curly`
and is not under the kind `go`, which leaves the output file created and empty. -/
theorem processTemplate_example :
    processTemplate ⟨false, false, false, false⟩ specLookup plainMustache memoryFiles
        ⟨"a.yaml.template", "curly"⟩ "c" [] [("p", "v")] [("a.yaml.template", "p=$\x7bp\x7d")]
      = (([], [Event.write "a.yaml" "p=v"]),
          [("a.yaml.template", "p=$\x7bp\x7d"), ("a.yaml", "p=v")]) ∧
    processTemplate ⟨false, false, false, false⟩ specLookup plainMustache memoryFiles
        ⟨"a.yaml.template", "go"⟩ "c" [] [("p", "v")] [("a.yaml.template", "p=$\x7bp\x7d")]
      = ((["Error processing `c` component template `a.yaml`: unknown `go` template kind"],
          []), [("a.yaml.template", "p=$\x7bp\x7d"), ("a.yaml", "")]) ∧
    processTemplate ⟨false, false, false, false⟩ specLookup plainMustache memoryFiles
        ⟨"missing", "go"⟩ "c" [] [("p", "v")] []
      = ((["Unable to open `c` component template input `missing`: " ++
            "open missing: no such file or directory"], []), []) ∧
    checkKind "c" "" = ("curly", []) ∧
    checkKind "c" "jinja"
      = ("jinja", [Event.warn "Component `%s` template kind `%s` not recognized; supported %v"
          ["c", "jinja", "[curly mustache _mustache go]"]]) := by
  decide

/-! ## The map of optional requirements -/

theorem stringsIndex_absent (s : List Char) (c : Char) (h : c ∉ s) : stringsIndex s c = -1 := by
  have h1 := (stringsIndex_neg s c).2 h
  have h2 := stringsIndex_ge s c
  omega

/-- A list in which the character occurs is cut at its first occurrence, which is where
`takeWhile` and `dropWhile` cut it. -/
theorem cut_at_first (s : List Char) (c : Char) (h : c ∈ s) :
    ∃ front back, s = front ++ c :: back ∧ c ∉ front ∧
      s.takeWhile (fun x => x != c) = front ∧
      (s.dropWhile (fun x => x != c)).drop 1 = back := by
  induction s with
  | nil => cases h
  | cons x rest ih =>
    by_cases hx : x = c
    · subst hx
      exact ⟨[], rest, rfl, by simp, by simp, by simp⟩
    · have hr : c ∈ rest := by
        rcases List.mem_cons.1 h with h' | h'
        · exact absurd h'.symm hx
        · exact h'
      obtain ⟨front, back, hs, hf, ht, hd⟩ := ih hr
      refine ⟨x :: front, back, by rw [hs]; rfl, ?_, ?_, ?_⟩
      · simp only [List.mem_cons, not_or]
        exact ⟨Ne.symm hx, hf⟩
      · have hb : (x != c) = true := by simpa using hx
        rw [List.takeWhile_cons, hb]
        simp only [if_true]
        rw [ht]
      · have hb : (x != c) = true := by simpa using hx
        rw [List.dropWhile_cons, hb]
        simp only [if_true]
        exact hd

theorem mapGet_AppendMapList_self (m : GoMap (List String)) (key value : String) :
    mapGet (AppendMapList m key value) key = some ((mapGet m key).getD [] ++ [value]) :=
  mapGet_mapSet_self _ _ _

theorem mapGet_AppendMapList_ne (m : GoMap (List String)) (key value term : String)
    (h : term ≠ key) : mapGet (AppendMapList m key value) term = mapGet m term :=
  mapGet_mapSet_ne _ _ _ _ h

theorem parseRequiresTunningLoop_plain (req : String) (rest : List String)
    (optional : GoMap (List String)) (h : ':' ∉ req.data) :
    parseRequiresTunningLoop (req :: rest) optional
      = parseRequiresTunningLoop rest (AppendMapList optional req "*") := by
  have hi := stringsIndex_absent req.data ':' h
  have h1 : ¬ (stringsIndex req.data ':' > 0 ∧
      stringsIndex req.data ':' < (req.data.length : Int) - 1) := by
    rw [hi]
    omega
  simp only [parseRequiresTunningLoop, if_neg h1, if_pos hi]

theorem parseRequiresTunningLoop_scoped (req : String) (rest : List String)
    (optional : GoMap (List String)) (front back : List Char)
    (hs : req.data = front ++ ':' :: back) (hf : ':' ∉ front) (hfront : front ≠ [])
    (hback : back ≠ []) :
    parseRequiresTunningLoop (req :: rest) optional
      = parseRequiresTunningLoop rest
          (AppendMapList optional (String.mk front) (String.mk back)) := by
  have hi : stringsIndex req.data ':' = front.length := by
    rw [hs]
    exact stringsIndex_append front back ':' hf
  have hfl : 0 < front.length := List.length_pos.2 hfront
  have hbl : 0 < back.length := List.length_pos.2 hback
  have hlen : req.data.length = front.length + (back.length + 1) := by
    rw [hs, List.length_append, List.length_cons]
  have h1 : stringsIndex req.data ':' > 0 ∧
      stringsIndex req.data ':' < (req.data.length : Int) - 1 := by
    rw [hi, hlen]
    push_cast
    omega
  have htake : req.data.take front.length = front := by
    rw [hs]
    exact List.take_left _ _
  have hdrop : req.data.drop (front.length + 1) = back := by
    rw [hs]
    have h2 : front ++ ':' :: back = (front ++ [':']) ++ back := by
      rw [List.append_assoc]
      rfl
    rw [h2]
    exact List.drop_left' (by rw [List.length_append]; rfl)
  simp only [parseRequiresTunningLoop, if_pos h1]
  rw [hi, Int.toNat_ofNat, htake, hdrop]

theorem parseRequiresTunningLoop_skip (req : String) (rest : List String)
    (optional : GoMap (List String)) (front back : List Char)
    (hs : req.data = front ++ ':' :: back) (hf : ':' ∉ front)
    (hempty : front = [] ∨ back = []) :
    parseRequiresTunningLoop (req :: rest) optional
      = parseRequiresTunningLoop rest optional := by
  have hi : stringsIndex req.data ':' = front.length := by
    rw [hs]
    exact stringsIndex_append front back ':' hf
  have hlen : req.data.length = front.length + (back.length + 1) := by
    rw [hs, List.length_append, List.length_cons]
  have h1 : ¬ (stringsIndex req.data ':' > 0 ∧
      stringsIndex req.data ':' < (req.data.length : Int) - 1) := by
    rw [hi, hlen]
    rcases hempty with h | h
    · rw [h]
      simp
    · rw [h]
      push_cast
      simp
  have h2 : ¬ stringsIndex req.data ':' = -1 := by
    rw [hi]
    omega
  simp only [parseRequiresTunningLoop, if_neg h1, if_neg h2]

theorem entryFor_plain (term req : String) (h : ':' ∉ req.data) :
    entryFor term req = if req = term then some "*" else none := by
  unfold entryFor
  exact if_pos h

theorem entryFor_cut (term req : String) (front back : List Char)
    (hs : req.data = front ++ ':' :: back) (hf : ':' ∉ front) :
    entryFor term req =
      if front ≠ [] ∧ back ≠ [] ∧ String.mk front = term then some (String.mk back)
      else none := by
  have hmem : ':' ∈ req.data := by
    rw [hs]
    simp
  obtain ⟨front2, back2, hs2, hf2, ht, hd⟩ := cut_at_first req.data ':' hmem
  have hlen : front2.length = front.length := by
    have a := stringsIndex_append front back ':' hf
    have b := stringsIndex_append front2 back2 ':' hf2
    rw [← hs] at a
    rw [← hs2] at b
    rw [a] at b
    exact_mod_cast b.symm
  have hboth : front ++ ':' :: back = front2 ++ ':' :: back2 := by rw [← hs, ← hs2]
  have hfront : front2 = front := (List.append_inj hboth hlen.symm).1.symm
  have hback : back2 = back := by
    have := (List.append_inj hboth hlen.symm).2
    simp only [List.cons.injEq, true_and] at this
    exact this.symm
  unfold entryFor
  rw [if_neg (not_not.2 hmem), ht, hd, hfront, hback]

theorem optionalComponents_cons (req : String) (rest : List String) (term : String) :
    optionalComponents (req :: rest) term
      = (entryFor term req).toList ++ optionalComponents rest term := by
  unfold optionalComponents
  rw [List.filterMap_cons]
  cases entryFor term req <;> rfl

/-- The list of a term after the loop: what the map held for it, followed by what the entries
give to it. -/
theorem parseRequiresTunningLoop_get (entries : List String) (term : String) :
    ∀ optional : GoMap (List String),
      mapGet (parseRequiresTunningLoop entries optional) term =
        if optionalComponents entries term = [] then mapGet optional term
        else some ((mapGet optional term).getD [] ++ optionalComponents entries term) := by
  induction entries with
  | nil =>
    intro optional
    rfl
  | cons req rest ih =>
    intro optional
    have hadd : ∀ key value : String,
        (∀ t, entryFor t req = if key = t then some value else none) →
        mapGet (parseRequiresTunningLoop rest (AppendMapList optional key value)) term =
          if optionalComponents (req :: rest) term = [] then mapGet optional term
          else some ((mapGet optional term).getD [] ++
            optionalComponents (req :: rest) term) := by
      intro key value hentry
      rw [ih, optionalComponents_cons, hentry term]
      by_cases hk : key = term
      · subst hk
        rw [if_pos rfl, mapGet_AppendMapList_self]
        by_cases hc : optionalComponents rest key = []
        · simp [hc]
        · simp [hc]
      · rw [if_neg hk, mapGet_AppendMapList_ne _ _ _ _ (Ne.symm hk)]
        rfl
    have hnone : (∀ t, entryFor t req = none) →
        mapGet (parseRequiresTunningLoop rest optional) term =
          if optionalComponents (req :: rest) term = [] then mapGet optional term
          else some ((mapGet optional term).getD [] ++
            optionalComponents (req :: rest) term) := by
      intro hentry
      rw [ih, optionalComponents_cons, hentry term]
      rfl
    by_cases hmem : ':' ∈ req.data
    · obtain ⟨front, back, hs, hf, _, _⟩ := cut_at_first req.data ':' hmem
      by_cases hboth : front ≠ [] ∧ back ≠ []
      · rw [parseRequiresTunningLoop_scoped req rest optional front back hs hf hboth.1 hboth.2]
        refine hadd _ _ (fun t => ?_)
        rw [entryFor_cut t req front back hs hf]
        by_cases ht : String.mk front = t
        · rw [if_pos ⟨hboth.1, hboth.2, ht⟩, if_pos ht]
        · rw [if_neg (fun h => ht h.2.2), if_neg ht]
      · have hempty : front = [] ∨ back = [] := by
          by_cases h1 : front = []
          · exact Or.inl h1
          · exact Or.inr (by_contra fun h2 => hboth ⟨h1, h2⟩)
        rw [parseRequiresTunningLoop_skip req rest optional front back hs hf hempty]
        refine hnone (fun t => ?_)
        rw [entryFor_cut t req front back hs hf]
        exact if_neg (fun h => hboth ⟨h.1, h.2.1⟩)
    · rw [parseRequiresTunningLoop_plain req rest optional hmem]
      exact hadd _ _ (fun t => entryFor_plain t req hmem)

theorem parseRequiresTunningLoop_append (front back : List String) :
    ∀ optional : GoMap (List String),
      parseRequiresTunningLoop (front ++ back) optional
        = parseRequiresTunningLoop back (parseRequiresTunningLoop front optional) := by
  induction front with
  | nil =>
    intro optional
    rfl
  | cons req rest ih =>
    intro optional
    simp only [List.cons_append, parseRequiresTunningLoop]
    split
    · exact ih _
    · split
      · exact ih _
      · exact ih _

theorem data_scoped (term component : String) :
    (term ++ ":" ++ component).data = term.data ++ ':' :: component.data := by
  rw [String.data_append, String.data_append, List.append_assoc]
  rfl

theorem data_ne_nil (s : String) (h : s ≠ "") : s.data ≠ [] :=
  fun e => h (String.ext e)

theorem entryFor_some (term req component : String) (h : entryFor term req = some component) :
    (component = "*" ∧ ':' ∉ term.data ∧ req = term) ∨
      (term ≠ "" ∧ ':' ∉ term.data ∧ component ≠ "" ∧ req = term ++ ":" ++ component) := by
  by_cases hmem : ':' ∈ req.data
  · obtain ⟨front, back, hs, hf, _, _⟩ := cut_at_first req.data ':' hmem
    rw [entryFor_cut term req front back hs hf] at h
    by_cases hc : front ≠ [] ∧ back ≠ [] ∧ String.mk front = term
    · rw [if_pos hc] at h
      have hcomp : String.mk back = component := Option.some.inj h
      obtain ⟨h1, h2, h3⟩ := hc
      subst h3
      subst hcomp
      refine Or.inr ⟨fun e => h1 (congrArg String.data e), hf,
        fun e => h2 (congrArg String.data e), String.ext ?_⟩
      rw [hs, data_scoped]
    · rw [if_neg hc] at h
      cases h
  · rw [entryFor_plain term req hmem] at h
    by_cases hr : req = term
    · rw [if_pos hr] at h
      have hcomp : "*" = component := Option.some.inj h
      subst hr
      exact Or.inl ⟨hcomp.symm, hmem, rfl⟩
    · rw [if_neg hr] at h
      cases h

/-- C21: `parseRequiresTunning` builds the map of optional requirements from the `optional`
list. An entry without `:` adds `*` to the list of that term; an entry `term:component` with
neither part empty and no `:` in the term adds the component to the list of the term; an entry
that begins with `:` or whose first `:` is its last character adds nothing; and every entry is
of one of these kinds. The list of a term in the result is what the entries give to it, in
the order of the entries, and a term to which no entry gives anything has no list: every list
is non-empty and every component in it comes from an entry. -/
theorem parseRequiresTunning_spec (entries : List String) :
    (∀ req : String, ':' ∉ req.data →
      parseRequiresTunning ⟨entries ++ [req]⟩
        = AppendMapList (parseRequiresTunning ⟨entries⟩) req "*") ∧
    (∀ term component : String, term ≠ "" → ':' ∉ term.data → component ≠ "" →
      parseRequiresTunning ⟨entries ++ [term ++ ":" ++ component]⟩
        = AppendMapList (parseRequiresTunning ⟨entries⟩) term component) ∧
    (∀ rest : String,
      parseRequiresTunning ⟨entries ++ [":" ++ rest]⟩ = parseRequiresTunning ⟨entries⟩) ∧
    (∀ term : String, ':' ∉ term.data →
      parseRequiresTunning ⟨entries ++ [term ++ ":"]⟩ = parseRequiresTunning ⟨entries⟩) ∧
    (∀ req : String, ':' ∉ req.data ∨
      (∃ term component : String, term ≠ "" ∧ ':' ∉ term.data ∧ component ≠ "" ∧
        req = term ++ ":" ++ component) ∨
      (∃ rest : String, req = ":" ++ rest) ∨
      (∃ term : String, ':' ∉ term.data ∧ req = term ++ ":")) ∧
    (∀ term : String,
      mapGet (parseRequiresTunning ⟨entries⟩) term =
        if optionalComponents entries term = [] then none
        else some (optionalComponents entries term)) ∧
    (∀ (term : String) (l : List String),
      mapGet (parseRequiresTunning ⟨entries⟩) term = some l →
        l ≠ [] ∧ l = optionalComponents entries term ∧
        ∀ component ∈ l,
          (component = "*" ∧ ':' ∉ term.data ∧ term ∈ entries) ∨
            (term ≠ "" ∧ ':' ∉ term.data ∧ component ≠ "" ∧
              term ++ ":" ++ component ∈ entries)) := by
  have hget : ∀ term : String,
      mapGet (parseRequiresTunning ⟨entries⟩) term =
        if optionalComponents entries term = [] then none
        else some (optionalComponents entries term) := by
    intro term
    have h := parseRequiresTunningLoop_get entries term []
    by_cases hc : optionalComponents entries term = []
    · rw [if_pos hc] at h
      rw [if_pos hc]
      exact h
    · rw [if_neg hc] at h
      rw [if_neg hc]
      exact h.trans (by simp [mapGet])
  have hlast : ∀ req : String, parseRequiresTunning ⟨entries ++ [req]⟩
      = parseRequiresTunningLoop [req] (parseRequiresTunning ⟨entries⟩) :=
    fun req => parseRequiresTunningLoop_append entries [req] []
  refine ⟨?_, ?_, ?_, ?_, ?_, hget, ?_⟩
  · intro req h
    rw [hlast, parseRequiresTunningLoop_plain req [] _ h]
    rfl
  · intro term component ht hc hcomp
    rw [hlast, parseRequiresTunningLoop_scoped (term ++ ":" ++ component) [] _ term.data
      component.data (data_scoped term component) hc (data_ne_nil term ht)
      (data_ne_nil component hcomp)]
    rfl
  · intro rest
    rw [hlast, parseRequiresTunningLoop_skip (":" ++ rest) [] _ [] rest.data
      (by rw [String.data_append]; rfl) (by simp) (Or.inl rfl)]
    rfl
  · intro term hc
    rw [hlast, parseRequiresTunningLoop_skip (term ++ ":") [] _ term.data []
      (by rw [String.data_append]) hc (Or.inr rfl)]
    rfl
  · intro req
    by_cases hmem : ':' ∈ req.data
    · obtain ⟨front, back, hs, hf, _, _⟩ := cut_at_first req.data ':' hmem
      right
      by_cases h1 : front = []
      · right
        left
        refine ⟨String.mk back, String.ext ?_⟩
        rw [hs, h1, String.data_append]
        rfl
      · by_cases h2 : back = []
        · right
          right
          refine ⟨String.mk front, hf, String.ext ?_⟩
          rw [hs, h2, String.data_append]
        · left
          refine ⟨String.mk front, String.mk back, fun e => h1 (congrArg String.data e), hf,
            fun e => h2 (congrArg String.data e), String.ext ?_⟩
          rw [hs, data_scoped]
    · exact Or.inl hmem
  · intro term l h
    rw [hget term] at h
    by_cases hc : optionalComponents entries term = []
    · rw [if_pos hc] at h
      cases h
    · rw [if_neg hc] at h
      have hl : optionalComponents entries term = l := Option.some.inj h
      refine ⟨by rw [← hl]; exact hc, hl.symm, ?_⟩
      intro component hmem
      rw [← hl] at hmem
      obtain ⟨req, hreq, hentry⟩ := List.mem_filterMap.1 hmem
      rcases entryFor_some term req component hentry with ⟨a, b, c⟩ | ⟨a, b, c, d⟩
      · exact Or.inl ⟨a, b, by rw [← c]; exact hreq⟩
      · exact Or.inr ⟨a, b, c, by rw [← d]; exact hreq⟩

/-- C21 (example): the entry `ingress:app` after the entry `kubernetes`. -/
theorem parseRequiresTunning_spec_witness :
    parseRequiresTunning ⟨["kubernetes", "ingress:app"]⟩
      = [("kubernetes", ["*"]), ("ingress", ["app"])] :=
  ((parseRequiresTunning_spec ["kubernetes"]).2.1 "ingress" "app" (by decide) (by decide)
    (by decide)).trans (by decide)

/-- An evaluation of `parseRequiresTunning` on entries of every kind. -/
theorem parseRequiresTunning_example :
    parseRequiresTunning
        ⟨["kubernetes", "ingress:app", "ingress:web", ":x", "y:", "a:b:c", "", "kubernetes",
          "istio.enabled:mesh"]⟩
      = [("kubernetes", ["*", "*"]), ("ingress", ["app", "web"]), ("a", ["b:c"]), ("", ["*"]),
          ("istio.enabled", ["mesh"])] ∧
    optionalComponents
        ["kubernetes", "ingress:app", "ingress:web", ":x", "y:", "a:b:c", "", "kubernetes",
          "istio.enabled:mesh"] "ingress" = ["app", "web"] ∧
    optionalComponents ["kubernetes", "ingress:app", ":x", "y:"] "y" = [] ∧
    mapGet (parseRequiresTunning ⟨["kubernetes", "ingress:app", ":x", "y:"]⟩) "y" = none := by
  decide

/-! ## `processReplacement` on values of any bytes -/

/-- An evaluation of `TrimSpaceBytes`: white space of one and of several bytes is dropped at
both ends; the byte `85` on its own is no white space, the form `c2 85` is. -/
theorem TrimSpaceBytes_example :
    TrimSpaceBytes (textBytes " \t padded value\n") = textBytes "padded value" ∧
      TrimSpaceBytes (textBytes "  v 　") = textBytes "v" ∧
      TrimSpaceBytes [0x20, 0x85, 0x20] = [0x85] ∧
      TrimSpaceBytes [0xC2, 0x85, 0x76, 0xC2, 0x85] = [0x76] ∧
      TrimSpaceBytes [0xE2, 0xC2, 0x85] = [0xE2] ∧
      TrimSpaceBytes [0xFF, 0x20] = [0xFF] ∧
      TrimSpaceBytes (textBytes "  ") = [] := by
  decide

/-- Every character of an encoding is ASCII. -/
theorem base64Encode_ascii (bs : List Nat) : ∀ c ∈ base64Encode bs, c.toNat < 128 := by
  have hsext : ∀ i, (encodeSextet i).toNat < 128 := by
    intro i
    have hall : ∀ c ∈ 'A' :: base64Alphabet, c.toNat < 128 := by decide
    apply hall
    unfold encodeSextet
    rw [List.getD_eq_getElem?_getD]
    cases h : base64Alphabet[i]? with
    | none => simp
    | some c => exact List.mem_cons_of_mem _ (List.getElem?_mem h)
  have hpad : ('=' : Char).toNat < 128 := by decide
  intro c hc
  induction bs using base64Encode.induct with
  | case1 => simp [base64Encode] at hc
  | case2 a =>
    simp only [base64Encode, List.mem_cons, List.mem_singleton] at hc
    rcases hc with rfl | rfl | rfl | hc
    · exact hsext _
    · exact hsext _
    · exact hpad
    · rcases hc with rfl | hc
      · exact hpad
      · cases hc
  | case3 a b =>
    simp only [base64Encode, List.mem_cons, List.mem_singleton] at hc
    rcases hc with rfl | rfl | rfl | hc
    · exact hsext _
    · exact hsext _
    · exact hsext _
    · rcases hc with rfl | hc
      · exact hpad
      · cases hc
  | case4 a b c' rest ih =>
    simp only [base64Encode, List.mem_cons] at hc
    rcases hc with rfl | rfl | rfl | rfl | hc
    · exact hsext _
    · exact hsext _
    · exact hsext _
    · exact hsext _
    · exact ih hc

theorem ofNats_val (v : GoBytes) : ofNats (v.map Fin.val) = v := by
  unfold ofNats
  rw [List.map_map]
  conv_rhs => rw [← List.map_id v]
  apply List.map_congr_left
  intro b _
  apply Fin.ext
  simp [Fin.ofNat, Nat.mod_eq_of_lt b.isLt]

/-- The bytes of ASCII characters, read one by one, are the characters. -/
theorem bytesLatin_charsBytes (cs : List Char) (h : ∀ c ∈ cs, c.toNat < 128) :
    bytesLatin (ofNats (charsBytes cs)) = cs := by
  induction cs with
  | nil => rfl
  | cons c rest ih =>
    have hc : c.toNat < 0x80 := h c (List.mem_cons_self _ _)
    have hrest := ih (fun x hx => h x (List.mem_cons_of_mem _ hx))
    have hhead : Char.ofNat ((Fin.ofNat c.toNat : Fin 256)).val = c := by
      have hval : ((Fin.ofNat c.toNat : Fin 256)).val = c.toNat :=
        Nat.mod_eq_of_lt (by omega)
      rw [hval, Char.ofNat_toNat]
    unfold bytesLatin ofNats at hrest ⊢
    simp only [charsBytes, utf8Bytes, if_pos hc, List.cons_append, List.nil_append,
      List.map_cons]
    rw [hrest, hhead]

/-- Decoding an encoding gives back the bytes encoded, whatever they are. -/
theorem unbase64Bytes_base64Bytes (v : GoBytes) : unbase64Bytes (base64Bytes v) = some v := by
  have hlt : ∀ b ∈ v.map Fin.val, b < 256 := by
    intro b hb
    obtain ⟨x, _, rfl⟩ := List.mem_map.1 hb
    exact x.isLt
  unfold unbase64Bytes base64Bytes
  rw [bytesLatin_charsBytes _ (base64Encode_ascii _), base64Decode_encode _ hlt]
  simp only [Option.map_some', ofNats_val]

theorem replaceMatchesBytes_single (callback : String → SubstitutedBytes) (m : String) :
    (replaceMatchesBytes callback [Piece.hit m]).substitution = (callback m).substitution ∧
      (replaceMatchesBytes callback [Piece.hit m]).errs = (callback m).errs := by
  simp [replaceMatchesBytes]

theorem processReplacementBytes_single (cfg : Config) (lk : LookupBytes)
    (filename componentName : String) (componentDepends : List String) (kv : GoMap GoBytes)
    (body : String) (hne : body ≠ "") (hid : ∀ c ∈ body.data, isIdentifierChar c = true) :
    (processReplacementBytes cfg lk ("$\x7b" ++ body ++ "\x7d") filename componentName
        componentDepends kv curlyReplacement stripCurly).1
      = ((replaceVariableBytes cfg lk filename componentName componentDepends kv stripCurly
            ("$\x7b" ++ body ++ "\x7d")).substitution,
          (replaceVariableBytes cfg lk filename componentName componentDepends kv stripCurly
            ("$\x7b" ++ body ++ "\x7d")).errs) := by
  simp only [processReplacementBytes, curlyReplacement_single body hne hid]
  exact Prod.ext (replaceMatchesBytes_single _ _).1 (replaceMatchesBytes_single _ _).2

/-- What the callback returns for a match whose variable has a value, by encoding. -/
theorem replaceVariableBytes_found (cfg : Config) (lk : LookupBytes)
    (filename componentName : String) (componentDepends : List String) (kv : GoMap GoBytes)
    (strip : String → String) (m name enc : String) (v : GoBytes)
    (hsplit : valueEncoding (strip m) = (name, enc))
    (hv : lk.FindValue name componentName componentDepends kv = some v) :
    (replaceVariableBytes cfg lk filename componentName componentDepends kv strip m).errs
        = [] ∧
    (replaceVariableBytes cfg lk filename componentName componentDepends kv strip
        m).substitution =
      if enc = "" then TrimSpaceBytes v
      else if enc = "base64" then base64Bytes v
      else if enc = "unbase64" then
        match unbase64Bytes v with
        | some bytes => bytes
        | none => v
      else v := by
  simp only [replaceVariableBytes, hsplit, hv, Option.getD_some]
  by_cases h0 : enc = ""
  · simp [h0]
  · by_cases h1 : enc = "base64"
    · simp [h1]
    · by_cases h2 : enc = "unbase64"
      · cases hd : unbase64Bytes v <;> simp [h2, hd]
      · simp [h0, h1, h2]

/-- C11: the encoding round trip, for every value, text or not. For a variable `p` (an
identifier without `/`) that has the value `v`, a Go string of any bytes, the content
`${p/base64}` renders as the standard base64 encoding of `v`; for a variable `q` that has
that encoding as its value, the content `${q/unbase64}` renders as `v`, byte for byte; in
both cases no error is recorded. The same holds for the placeholder inside any content (for
every scan and every `strip` that give the variable and the encoding). -/
theorem processReplacementBytes_base64_roundtrip (cfg : Config) (lk : LookupBytes)
    (filename componentName : String) (componentDepends : List String) (kv : GoMap GoBytes)
    (p q : String) (v : GoBytes)
    (hp : p ≠ "") (hps : '/' ∉ p.data) (hpi : ∀ c ∈ p.data, isIdentifierChar c = true)
    (hq : q ≠ "") (hqs : '/' ∉ q.data) (hqi : ∀ c ∈ q.data, isIdentifierChar c = true)
    (hpv : lk.FindValue p componentName componentDepends kv = some v)
    (hqv : lk.FindValue q componentName componentDepends kv = some (base64Bytes v)) :
    (processReplacementBytes cfg lk ("$\x7b" ++ (p ++ "/" ++ "base64") ++ "\x7d") filename
        componentName componentDepends kv curlyReplacement stripCurly).1
      = (base64Bytes v, []) ∧
    (processReplacementBytes cfg lk ("$\x7b" ++ (q ++ "/" ++ "unbase64") ++ "\x7d") filename
        componentName componentDepends kv curlyReplacement stripCurly).1
      = (v, []) ∧
    (∀ (strip : String → String) (m : String), valueEncoding (strip m) = (p, "base64") →
      (replaceVariableBytes cfg lk filename componentName componentDepends kv strip
          m).substitution = base64Bytes v ∧
        (replaceVariableBytes cfg lk filename componentName componentDepends kv strip m).errs
          = []) ∧
    (∀ (strip : String → String) (m : String), valueEncoding (strip m) = (q, "unbase64") →
      (replaceVariableBytes cfg lk filename componentName componentDepends kv strip
          m).substitution = v ∧
        (replaceVariableBytes cfg lk filename componentName componentDepends kv strip m).errs
          = []) := by
  have hdec := unbase64Bytes_base64Bytes v
  have hE : ∀ (strip : String → String) (m : String), valueEncoding (strip m) = (p, "base64") →
      (replaceVariableBytes cfg lk filename componentName componentDepends kv strip
          m).substitution = base64Bytes v ∧
        (replaceVariableBytes cfg lk filename componentName componentDepends kv strip m).errs
          = [] := by
    intro strip m hm
    have h := replaceVariableBytes_found cfg lk filename componentName componentDepends kv
      strip m p "base64" v hm hpv
    refine ⟨?_, h.1⟩
    rw [h.2]
    simp
  have hD : ∀ (strip : String → String) (m : String),
      valueEncoding (strip m) = (q, "unbase64") →
      (replaceVariableBytes cfg lk filename componentName componentDepends kv strip
          m).substitution = v ∧
        (replaceVariableBytes cfg lk filename componentName componentDepends kv strip m).errs
          = [] := by
    intro strip m hm
    have h := replaceVariableBytes_found cfg lk filename componentName componentDepends kv
      strip m q "unbase64" _ hm hqv
    refine ⟨?_, h.1⟩
    rw [h.2, hdec]
    simp
  have hb64 : ∀ c ∈ ("/" ++ "base64" : String).data, isIdentifierChar c = true := by decide
  have hu64 : ∀ c ∈ ("/" ++ "unbase64" : String).data, isIdentifierChar c = true := by decide
  refine ⟨?_, ?_, hE, hD⟩
  · have hsplit : valueEncoding (stripCurly ("$\x7b" ++ (p ++ "/" ++ "base64") ++ "\x7d"))
        = (p, "base64") := by
      rw [stripCurly_bracket]
      exact valueEncoding_name_enc p "base64" hp hps (by decide)
    rw [processReplacementBytes_single cfg lk filename componentName componentDepends kv _
      (append_ne_empty _ _ (by decide))
      (by
        rw [String.append_assoc]
        exact identifier_append _ _ hpi hb64)]
    exact Prod.ext (hE _ _ hsplit).1 (hE _ _ hsplit).2
  · have hsplit : valueEncoding (stripCurly ("$\x7b" ++ (q ++ "/" ++ "unbase64") ++ "\x7d"))
        = (q, "unbase64") := by
      rw [stripCurly_bracket]
      exact valueEncoding_name_enc q "unbase64" hq hqs (by decide)
    rw [processReplacementBytes_single cfg lk filename componentName componentDepends kv _
      (append_ne_empty _ _ (by decide))
      (by
        rw [String.append_assoc]
        exact identifier_append _ _ hqi hu64)]
    exact Prod.ext (hD _ _ hsplit).1 (hD _ _ hsplit).2

/-- C11 (example): `p = hello` renders `aGVsbG8=` and `q = aGVsbG8=` renders `hello`; and with
the value of `p` the two bytes `ff c0`, which are no text, `p` renders `/8A=` and `q = /8A=`
renders the two bytes. -/
theorem processReplacementBytes_base64_roundtrip_witness :
    ((processReplacementBytes ⟨false, false, false, false⟩ specLookupBytes
          ("$\x7b" ++ ("p" ++ "/" ++ "base64") ++ "\x7d") "f" "c" []
          [("p", textBytes "hello"), ("q", textBytes "aGVsbG8=")] curlyReplacement
          stripCurly).1 = (textBytes "aGVsbG8=", []) ∧
      (processReplacementBytes ⟨false, false, false, false⟩ specLookupBytes
          ("$\x7b" ++ ("q" ++ "/" ++ "unbase64") ++ "\x7d") "f" "c" []
          [("p", textBytes "hello"), ("q", textBytes "aGVsbG8=")] curlyReplacement
          stripCurly).1 = (textBytes "hello", [])) ∧
    ((processReplacementBytes ⟨false, false, false, false⟩ specLookupBytes
          ("$\x7b" ++ ("p" ++ "/" ++ "base64") ++ "\x7d") "f" "c" []
          [("p", [0xFF, 0xC0]), ("q", textBytes "/8A=")] curlyReplacement
          stripCurly).1 = (textBytes "/8A=", []) ∧
      (processReplacementBytes ⟨false, false, false, false⟩ specLookupBytes
          ("$\x7b" ++ ("q" ++ "/" ++ "unbase64") ++ "\x7d") "f" "c" []
          [("p", [0xFF, 0xC0]), ("q", textBytes "/8A=")] curlyReplacement
          stripCurly).1 = ([0xFF, 0xC0], [])) :=
  ⟨⟨(processReplacementBytes_base64_roundtrip ⟨false, false, false, false⟩ specLookupBytes
        "f" "c" [] [("p", textBytes "hello"), ("q", textBytes "aGVsbG8=")] "p" "q"
        (textBytes "hello") (by decide) (by decide) (by decide) (by decide) (by decide)
        (by decide) (by decide) (by decide)).1.trans (by decide),
      (processReplacementBytes_base64_roundtrip ⟨false, false, false, false⟩ specLookupBytes
        "f" "c" [] [("p", textBytes "hello"), ("q", textBytes "aGVsbG8=")] "p" "q"
        (textBytes "hello") (by decide) (by decide) (by decide) (by decide) (by decide)
        (by decide) (by decide) (by decide)).2.1⟩,
    ⟨(processReplacementBytes_base64_roundtrip ⟨false, false, false, false⟩ specLookupBytes
        "f" "c" [] [("p", [0xFF, 0xC0]), ("q", textBytes "/8A=")] "p" "q" [0xFF, 0xC0]
        (by decide) (by decide) (by decide) (by decide) (by decide) (by decide) (by decide)
        (by decide)).1.trans (by decide),
      (processReplacementBytes_base64_roundtrip ⟨false, false, false, false⟩ specLookupBytes
        "f" "c" [] [("p", [0xFF, 0xC0]), ("q", textBytes "/8A=")] "p" "q" [0xFF, 0xC0]
        (by decide) (by decide) (by decide) (by decide) (by decide) (by decide) (by decide)
        (by decide)).2.1⟩⟩

/-- An evaluation of `processReplacementBytes`: the value `/w==` decodes to the single byte
`ff`, which is written as it is; a value that is no base64 is left as it is, with a warning;
a value without encoding is trimmed; a variable without a value renders `(unknown)`. -/
theorem processReplacementBytes_example :
    (processReplacementBytes ⟨false, false, false, false⟩ specLookupBytes
        "$\x7bq/unbase64\x7d" "f" "c" [] [("q", textBytes "/w==")] curlyReplacement
        stripCurly).1 = ([0xFF], []) ∧
    processReplacementBytes ⟨false, false, false, false⟩ specLookupBytes
        "a=$\x7bq/unbase64\x7d;b=$\x7bs\x7d;c=$\x7bmissing\x7d" "f" "c" []
        [("q", [0xFF]), ("s", textBytes " v ")] curlyReplacement stripCurly
      = ((textBytes "a=" ++ [0xFF] ++ textBytes ";b=v;c=(unknown)",
          ["Template `f` refer to unknown substitution `missing`"]),
          [RawEvent.warn "Unable to decode `%s` base64 value `%s`: %v"
            [textBytes "q", [0xFF]]]) := by
  decide

end Hub
